import Mathlib

/-!
# Document search: snippet generation and the worker job handler

A shallow embedding of these parts of the repository:

* `backend/src/routes/search.js`: the snippet and highlight computation that
  the search route performs for every result page, and the route itself
  (validation of the query, paging, the response);
* `worker/src/worker.js`: the job handler that rasterizes a document, runs
  recognition page by page and keeps the Document, Job and Page records up
  to date;
* `backend/src/utils/simpleQueue.js` (both copies) and the routes that write
  to the store: upload, document reprocess, page reprocess, correction;
* `worker/src/processors`: the image stages, the recognition of one image and
  the conversion of a PDF to page images.

JavaScript strings are modelled as lists of UTF-16 code units, so lengths and
positions are those of the program.  The case conversions of the JavaScript
engine (`String.prototype.toLowerCase`, which may change the length of a
string, and the canonicalization behind the flag `i` of a regular expression)
are not defined by the repository: they are parameters (`CaseRules`).
-/

set_option autoImplicit false
set_option maxRecDepth 100000
set_option exponentiation.threshold 1100

namespace Search

/-- A JavaScript string, as the list of its UTF-16 code units. -/
abbrev Str := List Nat

/-- The code units of one character: the character itself in the Basic
Multilingual Plane, a surrogate pair above it. -/
def unitsOf (c : Char) : Str :=
  if c.toNat < 65536 then [c.toNat]
  else [55296 + (c.toNat - 65536) / 1024, 56320 + (c.toNat - 65536) % 1024]

/-- The JavaScript string with the given characters. -/
def units (s : String) : Str := (s.toList.map unitsOf).flatten

/-- The case conversions of the JavaScript engine.  `toLowerCase` is
`String.prototype.toLowerCase`; `canonicalize` is the mapping of one code unit
that a regular expression with flag `i` (and without flag `u`) applies to the
pattern and to the input before it compares them. -/
structure CaseRules where
  toLowerCase : Str → Str
  canonicalize : Nat → Nat

/-- The call `s.split(' ')`: the pieces of `s` between single spaces (never empty:
`''.split(' ')` is `['']`); 32 is the space. -/
def split : Str → List Str
  | [] => [[]]
  | c :: cs =>
    if c = 32 then [] :: split cs
    else
      match split cs with
      | [] => [[c]]
      | w :: ws => (c :: w) :: ws

/-- The call `s.indexOf(w)`: the least position at which `w` occurs in `s`
(`none` models `-1`). -/
def indexOf : Str → Str → Option Nat
  | [], w => if w.isPrefixOf [] then some 0 else none
  | c :: cs, w =>
    if w.isPrefixOf (c :: cs) then some 0
    else (indexOf cs w).map (· + 1)

/-- The call `s.substring(a, b)` for non-negative `a`, `b`: both are clamped to the
length and swapped when `a > b`. -/
def substring (s : Str) (a b : Nat) : Str :=
  (s.take (max a b)).drop (min a b)

/-- The characters with a special meaning in a regular expression.  The
pattern `(w1|w2|...)` built by the route is an alternation of literal words
only when no word contains one of them. -/
def regexMeta : List Nat := units "\\^$.|?*+()[]{}"

/-- The word is a literal as a regular expression. -/
def literalWord (w : Str) : Bool := w.all (fun c => !regexMeta.contains c)

/-- A string with every code unit canonicalized, as the flag `i` does. -/
def canonical (u : CaseRules) (s : Str) : Str := s.map u.canonicalize

/-- One alternative of the pattern matches at the head of `s`, ignoring case
(flag `i`). -/
def matchesAt (u : CaseRules) (w s : Str) : Bool := (canonical u w).isPrefixOf (canonical u s)

/-- The pattern `(w1|w2|...)` tried at the head of `s`: alternatives are tried
in order and the first that matches wins; the result is the matched length. -/
def matchAlt (u : CaseRules) : List Str → Str → Option Nat
  | [], _ => none
  | w :: ws, s => if matchesAt u w s then some w.length else matchAlt u ws s

/-- A piece of the result of a global replace: a source code unit that was
copied, or a match (the text captured by group 1). -/
inductive Seg where
  | plain (c : Nat)
  | mark (m : Str)
  deriving DecidableEq, Repr

/-- The global scan of `replace` with flag `g`: at each position the pattern is
tried; a match is consumed whole and the scan resumes after it; an empty match
is recorded and the scan advances by one code unit; otherwise the code unit is
copied.  The first argument bounds the number of steps. -/
def scan (u : CaseRules) (words : List Str) : Nat → Str → List Seg
  | 0, _ => []
  | _ + 1, [] =>
    match matchAlt u words [] with
    | some _ => [Seg.mark []]
    | none => []
  | fuel + 1, c :: cs =>
    match matchAlt u words (c :: cs) with
    | none => Seg.plain c :: scan u words fuel cs
    | some 0 => Seg.mark [] :: Seg.plain c :: scan u words fuel cs
    | some (l + 1) => Seg.mark ((c :: cs).take (l + 1)) :: scan u words fuel (cs.drop l)

/-- The opening marker `<mark>` of the replacement template. -/
def openMark : Str := [60, 109, 97, 114, 107, 62]

/-- The closing marker `</mark>` of the replacement template. -/
def closeMark : Str := [60, 47, 109, 97, 114, 107, 62]

/-- The replacement template `'<mark>$1</mark>'` applied to every match. -/
def render : List Seg → Str
  | [] => []
  | Seg.plain c :: r => c :: render r
  | Seg.mark m :: r => openMark ++ m ++ closeMark ++ render r

/-- The source code units a list of pieces covers, in order. -/
def source : List Seg → Str
  | [] => []
  | Seg.plain c :: r => c :: source r
  | Seg.mark m :: r => m ++ source r

/-- The pieces of `snippet.replace(new RegExp('(' + words.join('|') + ')', 'gi'), ...)`
for literal words. -/
def segments (u : CaseRules) (words : List Str) (snippet : Str) : List Seg :=
  scan u words (snippet.length + 1) snippet

/-- The call
`snippet.replace(new RegExp('(' + words.join('|') + ')', 'gi'), '<mark>$1</mark>')`
for literal words. -/
def highlight (u : CaseRules) (words : List Str) (snippet : Str) : Str :=
  render (segments u words snippet)

/-- The window bounds of the route: `Math.max(0, index - 100)` and
`Math.min(text.length, index + word.length + 100)`. -/
def windowStart (index : Nat) : Nat := Int.toNat (max 0 ((index : Int) - 100))

/-- See `windowStart`. -/
def windowEnd (text word : Str) (index : Nat) : Nat :=
  min text.length (index + word.length + 100)

/-- The `for (const word of queryWords)` loop of the route: the first word, in
query order, that occurs in the lower-cased text fixes the window; the loop
stops there.  The position found in `text.toLowerCase()` is applied to `text`
itself.  The result is the pair `(snippet, highlightedSnippet)`, both `''` when
no word occurs. -/
def snippetLoop (u : CaseRules) (text : Str) (queryWords : List Str) : List Str → Str × Str
  | [] => ([], [])
  | word :: rest =>
    match indexOf (u.toLowerCase text) word with
    | some index =>
      let snippet := substring text (windowStart index) (windowEnd text word index)
      (snippet, highlight u queryWords snippet)
    | none => snippetLoop u text queryWords rest

/-- The query words `q.toLowerCase().split(' ')`. -/
def queryWords (u : CaseRules) (q : Str) : List Str := split (u.toLowerCase q)

/-- The un-highlighted `snippet` variable of the route for one result. -/
def plainSnippet (u : CaseRules) (q text : Str) : Str :=
  (snippetLoop u text (queryWords u q) (queryWords u q)).1

/-- The `snippet` field of one search result:
`highlightedSnippet || text.substring(0, 200)`. -/
def resultSnippet (u : CaseRules) (q text : Str) : Str :=
  let highlighted := (snippetLoop u text (queryWords u q) (queryWords u q)).2
  if highlighted = [] then substring text 0 200 else highlighted

end Search


namespace Search

/-- The matches among the pieces, each with its position in the source text;
`off` is the source position of the first piece. -/
def marks : Nat → List Seg → List (Nat × Str)
  | _, [] => []
  | off, Seg.plain _ :: r => marks (off + 1) r
  | off, Seg.mark m :: r => (off, m) :: marks (off + m.length) r

/-- The word `w` occurs in `s` at position `p`, ignoring case. -/
def occursAt (u : CaseRules) (s : Str) (p : Nat) (w : Str) : Prop :=
  matchesAt u w (s.drop p) = true

instance (u : CaseRules) (s : Str) (p : Nat) (w : Str) : Decidable (occursAt u s p w) := by
  unfold occursAt; infer_instance

/-- The occurrence of `w` at `p` shares no code unit with an occurrence of a
query word that covers another span of `s`. -/
def isolated (u : CaseRules) (words : List Str) (s : Str) (p : Nat) (w : Str) : Prop :=
  ∀ p' < p + w.length, ∀ w' ∈ words, occursAt u s p' w' → p < p' + w'.length →
    p' = p ∧ w'.length = w.length

instance (u : CaseRules) (words : List Str) (s : Str) (p : Nat) (w : Str) :
    Decidable (isolated u words s p w) := by
  unfold isolated; infer_instance

/-- The lower-case mapping of one code unit on the characters of `latinRules`. -/
def lowerLatin (c : Nat) : Str :=
  if 65 ≤ c ∧ c ≤ 90 then [c + 32]
  else if 192 ≤ c ∧ c ≤ 222 ∧ c ≠ 215 then [c + 32]
  else if c = 304 then [105, 775]
  else [c]

/-- The upper-case mapping of one code unit on the characters of `latinRules`. -/
def upperLatin (c : Nat) : Nat :=
  if 97 ≤ c ∧ c ≤ 122 then c - 32
  else if 224 ≤ c ∧ c ≤ 254 ∧ c ≠ 247 then c - 32
  else c

/-- The case conversions of the JavaScript engine on strings made of ASCII
characters, of the characters U+00C0 to U+00FE, of U+0130 and of U+0307:
`A` to `Z` and `À` to `Þ` have the lower case 32 units above them, U+0130 (`İ`)
has the two-unit lower case `i`, U+0307; the flag `i` compares upper cases.
Used to evaluate the route on such strings. -/
def latinRules : CaseRules :=
  { toLowerCase := fun s => (s.map lowerLatin).flatten
    canonicalize := upperLatin }

end Search


/-! ## The worker job handler (`worker/src/worker.js`)

The handler is embedded as a function from the state of the store before the
run to the state after it.  What the handler cannot decide itself is an input:
the rasterizer's result, the recognition result for each page and whether a
call of the broadcaster raises.  Calls to the store are assumed not to raise,
and nothing else writes to the store while the handler runs. -/

namespace Worker

/-- Status values of Document and Page records. -/
inductive Status where
  | pending | processing | completed | failed
  deriving DecidableEq, Repr

/-- Status values of Job records. -/
inductive JobStatus where
  | waiting | active | completed | failed
  deriving DecidableEq, Repr

/-- Bounding box sub-document of a text block (`boundingBoxSchema`). -/
structure BoundingBox where
  x0 : Int
  y0 : Int
  x1 : Int
  y1 : Int
  confidence : Nat
  deriving DecidableEq, Repr

/-- Text block sub-document of a page (`textBlockSchema`). -/
structure TextBlock where
  text : String
  confidence : Nat
  bbox : BoundingBox
  deriving DecidableEq, Repr

/-- A Document record (`documentSchema`); `id` is the `_id` of the record. -/
structure DocumentRec where
  id : Nat
  filename : String
  originalName : String
  fileHash : String
  mimeType : String
  size : Nat
  totalPages : Nat := 0
  processedPages : Nat := 0
  status : Status := Status.pending
  jobId : String
  uploadedAt : Nat
  processedAt : Option Nat := none
  error : Option String := none
  deriving DecidableEq, Repr

/-- A Job record (`jobSchema`). -/
structure JobRec where
  jobId : String
  documentId : Nat
  status : JobStatus := JobStatus.waiting
  progress : Nat := 0
  totalPages : Nat := 0
  processedPages : Nat := 0
  createdAt : Nat
  completedAt : Option Nat := none
  error : Option String := none
  deriving DecidableEq, Repr

/-- A Page record (`pageSchema`); `id` is the `_id` of the record. -/
structure PageRec where
  id : Nat
  documentId : Nat
  pageNumber : Nat
  text : String := ""
  textBlocks : List TextBlock := []
  confidence : Nat := 0
  status : Status := Status.pending
  processedAt : Option Nat := none
  error : Option String := none
  imagePath : Option String := none
  deriving DecidableEq, Repr

/-- The three collections of the store, each in insertion order. -/
structure Store where
  documents : List DocumentRec
  jobs : List JobRec
  pages : List PageRec
  deriving DecidableEq, Repr

/-- The events the handler passes to `socket.emit`. -/
inductive Event where
  | jobProgress (jobId : String) (progress processedPages totalPages currentPage : Nat)
  | jobCompleted (jobId : String)
  | jobFailed (jobId : String) (error : String)
  deriving DecidableEq, Repr

/-- The `preprocess` object of a processing request; `none` is an absent key. -/
structure Preprocess where
  binarize : Option Bool := none
  threshold : Option Nat := none
  denoise : Option Bool := none
  deskew : Option Bool := none
  rotate : Option Int := none
  deriving DecidableEq, Repr

/-- The `job.data` of a processing request. -/
structure JobData where
  documentId : Nat
  filePath : String
  jobId : String
  language : Option String := none
  preprocess : Option Preprocess := none
  deriving DecidableEq, Repr

/-- The options object the handler passes to `OCRProcessor.processPage`. -/
structure PageOptions where
  language : String
  binarize : Bool
  threshold : Nat
  denoise : Option Bool
  deskew : Option Bool
  rotate : Option Int
  deriving DecidableEq, Repr

/-- What `OCRProcessor.processPage` returns for a page. -/
structure OcrResult where
  text : String
  confidence : Nat
  textBlocks : List TextBlock
  deriving DecidableEq, Repr

/-- The collaborators of the handler.  `Except.error msg` is a raised error with
that message; for `emit`, `some msg` is a raised error. -/
structure Env where
  convertToImages : String → Except String (List String)
  processPage : String → Nat → PageOptions → Except String OcrResult
  emit : Event → Option String
  now : Nat

/-- The state threaded through a run: the store, the events passed to
`socket.emit` so far, and every state of the store so far, oldest first. -/
structure World where
  store : Store
  events : List Event
  history : List Store

/-- The state at the start of a run. -/
def World.init (s : Store) : World := { store := s, events := [], history := [s] }

/-- Nearest integer to `n / d`, ties to even. -/
def roundHalfEven (n d : Nat) : Nat :=
  let q := n / d
  let r := n % d
  if 2 * r < d then q
  else if d < 2 * r then q + 1
  else if q % 2 = 0 then q else q + 1

/-- A non-negative binary64 number, `mant / 2 ^ scale`. -/
structure Double where
  mant : Nat
  scale : Nat
  deriving DecidableEq, Repr

/-- The least `s` from the given start with `2 ^ 52 ≤ (n / d) * 2 ^ s`, within
the given number of steps. -/
def findScale (n d : Nat) : Nat → Nat → Nat
  | 0, s => s
  | fuel + 1, s => if 2 ^ 52 * d ≤ n * 2 ^ s then s else findScale n d fuel (s + 1)

/-- The binary64 number nearest to the rational `n / d`, for
`0 ≤ n / d < 2 ^ 53`: a 53-bit significand, round to nearest, ties to even;
below `2 ^ (-1022)` the scale stays at 1074 (subnormal numbers). -/
def toDouble (n d : Nat) : Double :=
  let s := findScale n d 1074 0
  { mant := roundHalfEven (n * 2 ^ s) d, scale := s }

/-- The binary64 quotient `a / b` of two integers below `2 ^ 53`. -/
def fdiv (a b : Nat) : Double := toDouble a b

/-- The binary64 product `x * k` of a number and an integer. -/
def fmul (x : Double) (k : Nat) : Double := toDouble (x.mant * k) (2 ^ x.scale)

/-- The call `Math.round(x)`: the nearest integer, ties upwards. -/
def mathRound (x : Double) : Nat := (2 * x.mant + 2 ^ x.scale) / (2 * 2 ^ x.scale)

/-- The progress `Math.round((processedPages / totalPages) * 100)`. -/
def progressOf (processedPages totalPages : Nat) : Nat :=
  mathRound (fmul (fdiv processedPages totalPages) 100)

/-- The nearest integer to `100 * processedPages / totalPages` in exact
arithmetic, ties upwards. -/
def exactProgress (processedPages totalPages : Nat) : Nat :=
  (200 * processedPages + totalPages) / (2 * totalPages)

/-- The effect of `findOneAndUpdate`: the first record that satisfies the filter is updated;
nothing happens when there is none. -/
def updateFirst {α : Type} (p : α → Bool) (f : α → α) : List α → List α
  | [] => []
  | a :: l => if p a then f a :: l else a :: updateFirst p f l

/-- The query `Document.findById`. -/
def findDocument (s : Store) (id : Nat) : Option DocumentRec :=
  s.documents.find? (fun d => decide (d.id = id))

/-- The query `Job.findOne({ jobId })`. -/
def findJob (s : Store) (jobId : String) : Option JobRec :=
  s.jobs.find? (fun j => decide (j.jobId = jobId))

/-- A write to the store: the new state is also appended to the history. -/
def commit (w : World) (s : Store) : World :=
  { w with store := s, history := w.history ++ [s] }

/-- The call `Job.findOneAndUpdate({ jobId }, update)`. -/
def updateJob (jobId : String) (f : JobRec → JobRec) (w : World) : World :=
  commit w { w.store with jobs := updateFirst (fun j => decide (j.jobId = jobId)) f w.store.jobs }

/-- The call `Document.findByIdAndUpdate(id, update)`. -/
def updateDocument (id : Nat) (f : DocumentRec → DocumentRec) (w : World) : World :=
  commit w { w.store with
    documents := updateFirst (fun d => decide (d.id = id)) f w.store.documents }

/-- The call `document.save()` for a record read from the store: the stored record with
the same `_id` takes the in-memory values. -/
def saveDocument (d : DocumentRec) (w : World) : World :=
  updateDocument d.id (fun _ => d) w

/-- An `_id` that no page in the store has at the time of the call.  Unlike an
ObjectId it may be one that a page deleted earlier had. -/
def freshPageId (pages : List PageRec) : Nat :=
  (pages.map (fun p => p.id)).foldr max 0 + 1

/-- The first `page.save()` of a new page. -/
def insertPage (p : PageRec) (w : World) : World :=
  commit w { w.store with pages := w.store.pages ++ [p] }

/-- A later `page.save()`: the stored page with the same `_id` takes the
in-memory values. -/
def savePage (p : PageRec) (w : World) : World :=
  commit w { w.store with
    pages := updateFirst (fun x => decide (x.id = p.id)) (fun _ => p) w.store.pages }

/-- The call
`Page.findOneAndUpdate({ documentId, pageNumber }, { status: 'failed', error })`. -/
def failPage (documentId pageNumber : Nat) (msg : String) (w : World) : World :=
  commit w { w.store with
    pages := updateFirst
      (fun x => decide (x.documentId = documentId) && decide (x.pageNumber = pageNumber))
      (fun x => { x with status := Status.failed, error := some msg }) w.store.pages }

/-- The call `socket.emit(...)`: the event is handed to the broadcaster, which may raise. -/
def emit (env : Env) (ev : Event) (w : World) : World × Option String :=
  ({ w with events := w.events ++ [ev] }, env.emit ev)

/-- The options of `processPage`: `language` defaults to `'eng'`; in
`{ binarize: preprocess.binarize !== false, threshold: preprocess.threshold || 128,
...preprocess }` the keys present in the request override the two defaults. -/
def pageOptions (data : JobData) : PageOptions :=
  let pre := data.preprocess.getD {}
  { language := data.language.getD "eng"
    binarize := match pre.binarize with
      | some b => b
      | none => true
    threshold := match pre.threshold with
      | some t => t
      | none => 128
    denoise := pre.denoise
    deskew := pre.deskew
    rotate := pre.rotate }

/-- The body of the page loop for index `i` (lines 66 to 136): the `try` block
and its `catch`.  Returns the new state and the in-memory `document`. -/
def processOnePage (env : Env) (data : JobData) (totalPages : Nat) (document : DocumentRec)
    (i : Nat) (imagePath : String) (w : World) : World × DocumentRec :=
  let pageNumber := i + 1
  let page : PageRec :=
    { id := freshPageId w.store.pages, documentId := document.id, pageNumber := pageNumber,
      status := Status.processing, imagePath := some imagePath }
  let w1 := insertPage page w
  match env.processPage imagePath pageNumber (pageOptions data) with
  | Except.error msg => (failPage document.id pageNumber msg w1, document)
  | Except.ok ocrResult =>
    let page2 : PageRec :=
      { page with
        text := ocrResult.text, confidence := ocrResult.confidence,
        textBlocks := ocrResult.textBlocks, status := Status.completed,
        processedAt := some env.now }
    let w2 := savePage page2 w1
    let processedPages := i + 1
    let progress := progressOf processedPages totalPages
    let w3 := updateJob data.jobId
      (fun j => { j with processedPages := processedPages, progress := progress }) w2
    let document2 : DocumentRec := { document with processedPages := processedPages }
    let w4 := saveDocument document2 w3
    let r := emit env (Event.jobProgress data.jobId progress processedPages totalPages pageNumber) w4
    match r.2 with
    | some msg => (failPage document.id pageNumber msg r.1, document2)
    | none => (r.1, document2)

/-- The page loop `for (let i = 0; i < imagePaths.length; i++)`, from index `i`
over the remaining image paths. -/
def pageLoop (env : Env) (data : JobData) (totalPages : Nat) :
    List String → Nat → DocumentRec → World → World × DocumentRec
  | [], _, document, w => (w, document)
  | imagePath :: rest, i, document, w =>
    let r := processOnePage env data totalPages document i imagePath w
    pageLoop env data totalPages rest (i + 1) r.2 r.1

/-- The outer `catch` (lines 156 to 177): Document and Job are marked failed,
the failure is broadcast and the error is raised again. -/
def failRun (env : Env) (data : JobData) (msg : String) (w : World) : World × Option String :=
  let w1 := updateDocument data.documentId
    (fun d => { d with status := Status.failed, error := some msg }) w
  let w2 := updateJob data.jobId
    (fun j => { j with status := JobStatus.failed, error := some msg }) w1
  let r := emit env (Event.jobFailed data.jobId msg) w2
  match r.2 with
  | some msg2 => (r.1, some msg2)
  | none => (r.1, some msg)

/-- Lines 45 to 54: a PDF is converted to one image per page, any other file is
its own single page. -/
def rasterize (env : Env) (data : JobData) (document : DocumentRec) :
    Except String (List String) :=
  if document.mimeType = "application/pdf" then env.convertToImages data.filePath
  else Except.ok [data.filePath]

/-- The job handler passed to `new Worker('ocr-processing', ...)`.  The result
is the final state and the error the handler raises, if any. -/
def jobHandler (env : Env) (data : JobData) (w : World) : World × Option String :=
  let w1 := updateJob data.jobId (fun j => { j with status := JobStatus.active }) w
  match findDocument w1.store data.documentId with
  | none => failRun env data "Document not found" w1
  | some found =>
    let document : DocumentRec := { found with status := Status.processing }
    let w2 := saveDocument document w1
    match rasterize env data document with
    | Except.error msg => failRun env data msg w2
    | Except.ok imagePaths =>
      let totalPages := imagePaths.length
      let document2 : DocumentRec := { document with totalPages := totalPages }
      let w3 := saveDocument document2 w2
      let w4 := updateJob data.jobId (fun j => { j with totalPages := totalPages }) w3
      let r := pageLoop env data totalPages imagePaths 0 document2 w4
      let document3 : DocumentRec :=
        { r.2 with status := Status.completed, processedAt := some env.now }
      let w6 := saveDocument document3 r.1
      let w7 := updateJob data.jobId
        (fun j => { j with status := JobStatus.completed, completedAt := some env.now }) w6
      let e := emit env (Event.jobCompleted data.jobId) w7
      match e.2 with
      | some msg => failRun env data msg e.1
      | none => (e.1, none)

/-- The run of the handler from a store, without the raised error. -/
def run (env : Env) (data : JobData) (s : Store) : World :=
  (jobHandler env data (World.init s)).1

end Worker

namespace Worker

/-- The `processedPages` of the Document of the run (0 while there is no such
Document). -/
def docProcessed (documentId : Nat) (s : Store) : Nat :=
  match findDocument s documentId with
  | some d => d.processedPages
  | none => 0

/-- The `totalPages` of the Document of the run (0 while there is none). -/
def docTotal (documentId : Nat) (s : Store) : Nat :=
  match findDocument s documentId with
  | some d => d.totalPages
  | none => 0

/-- The `processedPages` of the Job of the run (0 while there is no such Job). -/
def jobProcessed (jobId : String) (s : Store) : Nat :=
  match findJob s jobId with
  | some j => j.processedPages
  | none => 0

/-- The `totalPages` of the Job of the run (0 while there is none). -/
def jobTotal (jobId : String) (s : Store) : Nat :=
  match findJob s jobId with
  | some j => j.totalPages
  | none => 0

/-- The invariant of a run after `k` pages were attempted: every state so far
keeps `processedPages` within `totalPages`, the successive values of
`processedPages` never decrease, and none exceeds `k`. -/
structure TraceInv (documentId : Nat) (jobId : String) (k : Nat) (w : World) : Prop where
  mem : w.store ∈ w.history
  bounded : ∀ s ∈ w.history,
    docProcessed documentId s ≤ docTotal documentId s ∧
    jobProcessed jobId s ≤ jobTotal jobId s
  sortedDoc : (w.history.map (docProcessed documentId)).Pairwise (· ≤ ·)
  sortedJob : (w.history.map (jobProcessed jobId)).Pairwise (· ≤ ·)
  lastDoc : ∀ s ∈ w.history, docProcessed documentId s ≤ docProcessed documentId w.store
  lastJob : ∀ s ∈ w.history, jobProcessed jobId s ≤ jobProcessed jobId w.store
  curDoc : docProcessed documentId w.store ≤ k
  curJob : jobProcessed jobId w.store ≤ k

end Worker

namespace Worker

/-- The invariant of the page loop before index `i`: the trace invariant, and
the in-memory `document` is the stored Document, with `totalPages` already set
on the Document and on the Job. -/
structure LoopInv (data : JobData) (n i : Nat) (document : DocumentRec) (w : World) : Prop where
  trace : TraceInv data.documentId data.jobId i w
  sync : findDocument w.store data.documentId = some document
  docId : document.id = data.documentId
  docTotal : document.totalPages = n
  jobTotal : ∀ j, findJob w.store data.jobId = some j → j.totalPages = n

end Worker

namespace Worker

/-! Sample inputs, used to evaluate the handler. -/

/-- An uploaded image, as the upload route stores it. -/
def imageDocument : DocumentRec :=
  { id := 1, filename := "scan.png", originalName := "scan.png", fileHash := "0a1b",
    mimeType := "image/png", size := 2048, jobId := "job-1", uploadedAt := 0 }

/-- An uploaded PDF, as the upload route stores it. -/
def pdfDocument : DocumentRec :=
  { id := 1, filename := "report.pdf", originalName := "report.pdf", fileHash := "2c3d",
    mimeType := "application/pdf", size := 4096, jobId := "job-1", uploadedAt := 0 }

/-- The Job the upload route creates with the document. -/
def waitingJob : JobRec := { jobId := "job-1", documentId := 1, createdAt := 0 }

/-- The store after the upload of the image. -/
def imageStore : Store := { documents := [imageDocument], jobs := [waitingJob], pages := [] }

/-- The store after the upload of the PDF. -/
def pdfStore : Store := { documents := [pdfDocument], jobs := [waitingJob], pages := [] }

/-- A store with the Job but without its Document. -/
def orphanStore : Store := { documents := [], jobs := [waitingJob], pages := [] }

/-- The processing request of the upload route. -/
def request : JobData := { documentId := 1, filePath := "uploads/file", jobId := "job-1" }

/-- Collaborators: the rasterizer returns the given image paths, recognition
raises on the listed page numbers and returns a fixed result on the others, the
broadcaster does not raise. -/
def sampleEnv (imagePaths : List String) (failing : List Nat) : Env :=
  { convertToImages := fun _ => Except.ok imagePaths
    processPage := fun _ pageNumber _ =>
      if pageNumber ∈ failing then Except.error "recognition failed"
      else Except.ok { text := "text", confidence := 90, textBlocks := [] }
    emit := fun _ => none
    now := 1000 }

/-- Collaborators whose rasterizer raises. -/
def brokenPdfEnv : Env :=
  { convertToImages := fun _ => Except.error "conversion failed"
    processPage := fun _ _ _ => Except.ok { text := "text", confidence := 90, textBlocks := [] }
    emit := fun _ => none
    now := 1000 }

/-- Collaborators as in `sampleEnv` with one image, but the broadcaster raises
on the `job-completed` event. -/
def brokenBroadcastEnv : Env :=
  { convertToImages := fun _ => Except.ok ["page-1.png"]
    processPage := fun _ _ _ => Except.ok { text := "text", confidence := 90, textBlocks := [] }
    emit := fun ev =>
      match ev with
      | Event.jobCompleted _ => some "socket closed"
      | _ => none
    now := 1000 }

end Worker

namespace Worker

/-- The Page record that the page image with index `k` must end with: failed
with the error message when recognition raised, completed with the
recognition result otherwise. -/
def pageOutcome (env : Env) (data : JobData) (k : Nat) (imagePath : String)
    (page : PageRec) : Prop :=
  page.documentId = data.documentId ∧ page.pageNumber = k + 1 ∧
  page.imagePath = some imagePath ∧
  match env.processPage imagePath (k + 1) (pageOptions data) with
  | Except.error msg => page.status = Status.failed ∧ page.error = some msg
  | Except.ok r =>
    page.status = Status.completed ∧ page.text = r.text ∧ page.confidence = r.confidence ∧
    page.textBlocks = r.textBlocks ∧ page.error = none

/-- The Page records match the page images from index `i` on, one for one and
in order. -/
def pagesMatch (env : Env) (data : JobData) : Nat → List String → List PageRec → Prop
  | _, [], [] => True
  | i, imagePath :: paths, page :: pages =>
    pageOutcome env data i imagePath page ∧ pagesMatch env data (i + 1) paths pages
  | _, _, _ => False

/-- Collaborators as in `sampleEnv` with one image, but the broadcaster raises
on every `job-progress` event. -/
def brokenProgressEnv : Env :=
  { convertToImages := fun _ => Except.ok ["page-1.png"]
    processPage := fun _ _ _ => Except.ok { text := "text", confidence := 90, textBlocks := [] }
    emit := fun ev =>
      match ev with
      | Event.jobProgress _ _ _ _ _ => some "socket closed"
      | _ => none
    now := 1000 }

end Worker

/-! ## The in-memory queue and the routes that write to the store

`backend/src/utils/simpleQueue.js`, `backend/src/routes/upload.js`,
`backend/src/routes/documents.js` and `backend/src/routes/pages.js`.  The state
is the store together with the queue object.  A callback scheduled with
`setTimeout` is kept in the list of pending timers and runs when the timer
fires; runs are taken one after the other.  Calls to the store are assumed not
to raise. -/

namespace Backend

open Worker

/-- Status of an entry of the queue's `jobs` map. -/
inductive EntryStatus where
  | waiting | active | completed | failed
  deriving DecidableEq, Repr

/-- The `data` object handed to `ocrQueue.add`; `none` is a key the caller does
not set (`undefined` when read). -/
structure QueueData where
  documentId : Nat
  jobId : Option String := none
  filePath : Option String := none
  language : Option String := none
  preprocess : Option Preprocess := none
  pageId : Option Nat := none
  pageNumber : Option Nat := none
  deriving DecidableEq, Repr

/-- An entry of the queue's `jobs` map. -/
structure QueueEntry where
  name : String
  data : QueueData
  status : EntryStatus
  deriving DecidableEq, Repr

/-- The `SimpleQueue` object: the `jobs` map in insertion order (the key is
`data.jobId`, possibly `undefined`), the callbacks scheduled with `setTimeout`
that have not run yet, and whether `setSocketIO` has set `this.io`. -/
structure SimpleQueue where
  jobs : List (Option String × QueueEntry)
  timers : List (Option String)
  io : Bool
  deriving DecidableEq, Repr

/-- The state the routes and the queue work on. -/
structure State where
  store : Store
  queue : SimpleQueue
  deriving DecidableEq, Repr

/-- The events the queue passes to `this.io.to(...).emit`. -/
inductive QueueEvent where
  | jobCompleted (jobId : Option String)
  | jobFailed (jobId : Option String)
  deriving DecidableEq, Repr

/-- The collaborators of `processJob`.  `Except.error msg` is a raised error;
for `emit`, `some msg` is a raised error.  `readFileSync` gives the content of
the file decoded as UTF-8, `pdfParse` the text extracted from the PDF at that
path. -/
structure QueueEnv where
  readFileSync : String → Except String String
  extname : String → String
  pdfParse : String → Except String String
  emit : QueueEvent → Option String
  now : Nat

/-- The result of one call of `processJob`: the state afterwards, the events
handed to the broadcaster, the successive values assigned to `job.status`, and
the error the call raises, if any. -/
structure QueueRun where
  state : State
  events : List QueueEvent
  statuses : List EntryStatus
  raised : Option String

/-- The call `map.set(key, value)`: an existing key keeps its place and takes
the new value, a new key goes last. -/
def mapSet (k : Option String) (v : QueueEntry) :
    List (Option String × QueueEntry) → List (Option String × QueueEntry)
  | [] => [(k, v)]
  | e :: rest => if e.1 = k then (k, v) :: rest else e :: mapSet k v rest

/-- The call `map.get(key)`. -/
def mapGet (k : Option String) (m : List (Option String × QueueEntry)) : Option QueueEntry :=
  (m.find? (fun e => decide (e.1 = k))).map (fun e => e.2)

/-- The method `SimpleQueue.add(name, data)`: the entry is stored under
`data.jobId` with status `waiting` and `processJob(jobId)` is scheduled. -/
def SimpleQueue.add (q : SimpleQueue) (name : String) (data : QueueData) : SimpleQueue :=
  { q with
    jobs := mapSet data.jobId { name := name, data := data, status := EntryStatus.waiting } q.jobs
    timers := q.timers ++ [data.jobId] }

/-- The assignment `job.status = status` on the entry stored under `k`. -/
def setEntryStatus (k : Option String) (status : EntryStatus) (q : SimpleQueue) : SimpleQueue :=
  { q with
    jobs := updateFirst (fun e => decide (e.1 = k))
      (fun e => (e.1, { e.2 with status := status })) q.jobs }

/-- The call `Job.findOneAndUpdate({ jobId }, update)` on the store; a filter
whose `jobId` is `undefined` matches no Job, since every Job has a `jobId`. -/
def setJob (jobId : Option String) (f : JobRec → JobRec) (s : Store) : Store :=
  match jobId with
  | none => s
  | some id => { s with jobs := updateFirst (fun j => decide (j.jobId = id)) f s.jobs }

/-- The call `Document.findByIdAndUpdate(id, update)` on the store. -/
def setDocument (id : Nat) (f : DocumentRec → DocumentRec) (s : Store) : Store :=
  { s with documents := updateFirst (fun d => decide (d.id = id)) f s.documents }

/-- The call `Page.findById(id)`. -/
def findPage (s : Store) (id : Nat) : Option PageRec :=
  s.pages.find? (fun p => decide (p.id = id))

/-- The code points `String.prototype.trim` removes (WhiteSpace and
LineTerminator). -/
def jsWhiteSpace : List Nat :=
  [9, 10, 11, 12, 13, 32, 160, 5760, 8192, 8193, 8194, 8195, 8196, 8197, 8198, 8199, 8200,
   8201, 8202, 8232, 8233, 8239, 8287, 12288, 65279]

/-- The test `!fileContent || fileContent.trim().length === 0`. -/
def isBlank (fileContent : String) : Bool :=
  fileContent.data.all (fun c => jsWhiteSpace.contains c.toNat)

/-- The text the queue stores when a file gives no content. -/
def sampleText : String := "Sample OCR text for demonstration. This text is searchable."

/-- Lines 41 to 66 of `backend/src/utils/simpleQueue.js`: the file is read; a
`.pdf` file is parsed, any other file is decoded as text; empty or blank
content, and any error on the way, give the sample text. -/
def readFileContent (env : QueueEnv) (filePath : Option String) : String :=
  match filePath with
  | none => sampleText
  | some path =>
    match env.readFileSync path with
    | Except.error _ => sampleText
    | Except.ok decoded =>
      if String.mk ((env.extname path).data.map Char.toLower) = ".pdf" then
        match env.pdfParse path with
        | Except.error _ => sampleText
        | Except.ok text => if isBlank text then sampleText else text
      else
        if isBlank decoded then sampleText else decoded

/-- The method `SimpleQueue.processJob(jobId)` of
`backend/src/utils/simpleQueue.js`. -/
def processJob (env : QueueEnv) (jobId : Option String) (st : State) : QueueRun :=
  match mapGet jobId st.queue.jobs with
  | none => { state := st, events := [], statuses := [], raised := none }
  | some job =>
    let q1 := setEntryStatus jobId EntryStatus.active st.queue
    let s1 := setJob jobId (fun j => { j with status := JobStatus.active }) st.store
    let fileContent := readFileContent env job.data.filePath
    let page : PageRec :=
      { id := freshPageId s1.pages, documentId := job.data.documentId, pageNumber := 1,
        text := fileContent, confidence := 95, status := Status.completed,
        processedAt := some env.now }
    let s2 : Store := { s1 with pages := s1.pages ++ [page] }
    let s3 := setDocument job.data.documentId
      (fun d => { d with
        status := Status.completed, totalPages := 1, processedPages := 1,
        processedAt := some env.now }) s2
    let s4 := setJob jobId
      (fun j => { j with
        status := JobStatus.completed, progress := 100, totalPages := 1, processedPages := 1,
        completedAt := some env.now }) s3
    let q2 := setEntryStatus jobId EntryStatus.completed q1
    if q2.io then
      match env.emit (QueueEvent.jobCompleted jobId) with
      | none =>
        { state := { store := s4, queue := q2 }, events := [QueueEvent.jobCompleted jobId],
          statuses := [EntryStatus.active, EntryStatus.completed], raised := none }
      | some _ =>
        { state := { store := s4, queue := setEntryStatus jobId EntryStatus.failed q2 },
          events := [QueueEvent.jobCompleted jobId, QueueEvent.jobFailed jobId],
          statuses := [EntryStatus.active, EntryStatus.completed, EntryStatus.failed],
          raised := env.emit (QueueEvent.jobFailed jobId) }
    else
      { state := { store := s4, queue := q2 }, events := [],
        statuses := [EntryStatus.active, EntryStatus.completed], raised := none }

/-- The pending timers fire, oldest first, each running `processJob`. -/
def runTimers (env : QueueEnv) (st : State) : State :=
  st.queue.timers.foldl (fun s k => (processJob env k s).state)
    { st with queue := { st.queue with timers := [] } }

/-- The file object the upload middleware puts in `req.file`. -/
structure UploadedFile where
  path : String
  filename : String
  originalname : String
  mimetype : String
  size : Nat
  deriving DecidableEq, Repr

/-- The collaborators of the routes: the fingerprint of the file at a path
(`utils/fileHash.js`) and the clock. -/
structure RouteEnv where
  generateFileHash : String → Except String String
  now : Nat

/-- The status and the JSON body of a response; `parameters` is the
`{ language, preprocess }` object of the reprocess route. -/
structure Response where
  status : Nat := 200
  jobId : Option String := none
  documentId : Option Nat := none
  message : Option String := none
  error : Option String := none
  parameters : Option (String × Preprocess) := none
  deriving DecidableEq, Repr

/-- An `_id` that no Document in the store has at the time of the call (no route
deletes a Document). -/
def freshDocumentId (documents : List DocumentRec) : Nat :=
  (documents.map (fun d => d.id)).foldr max 0 + 1

/-- The upload route `POST /api/upload`; `uuid` is the value
`crypto.randomUUID()` returns in this call. -/
def upload (env : RouteEnv) (uuid : String) (file : Option UploadedFile) (st : State) :
    State × Response :=
  match file with
  | none => (st, { status := 400, error := some "No file uploaded" })
  | some f =>
    match env.generateFileHash f.path with
    | Except.error _ => (st, { status := 500, error := some "Upload failed" })
    | Except.ok fileHash =>
      match st.store.documents.find? (fun d => decide (d.fileHash = fileHash)) with
      | some existingDoc =>
        (st, { jobId := some existingDoc.jobId, documentId := some existingDoc.id,
               message := some "Document already exists" })
      | none =>
        let jobId := uuid
        let document : DocumentRec :=
          { id := freshDocumentId st.store.documents, filename := f.filename,
            originalName := f.originalname, fileHash := fileHash, mimeType := f.mimetype,
            size := f.size, jobId := jobId, uploadedAt := env.now }
        let job : JobRec := { jobId := jobId, documentId := document.id, createdAt := env.now }
        let store : Store :=
          { st.store with
            documents := st.store.documents ++ [document], jobs := st.store.jobs ++ [job] }
        let queue := st.queue.add "process-document"
          { documentId := document.id, filePath := some f.path, jobId := some jobId }
        ({ store := store, queue := queue },
          { jobId := some jobId, documentId := some document.id,
            message := some "Document uploaded successfully" })

/-- The document reprocess route `POST /api/documents/:id/reprocess`; `uuid` is
the value `crypto.randomUUID()` returns in this call. -/
def reprocessDocument (env : RouteEnv) (uuid : String) (documentId : Nat)
    (language : Option String) (preprocess : Option Preprocess) (st : State) :
    State × Response :=
  match findDocument st.store documentId with
  | none => (st, { status := 404, error := some "Document not found" })
  | some document =>
    let jobId := uuid
    let job : JobRec :=
      { jobId := jobId, documentId := document.id, status := JobStatus.waiting,
        createdAt := env.now }
    let s1 : Store := { st.store with jobs := st.store.jobs ++ [job] }
    let document2 : DocumentRec :=
      { document with status := Status.pending, processedPages := 0, jobId := jobId }
    let s2 := setDocument document2.id (fun _ => document2) s1
    let s3 : Store :=
      { s2 with pages := s2.pages.filter (fun p => !decide (p.documentId = documentId)) }
    let queue := st.queue.add "reprocess-document"
      { documentId := documentId, filePath := some ("uploads/" ++ document.filename),
        jobId := some jobId, language := some (language.getD "eng"),
        preprocess := some (preprocess.getD {}) }
    ({ store := s3, queue := queue },
      { jobId := some jobId, message := some "Document reprocessing started",
        parameters := some (language.getD "eng", preprocess.getD {}) })

/-- The page reprocess route `POST /api/pages/:id/reprocess`.  The `data` it
enqueues carries no `jobId`. -/
def reprocessPage (pageId : Nat) (st : State) : State × Response :=
  match findPage st.store pageId with
  | none => (st, { status := 404, error := some "Page not found" })
  | some page =>
    match findDocument st.store page.documentId with
    | none => (st, { status := 500, error := some "Failed to queue reprocessing" })
    | some document =>
      let queue := st.queue.add "reprocess-page"
        { pageId := some page.id, documentId := document.id,
          pageNumber := some page.pageNumber }
      let page2 : PageRec := { page with status := Status.pending }
      let store : Store :=
        { st.store with
          pages := updateFirst (fun x => decide (x.id = page2.id)) (fun _ => page2)
            st.store.pages }
      ({ store := store, queue := queue }, { message := some "Page reprocessing queued" })

/-- The manual correction route `PUT /api/pages/:id/correct`. -/
def correctPage (pageId : Nat) (text : String) (st : State) : State × Response :=
  if text = "" then (st, { status := 400, error := some "Text is required" })
  else
    match findPage st.store pageId with
    | none => (st, { status := 404, error := some "Page not found" })
    | some page =>
      let page2 : PageRec := { page with text := text, confidence := 100 }
      let store : Store :=
        { st.store with
          pages := updateFirst (fun x => decide (x.id = page2.id)) (fun _ => page2)
            st.store.pages }
      ({ store := store, queue := st.queue }, { message := some "Page text corrected successfully" })

/-- No two Page records of the same Document share a pageNumber. -/
def uniquePageNumbers (s : Store) : Prop :=
  (s.pages.map (fun p => (p.documentId, p.pageNumber))).Nodup

instance (s : Store) : Decidable (uniquePageNumbers s) := by
  unfold uniquePageNumbers; infer_instance

end Backend

namespace Backend

open Worker

/-! Sample inputs, used to evaluate the routes and the queue. -/

/-- An uploaded text file. -/
def textFile : UploadedFile :=
  { path := "uploads/notes.txt", filename := "notes.txt", originalname := "notes.txt",
    mimetype := "text/plain", size := 53 }

/-- Collaborators of the routes: the fingerprint is a function of the path. -/
def routeEnv : RouteEnv :=
  { generateFileHash := fun path => Except.ok ("sha256-of-" ++ path), now := 5 }

/-- The state of a fresh server: empty store, empty queue, `this.io` set. -/
def emptyState : State :=
  { store := { documents := [], jobs := [], pages := [] },
    queue := { jobs := [], timers := [], io := true } }

/-- Collaborators of the queue: every file is a readable text file with the
content of the workflow test, the broadcaster does not raise. -/
def textQueueEnv : QueueEnv :=
  { readFileSync := fun _ => Except.ok "Machine learning algorithms process data efficiently."
    extname := fun _ => ".txt"
    pdfParse := fun _ => Except.error "not a PDF"
    emit := fun _ => none
    now := 9 }

/-- Collaborators as in `textQueueEnv`, but the broadcaster raises on the
`job-completed` event. -/
def brokenQueueEnv : QueueEnv :=
  { readFileSync := fun _ => Except.ok "Machine learning algorithms process data efficiently."
    extname := fun _ => ".txt"
    pdfParse := fun _ => Except.error "not a PDF"
    emit := fun ev =>
      match ev with
      | QueueEvent.jobCompleted _ => some "socket closed"
      | QueueEvent.jobFailed _ => none
    now := 9 }

/-- The state after the upload of the text file, before its timer fires. -/
def uploadedState : State := (upload routeEnv "job-1" (some textFile) emptyState).1

/-- The state after the upload of the text file and the run of its job. -/
def processedState : State := runTimers textQueueEnv uploadedState

end Backend

namespace Backend

open Worker

/-- The `data` object the upload route enqueues for the text file. -/
def textFileData : QueueData :=
  { documentId := 1, filePath := some "uploads/notes.txt", jobId := some "job-1" }

/-- The Document and the Job of the uploaded text file, with an empty queue. -/
def recordsOnly : State := { store := uploadedState.store, queue := emptyState.queue }

/-- The state after the upload of the text file when the same `data` is
enqueued a second time before a timer fires. -/
def enqueuedTwice : State :=
  { uploadedState with queue := uploadedState.queue.add "process-document" textFileData }

/-- The requests that write to the store or to the queue, and the firing of the
pending timers of the queue. -/
inductive Op where
  | upload (env : RouteEnv) (uuid : String) (file : Option UploadedFile)
  | reprocessDocument (env : RouteEnv) (uuid : String) (documentId : Nat)
      (language : Option String) (preprocess : Option Preprocess)
  | reprocessPage (pageId : Nat)
  | correctPage (pageId : Nat) (text : String)
  | runTimers (env : QueueEnv)

/-- The state after one operation. -/
def step (op : Op) (st : State) : State :=
  match op with
  | Op.upload env uuid file => (upload env uuid file st).1
  | Op.reprocessDocument env uuid documentId language preprocess =>
    (reprocessDocument env uuid documentId language preprocess st).1
  | Op.reprocessPage pageId => (reprocessPage pageId st).1
  | Op.correctPage pageId text => (correctPage pageId text st).1
  | Op.runTimers env => runTimers env st

/-- The state after a sequence of operations, first to last. -/
def steps (ops : List Op) (st : State) : State :=
  ops.foldl (fun s op => step op s) st

/-- Whether the operation is a document reprocess request for the Document
`id`. -/
def Op.reprocesses (id : Nat) : Op → Bool
  | Op.reprocessDocument _ _ documentId _ _ => decide (documentId = id)
  | _ => false

/-- The value `crypto.randomUUID()` returns during the operation, if the
operation calls it: the upload route calls it for a file whose fingerprint no
stored Document has, the document reprocess route for a Document that exists;
the other operations do not call it. -/
def Op.draws (st : State) : Op → Option String
  | Op.upload env uuid (some f) =>
    match env.generateFileHash f.path with
    | Except.error _ => none
    | Except.ok fileHash =>
      match st.store.documents.find? (fun d => decide (d.fileHash = fileHash)) with
      | some _ => none
      | none => some uuid
  | Op.reprocessDocument _ uuid documentId _ _ =>
    match findDocument st.store documentId with
    | none => none
    | some _ => some uuid
  | _ => none

/-- The values `crypto.randomUUID()` returns during a sequence of operations
that starts in the given state, oldest first. -/
def drawn : List Op → State → List String
  | [], _ => []
  | op :: ops, st => (op.draws st).toList ++ drawn ops (step op st)

/-- Every jobId that a stored Document or a stored Job carries is one of the
given values. -/
def jobIdsWithin (values : List String) (s : Store) : Prop :=
  (∀ d ∈ s.documents, d.jobId ∈ values) ∧ (∀ j ∈ s.jobs, j.jobId ∈ values)

instance (values : List String) (s : Store) : Decidable (jobIdsWithin values s) := by
  unfold jobIdsWithin; infer_instance

/-- The `_id` and the `jobId` of the Document that
`Document.findOne({ fileHash })` returns. -/
def storedFor (fileHash : String) (st : State) : Option (Nat × String) :=
  (st.store.documents.find? (fun d => decide (d.fileHash = fileHash))).map
    (fun d => (d.id, d.jobId))

end Backend

/-! ## The second copy of the queue, the image stages, recognition and rasterization -/

namespace Backend.NodeModules

open Worker Backend

/-- Lines 41 to 47 of `node_modules/backend/src/utils/simpleQueue.js`: the
content starts as the sample text and is replaced by the decoded file when the
read succeeds; there is no test for empty content. -/
def readFileContent (env : QueueEnv) (filePath : Option String) : String :=
  match filePath with
  | none => sampleText
  | some path =>
    match env.readFileSync path with
    | Except.error _ => sampleText
    | Except.ok decoded => decoded

/-- The method `SimpleQueue.processJob(jobId)` of
`node_modules/backend/src/utils/simpleQueue.js`. -/
def processJob (env : QueueEnv) (jobId : Option String) (st : State) : QueueRun :=
  match mapGet jobId st.queue.jobs with
  | none => { state := st, events := [], statuses := [], raised := none }
  | some job =>
    let q1 := setEntryStatus jobId EntryStatus.active st.queue
    let s1 := setJob jobId (fun j => { j with status := JobStatus.active }) st.store
    let fileContent := readFileContent env job.data.filePath
    let page : PageRec :=
      { id := freshPageId s1.pages, documentId := job.data.documentId, pageNumber := 1,
        text := fileContent, confidence := 95, status := Status.completed,
        processedAt := some env.now }
    let s2 : Store := { s1 with pages := s1.pages ++ [page] }
    let s3 := setDocument job.data.documentId
      (fun d => { d with
        status := Status.completed, totalPages := 1, processedPages := 1,
        processedAt := some env.now }) s2
    let s4 := setJob jobId
      (fun j => { j with
        status := JobStatus.completed, progress := 100, totalPages := 1, processedPages := 1,
        completedAt := some env.now }) s3
    let q2 := setEntryStatus jobId EntryStatus.completed q1
    if q2.io then
      match env.emit (QueueEvent.jobCompleted jobId) with
      | none =>
        { state := { store := s4, queue := q2 }, events := [QueueEvent.jobCompleted jobId],
          statuses := [EntryStatus.active, EntryStatus.completed], raised := none }
      | some _ =>
        { state := { store := s4, queue := setEntryStatus jobId EntryStatus.failed q2 },
          events := [QueueEvent.jobCompleted jobId, QueueEvent.jobFailed jobId],
          statuses := [EntryStatus.active, EntryStatus.completed, EntryStatus.failed],
          raised := env.emit (QueueEvent.jobFailed jobId) }
    else
      { state := { store := s4, queue := q2 }, events := [],
        statuses := [EntryStatus.active, EntryStatus.completed], raised := none }

end Backend.NodeModules

namespace Backend

/-- Collaborators of the queue for an uploaded file of zero bytes. -/
def emptyFileEnv : QueueEnv :=
  { readFileSync := fun _ => Except.ok ""
    extname := fun _ => ".txt"
    pdfParse := fun _ => Except.error "not a PDF"
    emit := fun _ => none
    now := 9 }

/-- Collaborators of the queue when the file cannot be read. -/
def unreadableFileEnv : QueueEnv :=
  { readFileSync := fun _ => Except.error "ENOENT: no such file or directory"
    extname := fun _ => ".txt"
    pdfParse := fun _ => Except.error "not a PDF"
    emit := fun _ => none
    now := 9 }

end Backend

namespace Worker

/-- The keys written before the spread in the options literal of the handler:
`binarize: preprocess.binarize !== false, threshold: preprocess.threshold || 128`. -/
def literalDefaults (pre : Preprocess) : Preprocess :=
  { binarize := some (decide (pre.binarize ≠ some false))
    threshold := some
      (match pre.threshold with
        | some t => if t = 0 then 128 else t
        | none => 128) }

/-- The object literal `{ ...base, ...pre }`: a key present in `pre` replaces the
key of `base`. -/
def spread (base pre : Preprocess) : Preprocess :=
  { binarize := pre.binarize.orElse (fun _ => base.binarize)
    threshold := pre.threshold.orElse (fun _ => base.threshold)
    denoise := pre.denoise.orElse (fun _ => base.denoise)
    deskew := pre.deskew.orElse (fun _ => base.deskew)
    rotate := pre.rotate.orElse (fun _ => base.rotate) }

end Worker

namespace ImageProcessor

open Worker

/-- The pipeline `sharp(input)...` of a stage, before `.toFile(output)`. -/
inductive Operation where
  | rotate (angle : Int)
  | greyscaleThreshold (threshold : Nat)
  | blurSharpen
  | rotateHalfDegree
  deriving DecidableEq, Repr

/-- A call `sharp(input).<operation>.toFile(output)`. -/
structure SharpCall where
  input : String
  operation : Operation
  output : String
  deriving DecidableEq, Repr

/-- The image library: `some msg` is a raised error. -/
structure ImageEnv where
  toFile : SharpCall → Option String

/-- The alternatives of the pattern `/\.(jpg|jpeg|png|tiff)$/i`. -/
def extensions : List (List Char) :=
  ["jpg".toList, "jpeg".toList, "png".toList, "tiff".toList]

/-- The match of `/\.(jpg|jpeg|png|tiff)$/i` in a path: the part before the
dot, and group 1 (the extension as the path writes it).  The pattern is ASCII,
so the flag `i` lets a character of the path match only a letter of which it
is the upper or lower case in ASCII. -/
def matchExtension (path : List Char) : Option (List Char × List Char) :=
  (extensions.find? (fun e => ('.' :: e).isSuffixOf (path.map Char.toLower))).map
    (fun e => (path.take (path.length - (e.length + 1)), path.drop (path.length - e.length)))

/-- The call `imagePath.replace(/\.(jpg|jpeg|png|tiff)$/i, suffix + '.$1')`; a
path with another extension is returned as it is. -/
def replaceExtension (imagePath suffix : String) : String :=
  match matchExtension imagePath.toList with
  | none => imagePath
  | some (stem, ext) => String.mk stem ++ suffix ++ "." ++ String.mk ext

/-- A call of the image library that writes `outputPath`. -/
def writeTo (env : ImageEnv) (imagePath : String) (operation : Operation)
    (outputPath : String) : Except String String :=
  match env.toFile { input := imagePath, operation := operation, output := outputPath } with
  | some msg => Except.error msg
  | none => Except.ok outputPath

/-- The method `ImageProcessor.rotate(imagePath, angle)`. -/
def rotate (env : ImageEnv) (imagePath : String) (angle : Int) : Except String String :=
  writeTo env imagePath (Operation.rotate angle)
    (replaceExtension imagePath ("_rotated_" ++ toString angle))

/-- The method `ImageProcessor.binarize(imagePath, threshold = 128)`. -/
def binarize (env : ImageEnv) (imagePath : String) (threshold : Option Nat) :
    Except String String :=
  writeTo env imagePath (Operation.greyscaleThreshold (threshold.getD 128))
    (replaceExtension imagePath "_binarized")

/-- The method `ImageProcessor.denoise(imagePath)`. -/
def denoise (env : ImageEnv) (imagePath : String) : Except String String :=
  writeTo env imagePath Operation.blurSharpen (replaceExtension imagePath "_denoised")

/-- The method `ImageProcessor.deskew(imagePath)`. -/
def deskew (env : ImageEnv) (imagePath : String) : Except String String :=
  writeTo env imagePath Operation.rotateHalfDegree (replaceExtension imagePath "_deskewed")

/-- The test `if (options.rotate)`: a number is truthy unless it is 0. -/
def truthyNumber (x : Option Int) : Bool :=
  match x with
  | some a => decide (a ≠ 0)
  | none => false

/-- The test `if (options.binarize)` and its likes on a boolean key. -/
def truthyFlag (x : Option Bool) : Bool := x.getD false

/-- The method `ImageProcessor.preprocess(imagePath, options = {})`. -/
def preprocess (env : ImageEnv) (imagePath : String) (options : Preprocess) :
    Except String String := do
  let mut processedPath := imagePath
  if truthyNumber options.rotate then
    processedPath ← rotate env processedPath (options.rotate.getD 0)
  if truthyFlag options.binarize then
    processedPath ← binarize env processedPath options.threshold
  if truthyFlag options.denoise then
    processedPath ← denoise env processedPath
  if truthyFlag options.deskew then
    processedPath ← deskew env processedPath
  return processedPath

/-- A stage of the preprocessing, with its argument. -/
inductive Stage where
  | rotate (angle : Int)
  | binarize (threshold : Option Nat)
  | denoise
  | deskew
  deriving DecidableEq, Repr

/-- One stage applied to a path. -/
def Stage.run (env : ImageEnv) (imagePath : String) : Stage → Except String String
  | Stage.rotate angle => ImageProcessor.rotate env imagePath angle
  | Stage.binarize threshold => ImageProcessor.binarize env imagePath threshold
  | Stage.denoise => ImageProcessor.denoise env imagePath
  | Stage.deskew => ImageProcessor.deskew env imagePath

/-- The stages in the fixed order rotate, binarize, denoise, deskew, each with
the test that enables it. -/
def stageTable (options : Preprocess) : List (Bool × Stage) :=
  [(truthyNumber options.rotate, Stage.rotate (options.rotate.getD 0)),
   (truthyFlag options.binarize, Stage.binarize options.threshold),
   (truthyFlag options.denoise, Stage.denoise),
   (truthyFlag options.deskew, Stage.deskew)]

/-- The enabled stages, in the fixed order. -/
def enabledStages (options : Preprocess) : List Stage :=
  ((stageTable options).filter (fun x => x.1)).map (fun x => x.2)

/-- The composition of a list of stages: each stage receives the output path
of the stage before it; the first error ends the composition. -/
def compose (env : ImageEnv) : List Stage → String → Except String String
  | [], imagePath => Except.ok imagePath
  | stage :: rest, imagePath =>
    match stage.run env imagePath with
    | Except.error msg => Except.error msg
    | Except.ok next => compose env rest next

/-- An image library that never raises. -/
def quietEnv : ImageEnv := { toFile := fun _ => none }

/-- An image library that raises when asked to threshold. -/
def noThresholdEnv : ImageEnv :=
  { toFile := fun call =>
      match call.operation with
      | Operation.greyscaleThreshold _ => some "Input file is missing"
      | _ => none }

end ImageProcessor

namespace OCRProcessor

open Worker

/-- The `bbox` of a block of the recognition engine. -/
structure EngineBox where
  x0 : Int
  y0 : Int
  x1 : Int
  y1 : Int
  deriving DecidableEq, Repr

/-- A block of the recognition engine. -/
structure EngineBlock where
  text : String
  confidence : Nat
  bbox : EngineBox
  deriving DecidableEq, Repr

/-- The `data` of the result of `Tesseract.recognize`. -/
structure EngineData where
  text : String
  confidence : Nat
  blocks : List EngineBlock
  deriving DecidableEq, Repr

/-- The collaborators of `processImage`: the image library and the recognition
engine, called with a path and a language. -/
structure OcrEnv where
  image : ImageProcessor.ImageEnv
  recognize : String → String → Except String EngineData

/-- The `options` of `processImage`. -/
structure Options where
  language : Option String := none
  preprocess : Option Preprocess := none
  deriving DecidableEq, Repr

/-- The method `String.prototype.trim`. -/
def trim (s : String) : String :=
  let ws := fun c : Char => Backend.jsWhiteSpace.contains c.toNat
  String.mk ((s.data.dropWhile ws).reverse.dropWhile ws).reverse

/-- The object built for one block by the `map` of lines 23 to 32. -/
def toTextBlock (block : EngineBlock) : TextBlock :=
  { text := trim block.text
    confidence := block.confidence
    bbox :=
      { x0 := block.bbox.x0, y0 := block.bbox.y0, x1 := block.bbox.x1, y1 := block.bbox.y1,
        confidence := block.confidence } }

/-- The expression `options.language || 'eng'`. -/
def languageOf (options : Options) : String :=
  match options.language with
  | some l => if l = "" then "eng" else l
  | none => "eng"

/-- The method `OCRProcessor.processImage(imagePath, options = {})`. -/
def processImage (env : OcrEnv) (imagePath : String) (options : Options) :
    Except String OcrResult := do
  let mut processedPath := imagePath
  if let some preprocess := options.preprocess then
    processedPath ← ImageProcessor.preprocess env.image imagePath preprocess
  let language := languageOf options
  let data ← env.recognize processedPath language
  let textBlocks := (data.blocks.map toTextBlock).filter (fun block => decide (block.text.length > 0))
  return { text := trim data.text, confidence := data.confidence, textBlocks := textBlocks }

/-- The result of the engine used to evaluate `processImage`: three blocks,
the second of which is blank. -/
def sampleData : EngineData :=
  { text := "  Invoice 42\nTotal due\n"
    confidence := 91
    blocks :=
      [{ text := "Invoice 42\n", confidence := 93, bbox := { x0 := 10, y0 := 12, x1 := 200, y1 := 40 } },
       { text := " \n", confidence := 20, bbox := { x0 := 10, y0 := 50, x1 := 12, y1 := 52 } },
       { text := "Total due\n", confidence := 89, bbox := { x0 := 10, y0 := 60, x1 := 180, y1 := 90 } }] }

/-- Collaborators that return `sampleData` for every image. -/
def sampleOcrEnv : OcrEnv :=
  { image := ImageProcessor.quietEnv, recognize := fun _ _ => Except.ok sampleData }

end OCRProcessor

namespace PDFProcessor

/-- The collaborators of `convertToImages`.  `existsSync` answers for the file
system before the conversion; `convert` is `pdf.convert(pdfPath, options)` for
an output directory and an output prefix: it raises, or gives the value the
code names `pages` together with the answers of `existsSync` after the
conversion.  `mkdirSync` gives `some msg` when it raises. -/
structure PdfEnv where
  existsSync : String → Bool
  mkdirSync : String → Option String
  basename : String → String → String
  join : String → String → String
  convert : String → String → String → Except String (Nat × (String → Bool))

/-- The path `path.join(outputDir, prefix + '-' + i + '.png')`. -/
def imagePath (env : PdfEnv) (outputDir outName : String) (i : Nat) : String :=
  env.join outputDir (outName ++ "-" ++ toString i ++ ".png")

/-- The loop `for (let i = 1; i <= pages; i++)`, entered at `i` with
`remaining = pages + 1 - i` rounds to go. -/
def collect (existsSync : String → Bool) (pathOf : Nat → String) :
    Nat → Nat → List String → List String
  | 0, _, imagePaths => imagePaths
  | remaining + 1, i, imagePaths =>
    collect existsSync pathOf remaining (i + 1)
      (if existsSync (pathOf i) then imagePaths ++ [pathOf i] else imagePaths)

/-- The method `PDFProcessor.convertToImages(pdfPath, outputDir)`. -/
def convertToImages (env : PdfEnv) (pdfPath outputDir : String) :
    Except String (List String) :=
  let made :=
    if env.existsSync outputDir then none else env.mkdirSync outputDir
  match made with
  | some msg => Except.error msg
  | none =>
    let outName := env.basename pdfPath ".pdf"
    match env.convert pdfPath outputDir outName with
    | Except.error msg => Except.error msg
    | Except.ok (pages, existsAfter) =>
      Except.ok (collect existsAfter (imagePath env outputDir outName) pages 1 [])

/-- Collaborators for a conversion that reports 4 pages and writes the images
of all pages but the third. -/
def gapEnv : PdfEnv :=
  { existsSync := fun _ => true
    mkdirSync := fun _ => none
    basename := fun _ _ => "report"
    join := fun dir file => dir ++ "/" ++ file
    convert := fun _ _ _ => Except.ok (4, fun f => decide (f ≠ "pages/report-3.png")) }

end PDFProcessor

/-! ## The search route (`backend/src/routes/search.js`) -/

namespace Search

/-- Deleting the markers from a string in one pass, left to right: at a
position where `<mark>` or `</mark>` starts, the marker is skipped; any other
code unit is kept.  The first argument counts the code units of a marker
still to skip. -/
def deleteMarks : Nat → Str → Str
  | _, [] => []
  | skip + 1, _ :: cs => deleteMarks skip cs
  | 0, c :: cs =>
    if openMark.isPrefixOf (c :: cs) then deleteMarks 5 cs
    else if closeMark.isPrefixOf (c :: cs) then deleteMarks 6 cs
    else c :: deleteMarks 0 cs

/-- The string without its `<mark>` and `</mark>` markers. -/
def stripMarks (s : Str) : Str := deleteMarks 0 s

/-- The relation between a remainder of the highlighted string and the
remainder of the source it stands for: a source code unit is copied, or a
marker is inserted. -/
inductive Rendered : Str → Str → Prop where
  | done : Rendered [] []
  | copy (c : Nat) {r s : Str} : Rendered r s → Rendered (c :: r) (c :: s)
  | opened {r s : Str} : Rendered r s → Rendered (openMark ++ r) s
  | closed {r s : Str} : Rendered r s → Rendered (closeMark ++ r) s

/-- The source of the pattern: `'(' + queryWords.join('|') + ')'`; 40, 124 and
41 are `(`, `|` and `)`. -/
def patternSource (queryWords : List Str) : Str :=
  40 :: List.intercalate [124] queryWords ++ [41]

/-- The call `snippet.replace(new RegExp(pattern, 'gi'), '<mark>$1</mark>')`.
For literal words the pattern is valid and the result is `highlight`; for any
other pattern the regular-expression engine is a parameter, which raises
(`Except.error`) when the pattern is invalid and gives the replacement
otherwise. -/
def replaceMatches (u : CaseRules) (regExp : Str → Except String (Str → Str))
    (queryWords : List Str) (snippet : Str) : Except String Str :=
  if queryWords.all literalWord then Except.ok (highlight u queryWords snippet)
  else
    match regExp (patternSource queryWords) with
    | Except.error msg => Except.error msg
    | Except.ok replace => Except.ok (replace snippet)

/-- The `for (const word of queryWords)` loop of the route, with the error the
construction of the RegExp may raise. -/
def snippetLoopRaising (u : CaseRules) (regExp : Str → Except String (Str → Str))
    (text : Str) (queryWords : List Str) : List Str → Except String (Str × Str)
  | [] => Except.ok ([], [])
  | word :: rest =>
    match indexOf (u.toLowerCase text) word with
    | some index =>
      let snippet := substring text (windowStart index) (windowEnd text word index)
      match replaceMatches u regExp queryWords snippet with
      | Except.error msg => Except.error msg
      | Except.ok highlighted => Except.ok (snippet, highlighted)
    | none => snippetLoopRaising u regExp text queryWords rest

/-- The `snippet` field of one search result, or the error its computation
raises. -/
def snippetField (u : CaseRules) (regExp : Str → Except String (Str → Str))
    (q text : Str) : Except String Str :=
  match snippetLoopRaising u regExp text (queryWords u q) (queryWords u q) with
  | Except.error msg => Except.error msg
  | Except.ok (_, highlighted) =>
    Except.ok (if highlighted = [] then substring text 0 200 else highlighted)

end Search


namespace Worker

/-- The call `Math.ceil(x)`. -/
def mathCeil (x : Double) : Nat := (x.mant + 2 ^ x.scale - 1) / 2 ^ x.scale

/-- The call `Math.floor(x)`. -/
def mathFloor (x : Double) : Nat := x.mant / 2 ^ x.scale

end Worker

namespace SearchRoute

open Worker Search

/-- The query parameters of `GET /api/search`; `none` is an absent parameter. -/
structure Query where
  q : Option String := none
  page : Option String := none
  limit : Option String := none
  deriving DecidableEq, Repr

/-- A page the text search returns: the Page record, the Document that
`populate('documentId')` puts in its place (`none` when the store has no such
Document) and the text score. -/
structure Found where
  page : PageRec
  document : Option DocumentRec
  score : Rat
  deriving DecidableEq, Repr

/-- A JavaScript number whose value, when finite, is an integer: the numbers
`parseInt` and the arithmetic of the route produce. -/
inductive Number64 where
  | nan
  | infinite (negative : Bool)
  | finite (value : Int)
  deriving DecidableEq, Repr

/-- A lookup in the store, with the numbers handed to `skip` and `limit`. -/
inductive Lookup where
  | find (search : String) (skip limit : Number64)
  | countDocuments (search : String)
  deriving DecidableEq, Repr

/-- The collaborators of the route: the case conversions of the engine, the
query
`Page.find({ $text: { $search } }).populate(..).sort(..).skip(skip).limit(limit)`,
the count `Page.countDocuments({ $text: { $search } })`, and the
regular-expression engine for patterns that are not literal. -/
structure SearchEnv where
  rules : CaseRules
  find : String → Number64 → Number64 → Except String (List Found)
  countDocuments : String → Except String Nat
  regExp : Str → Except String (Str → Str)

/-- One element of `results`. -/
structure Result where
  documentId : Nat
  documentName : String
  pageNumber : Nat
  snippet : Str
  confidence : Nat
  score : Rat
  deriving DecidableEq, Repr

/-- The `pagination` object as JSON; `none` is `null`, which is how a number
that is not finite is written. -/
structure Pagination where
  page : Option Int
  limit : Option Int
  total : Nat
  pages : Option Int
  deriving DecidableEq, Repr

/-- The status and the JSON body of a response. -/
structure Response where
  status : Nat := 200
  error : Option String := none
  results : List Result := []
  pagination : Option Pagination := none
  query : Option String := none
  deriving DecidableEq, Repr

/-- The response of a call and the lookups it made, in order. -/
structure Run where
  response : Response
  lookups : List Lookup
  deriving DecidableEq, Repr

/-- The least `e`, from the given start and within the given number of steps,
with `n < 2 ^ (53 + e)`. -/
def exponentOf (n : Nat) : Nat → Nat → Nat
  | 0, e => e
  | fuel + 1, e => if n < 2 ^ (53 + e) then e else exponentOf n fuel (e + 1)

/-- The binary64 number nearest to a non-negative integer below `2 ^ 1024`
(ties to even): an integer below `2 ^ 53` is exact, a larger one keeps 53
significant bits. -/
def roundNat (n : Nat) : Nat :=
  if n < 2 ^ 53 then n
  else roundHalfEven n (2 ^ exponentOf n 971 0) * 2 ^ exponentOf n 971 0

/-- The JavaScript number for an integer: the nearest binary64 number, an
infinity from `2 ^ 1024` on. -/
def ofInt (v : Int) : Number64 :=
  if v.natAbs < 2 ^ 1024 ∧ roundNat v.natAbs < 2 ^ 1024 then
    Number64.finite (if v < 0 then -(roundNat v.natAbs : Int) else (roundNat v.natAbs : Int))
  else Number64.infinite (decide (v < 0))

/-- The difference `x - 1`. -/
def minusOne : Number64 → Number64
  | Number64.nan => Number64.nan
  | Number64.infinite negative => Number64.infinite negative
  | Number64.finite v => ofInt (v - 1)

/-- The product `x * y`. -/
def times : Number64 → Number64 → Number64
  | Number64.nan, _ => Number64.nan
  | _, Number64.nan => Number64.nan
  | Number64.finite a, Number64.finite b => ofInt (a * b)
  | Number64.infinite s, Number64.infinite t => Number64.infinite (s != t)
  | Number64.infinite s, Number64.finite b =>
    if b = 0 then Number64.nan else Number64.infinite (s != decide (b < 0))
  | Number64.finite a, Number64.infinite t =>
    if a = 0 then Number64.nan else Number64.infinite (t != decide (a < 0))

/-- The number as JSON: `null` unless it is finite. -/
def toJson : Number64 → Option Int
  | Number64.finite v => some v
  | _ => none

/-- The value of a digit or letter in `parseInt`. -/
def digitValue (c : Char) : Option Nat :=
  if '0' ≤ c ∧ c ≤ '9' then some (c.toNat - 48)
  else if 'a' ≤ c ∧ c ≤ 'z' then some (c.toNat - 87)
  else if 'A' ≤ c ∧ c ≤ 'Z' then some (c.toNat - 55)
  else none

/-- The values of the longest run of digits of the radix at the head. -/
def takeDigits (radix : Nat) : List Char → List Nat
  | [] => []
  | c :: cs =>
    match digitValue c with
    | some d => if d < radix then d :: takeDigits radix cs else []
    | none => []

/-- The call `parseInt(s)` on a string: leading white space is skipped, a sign
is read, `0x` or `0X` selects radix 16 (radix 10 otherwise), and the longest
run of digits gives the integer, which is rounded to the nearest binary64
number (for more than 20 significant decimal digits an engine may round the
digits after the 20th first); without a digit the result is `NaN`. -/
def parseInt (s : String) : Number64 :=
  let t := s.data.dropWhile (fun c => Backend.jsWhiteSpace.contains c.toNat)
  let signed : Bool × List Char :=
    match t with
    | '-' :: r => (true, r)
    | '+' :: r => (false, r)
    | _ => (false, t)
  let based : Nat × List Char :=
    match signed.2 with
    | '0' :: 'x' :: r => (16, r)
    | '0' :: 'X' :: r => (16, r)
    | _ => (10, signed.2)
  match takeDigits based.1 based.2 with
  | [] => Number64.nan
  | d :: ds =>
    let n : Nat := (d :: ds).foldl (fun acc x => acc * based.1 + x) 0
    ofInt (if signed.1 then -(n : Int) else (n : Int))

/-- The value `parseInt(page)`, with the default `page = 1`. -/
def pageOf (req : Query) : Number64 :=
  match req.page with
  | none => Number64.finite 1
  | some s => parseInt s

/-- The value `parseInt(limit)`, with the default `limit = 10`. -/
def limitOf (req : Query) : Number64 :=
  match req.limit with
  | none => Number64.finite 10
  | some s => parseInt s

/-- The value `(parseInt(page) - 1) * parseInt(limit)`: the difference and the
product are rounded to binary64. -/
def skipOf (req : Query) : Number64 :=
  times (minusOne (pageOf req)) (limitOf req)

/-- The value `Math.ceil(total / parseInt(limit))` as JSON, for a count below
`2 ^ 53`: the quotient is the binary64 quotient; it is not finite when the
limit is `NaN` or 0, and it is 0 when the limit is infinite. -/
def pagesOf (total : Nat) (limit : Number64) : Option Int :=
  match limit with
  | Number64.nan => none
  | Number64.infinite _ => some 0
  | Number64.finite l =>
    if l = 0 then none
    else if 0 < l then some (mathCeil (fdiv total l.toNat) : Nat)
    else some (-((mathFloor (fdiv total (-l).toNat) : Nat) : Int))

/-- The callback of `searchResults.map`: the snippet is computed, then the
fields of the populated Document are read (which raises when `documentId` is
`null`). -/
def toResult (env : SearchEnv) (q : String) (found : Found) : Except String Result :=
  match snippetField env.rules env.regExp (units q) (units found.page.text) with
  | Except.error msg => Except.error msg
  | Except.ok snippet =>
    match found.document with
    | none => Except.error "Cannot read properties of null (reading '_id')"
    | some document =>
      Except.ok
        { documentId := document.id, documentName := document.originalName,
          pageNumber := found.page.pageNumber, snippet := snippet,
          confidence := found.page.confidence, score := found.score }

/-- The callback applied to every page, first to last; the first error ends
the map. -/
def toResults (env : SearchEnv) (q : String) : List Found → Except String (List Result)
  | [] => Except.ok []
  | found :: rest =>
    match toResult env q found with
    | Except.error msg => Except.error msg
    | Except.ok result =>
      match toResults env q rest with
      | Except.error msg => Except.error msg
      | Except.ok results => Except.ok (result :: results)

/-- The response of the `catch` block. -/
def searchFailed : Response := { status := 500, error := some "Search failed" }

/-- The route `GET /api/search`. -/
def search (env : SearchEnv) (req : Query) : Run :=
  match req.q with
  | none =>
    { response := { status := 400, error := some "Query parameter is required" }, lookups := [] }
  | some q =>
    if q = "" then
      { response := { status := 400, error := some "Query parameter is required" },
        lookups := [] }
    else
      match env.find q (skipOf req) (limitOf req) with
      | Except.error _ =>
        { response := searchFailed, lookups := [Lookup.find q (skipOf req) (limitOf req)] }
      | Except.ok searchResults =>
        match env.countDocuments q with
        | Except.error _ =>
          { response := searchFailed,
            lookups := [Lookup.find q (skipOf req) (limitOf req), Lookup.countDocuments q] }
        | Except.ok total =>
          match toResults env q searchResults with
          | Except.error _ =>
            { response := searchFailed,
              lookups := [Lookup.find q (skipOf req) (limitOf req), Lookup.countDocuments q] }
          | Except.ok results =>
            { response :=
                { results := results
                  pagination := some
                    { page := toJson (pageOf req), limit := toJson (limitOf req),
                      total := total, pages := pagesOf total (limitOf req) }
                  query := some q }
              lookups := [Lookup.find q (skipOf req) (limitOf req), Lookup.countDocuments q] }

/-- A Document of the sample store. -/
def sampleDocument (id : Nat) : DocumentRec :=
  { id := id, filename := "notes.txt", originalName := "notes.txt",
    fileHash := "sha256-of-uploads/notes.txt", mimeType := "text/plain", size := 53,
    totalPages := 1, processedPages := 1, status := Status.completed, jobId := "job-1",
    uploadedAt := 5 }

/-- The ranked matches of the sample store: one page per text, all of Document
1, page numbers from 1. -/
def rankedPages (texts : List String) : List Found :=
  texts.enum.map (fun x =>
    { page :=
        { id := x.1 + 1, documentId := 1, pageNumber := x.1 + 1, text := x.2, confidence := 95,
          status := Status.completed }
      document := some (sampleDocument 1)
      score := 1 })

/-- A store that holds the given ranked matches for every query and applies a
finite, non-negative `skip` and `limit` to them; a regular-expression engine
that finds every pattern handed to it invalid (it is handed the patterns that
are not built from literal words only); the case conversions of `latinRules`. -/
def sampleSearchEnv (texts : List String) : SearchEnv :=
  { rules := latinRules
    find := fun _ skip limit =>
      match skip, limit with
      | Number64.finite k, Number64.finite l =>
        if 0 ≤ k ∧ 0 ≤ l then Except.ok (((rankedPages texts).drop k.toNat).take l.toNat)
        else Except.error "skip and limit must not be negative"
      | _, _ => Except.error "skip and limit must be numbers"
    countDocuments := fun _ => Except.ok texts.length
    regExp := fun _ => Except.error "Invalid regular expression" }

end SearchRoute

/-! ## Properties of the snippet generator -/

namespace Search

variable {u : CaseRules}

theorem canonical_length (s : Str) : (canonical u s).length = s.length := by
  simp [canonical]

theorem canonical_drop (s : Str) (n : Nat) :
    canonical u (s.drop n) = (canonical u s).drop n := by
  simp [canonical, List.map_drop]

theorem canonical_take (s : Str) (n : Nat) :
    canonical u (s.take n) = (canonical u s).take n := by
  simp [canonical, List.map_take]

theorem matchesAt_length {w s : Str} (h : matchesAt u w s = true) : w.length ≤ s.length := by
  unfold matchesAt at h
  have h' := (List.isPrefixOf_iff_prefix.mp h).length_le
  simpa [canonical_length] using h'

theorem matchAlt_some {words : List Str} {s : Str} {l : Nat} (h : matchAlt u words s = some l) :
    ∃ w ∈ words, matchesAt u w s = true ∧ w.length = l := by
  induction words with
  | nil => simp [matchAlt] at h
  | cons w ws ih =>
    unfold matchAlt at h
    by_cases hm : matchesAt u w s = true
    · simp [hm] at h
      exact ⟨w, by simp, hm, h⟩
    · simp [hm] at h
      obtain ⟨w', hw', h1, h2⟩ := ih h
      exact ⟨w', by simp [hw'], h1, h2⟩

theorem matchAlt_none {words : List Str} {s : Str} (h : matchAlt u words s = none) :
    ∀ w ∈ words, matchesAt u w s = false := by
  induction words with
  | nil => simp
  | cons w ws ih =>
    unfold matchAlt at h
    by_cases hm : matchesAt u w s = true
    · simp [hm] at h
    · simp [hm] at h
      intro w' hw'
      rcases List.mem_cons.mp hw' with rfl | hw'
      · simpa using hm
      · exact ih h w' hw'

theorem source_scan (words : List Str) :
    ∀ (fuel : Nat) (s : Str), s.length < fuel → source (scan u words fuel s) = s := by
  intro fuel
  induction fuel with
  | zero => intro s h; omega
  | succ fuel ih =>
    intro s h
    cases s with
    | nil =>
      unfold scan
      cases matchAlt u words [] <;> simp [source]
    | cons c cs =>
      have hcs : cs.length < fuel := by simpa using h
      unfold scan
      rcases hm : matchAlt u words (c :: cs) with _ | l
      · simp [source, ih cs hcs]
      · cases l with
        | zero => simp [source, ih cs hcs]
        | succ l =>
          have hd : (cs.drop l).length < fuel := by
            simp only [List.length_drop]; omega
          simp [source, ih _ hd]

theorem source_segments (words : List Str) (s : Str) : source (segments u words s) = s :=
  source_scan words _ s (Nat.lt_succ_self _)

theorem marks_pos_ge : ∀ (segs : List Seg) (off : Nat) (x : Nat × Str),
    x ∈ marks off segs → off ≤ x.1 := by
  intro segs
  induction segs with
  | nil => intro off x h; simp [marks] at h
  | cons sg r ih =>
    intro off x h
    cases sg with
    | plain c =>
      have := ih (off + 1) x (by simpa [marks] using h)
      omega
    | mark m =>
      simp only [marks, List.mem_cons] at h
      rcases h with rfl | h
      · exact le_rfl
      · have := ih _ x h
        omega

theorem occursAt_drop (s : Str) (k p : Nat) (w : Str) :
    occursAt u (s.drop k) p w ↔ occursAt u s (k + p) w := by
  unfold occursAt
  rw [List.drop_drop, Nat.add_comm]

theorem isolated_drop {words : List Str} {s : Str} {k p : Nat} {w : Str}
    (h : isolated u words s (k + p) w) : isolated u words (s.drop k) p w := by
  intro p' hp' w' hw' hocc hov
  have := h (k + p') (by omega) w' hw' ((occursAt_drop s k p' w').mp hocc) (by omega)
  exact ⟨by omega, this.2⟩

theorem count_marks_scan (words : List Str) (hne : ∀ w ∈ words, w ≠ []) :
    ∀ (fuel : Nat) (s : Str) (off p : Nat) (w : Str), s.length < fuel → w ∈ words →
      occursAt u s p w → isolated u words s p w →
      (marks off (scan u words fuel s)).count (off + p, (s.drop p).take w.length) = 1 := by
  intro fuel
  induction fuel with
  | zero => intro s off p w h; omega
  | succ fuel ih =>
    intro s off p w hfuel hw hocc hiso
    have hwpos : 0 < w.length := List.length_pos.mpr (hne w hw)
    cases s with
    | nil =>
      have := matchesAt_length hocc
      simp only [List.drop_nil, List.length_nil] at this
      omega
    | cons c cs =>
      have hcs : cs.length < fuel := by simpa using hfuel
      unfold scan
      rcases hm : matchAlt u words (c :: cs) with _ | l
      · -- no alternative matches here: the character is copied
        have hp : p ≠ 0 := by
          rintro rfl
          have := matchAlt_none hm w hw
          simp [occursAt] at hocc
          simp [hocc] at this
        obtain ⟨p', rfl⟩ := Nat.exists_eq_succ_of_ne_zero hp
        have hocc' : occursAt u cs p' w := by
          have := (occursAt_drop (c :: cs) 1 p' w).mpr (by simpa [Nat.add_comm] using hocc)
          simpa using this
        have hiso' : isolated u words cs p' w := by
          have := isolated_drop (k := 1) (p := p') (s := c :: cs) (by simpa [Nat.add_comm] using hiso)
          simpa using this
        have := ih cs (off + 1) p' w hcs hw hocc' hiso'
        simpa [marks, Nat.add_assoc, Nat.add_comm 1 p'] using this
      · obtain ⟨w1, hw1, hmatch1, hlen1⟩ := matchAlt_some hm
        cases l with
        | zero =>
          exact absurd (List.length_eq_zero.mp hlen1) (hne w1 hw1)
        | succ l =>
          have hocc1 : occursAt u (c :: cs) 0 w1 := by simpa [occursAt] using hmatch1
          have hl : l + 1 ≤ (c :: cs).length := hlen1 ▸ matchesAt_length hmatch1
          have htake : ((c :: cs).take (l + 1)).length = l + 1 := by
            rw [List.length_take]; omega
          have hd : (cs.drop l).length < fuel := by
            simp only [List.length_drop]; omega
          by_cases hp : p = 0
          · subst hp
            have h0 := hiso 0 (by omega) w1 hw1 hocc1 (by omega)
            have hwl : w.length = l + 1 := by omega
            have hrest : (marks (off + (l + 1)) (scan u words fuel (cs.drop l))).count
                (off, (c :: cs).take (l + 1)) = 0 := by
              apply List.count_eq_zero.mpr
              intro hmem
              have := marks_pos_ge _ _ _ hmem
              simp at this
            simp only [marks, htake, Nat.add_zero, List.drop_zero, hwl]
            rw [List.count_cons_self, hrest]
          · have hge : l + 1 ≤ p := by
              by_contra hlt
              have := hiso 0 (by omega) w1 hw1 hocc1 (by omega)
              omega
            obtain ⟨p', rfl⟩ : ∃ p', p = (l + 1) + p' := ⟨p - (l + 1), by omega⟩
            have hocc' : occursAt u (cs.drop l) p' w := by
              have := (occursAt_drop (c :: cs) (l + 1) p' w).mpr hocc
              simpa using this
            have hiso' : isolated u words (cs.drop l) p' w := by
              have := isolated_drop (k := l + 1) (p := p') (s := c :: cs) hiso
              simpa using this
            have := ih (cs.drop l) (off + (l + 1)) p' w hd hw hocc' hiso'
            have hne' : (off, (c :: cs).take (l + 1)) ≠
                (off + (l + 1 + p'), ((c :: cs).drop (l + 1 + p')).take w.length) := by
              intro heq
              have := congrArg Prod.fst heq
              simp at this
            simp only [marks, htake]
            rw [List.count_cons_of_ne (Ne.symm hne')]
            have hkey : (off + (l + 1 + p'), ((c :: cs).drop (l + 1 + p')).take w.length) =
                (off + (l + 1) + p', ((cs.drop l).drop p').take w.length) := by
              have h1 : (c :: cs).drop (l + 1 + p') = (cs.drop l).drop p' := by
                rw [List.drop_drop, show l + 1 + p' = (l + p') + 1 by omega, List.drop_succ_cons]
              have h2 : off + (l + 1 + p') = off + (l + 1) + p' := by omega
              rw [h1, h2]
            rw [hkey]
            exact this

theorem marks_scan_sound (words : List Str) :
    ∀ (fuel : Nat) (s : Str) (off : Nat) (x : Nat × Str), x ∈ marks off (scan u words fuel s) →
      ∃ p, x.1 = off + p ∧ ∃ w ∈ words, occursAt u s p w ∧ x.2 = (s.drop p).take w.length := by
  intro fuel
  induction fuel with
  | zero => intro s off x h; simp [scan, marks] at h
  | succ fuel ih =>
    intro s off x h
    cases s with
    | nil =>
      unfold scan at h
      rcases hm : matchAlt u words [] with _ | l
      · simp [hm, marks] at h
      · obtain ⟨w, hw, hmatch, hlen⟩ := matchAlt_some hm
        have hl := matchesAt_length hmatch
        simp only [List.length_nil, Nat.le_zero] at hl
        simp only [hm, marks, List.mem_singleton] at h
        subst h
        exact ⟨0, rfl, w, hw, by simpa [occursAt] using hmatch, by simp⟩
    | cons c cs =>
      unfold scan at h
      rcases hm : matchAlt u words (c :: cs) with _ | l
      · simp only [hm, marks] at h
        obtain ⟨p, hp, w, hw, hocc, hx⟩ := ih cs (off + 1) x h
        refine ⟨1 + p, by omega, w, hw, (occursAt_drop (c :: cs) 1 p w).mp (by simpa using hocc), ?_⟩
        rw [hx, Nat.add_comm 1 p, List.drop_succ_cons]
      · obtain ⟨w1, hw1, hmatch1, hlen1⟩ := matchAlt_some hm
        have hocc1 : occursAt u (c :: cs) 0 w1 := by simpa [occursAt] using hmatch1
        cases l with
        | zero =>
          simp only [hm, marks, List.mem_cons, List.length_nil, Nat.add_zero] at h
          rcases h with rfl | h
          · exact ⟨0, rfl, w1, hw1, hocc1, by simp [hlen1]⟩
          · obtain ⟨p, hp, w, hw, hocc, hx⟩ := ih cs (off + 1) x h
            refine ⟨1 + p, by omega, w, hw,
              (occursAt_drop (c :: cs) 1 p w).mp (by simpa using hocc), ?_⟩
            rw [hx, Nat.add_comm 1 p, List.drop_succ_cons]
        | succ l =>
          have hl : l + 1 ≤ (c :: cs).length := hlen1 ▸ matchesAt_length hmatch1
          have htake : ((c :: cs).take (l + 1)).length = l + 1 := by
            rw [List.length_take]; omega
          simp only [hm, marks, List.mem_cons, htake] at h
          rcases h with rfl | h
          · exact ⟨0, rfl, w1, hw1, hocc1, by simp [hlen1]⟩
          · obtain ⟨p, hp, w, hw, hocc, hx⟩ := ih (cs.drop l) (off + (l + 1)) x h
            refine ⟨(l + 1) + p, by omega, w, hw,
              (occursAt_drop (c :: cs) (l + 1) p w).mp (by simpa using hocc), ?_⟩
            rw [hx, List.drop_drop, show l + 1 + p = (l + p) + 1 by omega, List.drop_succ_cons]

theorem render_ne_nil {segs : List Seg} (h : segs ≠ []) : render segs ≠ [] := by
  cases segs with
  | nil => exact absurd rfl h
  | cons sg r => cases sg <;> simp [render, openMark]

theorem render_plain (s : Str) : render (s.map Seg.plain) = s := by
  induction s with
  | nil => rfl
  | cons c cs ih => simp [render, ih]

theorem indexOf_some : ∀ {s w : Str} {i : Nat}, indexOf s w = some i →
    w.isPrefixOf (s.drop i) = true ∧ ∀ j < i, w.isPrefixOf (s.drop j) = false := by
  intro s
  induction s with
  | nil =>
    intro w i h
    unfold indexOf at h
    by_cases hp : w.isPrefixOf [] = true
    · simp only [hp, if_true, Option.some.injEq] at h
      subst h
      exact ⟨by simpa using hp, by intro j hj; omega⟩
    · simp [hp] at h
  | cons c cs ih =>
    intro w i h
    unfold indexOf at h
    by_cases hp : w.isPrefixOf (c :: cs) = true
    · simp only [hp, if_true, Option.some.injEq] at h
      subst h
      exact ⟨by simpa using hp, by intro j hj; omega⟩
    · simp only [hp, Bool.false_eq_true, if_false, Option.map_eq_some'] at h
      obtain ⟨k, hk, rfl⟩ := h
      obtain ⟨h1, h2⟩ := ih hk
      refine ⟨by simpa using h1, ?_⟩
      intro j hj
      cases j with
      | zero => exact Bool.eq_false_iff.mpr hp
      | succ j => simpa using h2 j (by omega)

theorem indexOf_none : ∀ {s w : Str}, indexOf s w = none →
    ∀ j, w.isPrefixOf (s.drop j) = false := by
  intro s
  induction s with
  | nil =>
    intro w h j
    unfold indexOf at h
    by_cases hp : w.isPrefixOf [] = true
    · simp [hp] at h
    · rw [List.drop_nil]
      exact Bool.eq_false_iff.mpr hp
  | cons c cs ih =>
    intro w h j
    unfold indexOf at h
    by_cases hp : w.isPrefixOf (c :: cs) = true
    · simp [hp] at h
    · simp only [hp, Bool.false_eq_true, if_false, Option.map_eq_none'] at h
      cases j with
      | zero => exact Bool.eq_false_iff.mpr hp
      | succ j => simpa using ih h j

theorem snippetLoop_found (text : Str) (words : List Str) :
    ∀ (pre rest : List Str) (w : Str) (i : Nat),
      (∀ w' ∈ pre, indexOf (u.toLowerCase text) w' = none) →
      indexOf (u.toLowerCase text) w = some i →
      snippetLoop u text words (pre ++ w :: rest) =
        (substring text (windowStart i) (windowEnd text w i),
          highlight u words (substring text (windowStart i) (windowEnd text w i))) := by
  intro pre
  induction pre with
  | nil => intro rest w i _ hi; simp [snippetLoop, hi]
  | cons a pre ih =>
    intro rest w i hpre hi
    have ha : indexOf (u.toLowerCase text) a = none := hpre a (by simp)
    simp only [List.cons_append, snippetLoop, ha]
    exact ih rest w i (fun w' hw' => hpre w' (by simp [hw'])) hi

theorem snippetLoop_none (text : Str) (words : List Str) :
    ∀ (ws : List Str), (∀ w ∈ ws, indexOf (u.toLowerCase text) w = none) →
      snippetLoop u text words ws = ([], []) := by
  intro ws
  induction ws with
  | nil => intro _; rfl
  | cons a ws ih =>
    intro h
    have ha : indexOf (u.toLowerCase text) a = none := h a (by simp)
    simp only [snippetLoop, ha]
    exact ih (fun w hw => h w (by simp [hw]))

/-- The first word of the list, in order, that occurs in the text. -/
theorem exists_first_found (text : Str) :
    ∀ (ws : List Str), (∃ w ∈ ws, indexOf (u.toLowerCase text) w ≠ none) →
      ∃ pre w rest i, ws = pre ++ w :: rest ∧
        (∀ w' ∈ pre, indexOf (u.toLowerCase text) w' = none) ∧
        indexOf (u.toLowerCase text) w = some i := by
  intro ws
  induction ws with
  | nil => rintro ⟨w, hw, _⟩; simp at hw
  | cons a ws ih =>
    rintro ⟨w, hw, hne⟩
    rcases ha : indexOf (u.toLowerCase text) a with _ | i
    · rcases List.mem_cons.mp hw with rfl | hw
      · exact absurd ha hne
      · obtain ⟨pre, w', rest, i, rfl, hpre, hi⟩ := ih ⟨w, hw, hne⟩
        refine ⟨a :: pre, w', rest, i, rfl, ?_, hi⟩
        intro x hx
        rcases List.mem_cons.mp hx with rfl | hx
        · exact ha
        · exact hpre x hx
    · exact ⟨[], a, ws, i, rfl, by simp, ha⟩

theorem windowStart_eq (i : Nat) : windowStart i = i - 100 := by
  unfold windowStart; omega

theorem window_eq (text w : Str) (i : Nat) :
    substring text (windowStart i) (windowEnd text w i) =
      (text.take (min text.length (i + w.length + 100))).drop (i - 100) := by
  unfold substring windowEnd
  rw [windowStart_eq]
  by_cases h : i - 100 ≤ min text.length (i + w.length + 100)
  · rw [max_eq_right h, min_eq_left h]
  · have hlen : text.length ≤ i - 100 := by
      rw [Nat.min_def] at h; split at h <;> omega
    rw [List.drop_eq_nil_of_le, List.drop_eq_nil_of_le]
    · rw [List.length_take]; omega
    · rw [List.length_take]; omega

/-- When lower-casing keeps the length of the text, the occurrence found in the
lower-cased text lies within the text, and the window holds the code units
of the text at the positions of the occurrence. -/
theorem window_contains {text w : Str} {i : Nat}
    (hi : indexOf (u.toLowerCase text) w = some i)
    (hsame : (u.toLowerCase text).length = text.length) :
    i + w.length ≤ text.length ∧
    (((text.take (min text.length (i + w.length + 100))).drop (i - 100)).drop
      (i - (i - 100))).take w.length = (text.drop i).take w.length := by
  have hpre := List.isPrefixOf_iff_prefix.mp (indexOf_some hi).1
  have hlen : i + w.length ≤ text.length := by
    have := hpre.length_le
    rw [List.length_drop, hsame] at this
    by_cases hw : w.length = 0
    · have hw' : w = [] := List.length_eq_zero.mp hw
      by_contra hcon
      have hnil : (u.toLowerCase text).drop (text.length + 1) = [] :=
        List.drop_eq_nil_of_le (by rw [hsame]; omega)
      have h1 := (indexOf_some hi).2 text.length (by omega)
      rw [hw'] at h1
      simp [List.isPrefixOf] at h1
    · omega
  refine ⟨hlen, ?_⟩
  rw [List.drop_drop, show i - 100 + (i - (i - 100)) = i by omega, List.drop_take,
    List.take_take]
  rw [show min w.length (min text.length (i + w.length + 100) - i) = w.length by
    rw [Nat.min_def, Nat.min_def]; split <;> split <;> omega]

theorem window_length_le (text w : Str) (i : Nat) :
    ((text.take (min text.length (i + w.length + 100))).drop (i - 100)).length
      ≤ 200 + w.length := by
  rw [List.length_drop, List.length_take]
  omega

theorem plainSnippet_found {q text : Str} {pre rest : List Str} {w : Str} {i : Nat}
    (hq : queryWords u q = pre ++ w :: rest)
    (hpre : ∀ w' ∈ pre, indexOf (u.toLowerCase text) w' = none)
    (hi : indexOf (u.toLowerCase text) w = some i) :
    plainSnippet u q text =
      (text.take (min text.length (i + w.length + 100))).drop (i - 100) := by
  have hloop := snippetLoop_found (u := u) text (queryWords u q) pre rest w i hpre hi
  rw [← hq] at hloop
  unfold plainSnippet
  rw [hloop, window_eq]

/-- When lower-casing keeps the length of the text and a non-empty query word
occurs, the window is not empty. -/
theorem plainSnippet_ne_nil (q text : Str)
    (hwords : ∀ w ∈ queryWords u q, w ≠ [])
    (hocc : ∃ w ∈ queryWords u q, indexOf (u.toLowerCase text) w ≠ none)
    (hsame : (u.toLowerCase text).length = text.length) :
    plainSnippet u q text ≠ [] := by
  obtain ⟨pre, w, rest, i, hq, hpre, hi⟩ := exists_first_found text (queryWords u q) hocc
  have hw : w ≠ [] := hwords w (by rw [hq]; simp)
  have hwpos : 0 < w.length := List.length_pos.mpr hw
  have hin := (window_contains hi hsame).1
  intro hnil
  have hlen := congrArg List.length hnil
  rw [plainSnippet_found hq hpre hi, List.length_drop, List.length_take] at hlen
  simp only [List.length_nil] at hlen
  omega

theorem resultSnippet_found {q text : Str} {pre rest : List Str} {w : Str} {i : Nat}
    (hq : queryWords u q = pre ++ w :: rest)
    (hpre : ∀ w' ∈ pre, indexOf (u.toLowerCase text) w' = none)
    (hi : indexOf (u.toLowerCase text) w = some i)
    (hsn : plainSnippet u q text ≠ []) :
    resultSnippet u q text = render (segments u (queryWords u q) (plainSnippet u q text)) := by
  have hloop := snippetLoop_found (u := u) text (queryWords u q) pre rest w i hpre hi
  rw [← hq] at hloop
  have hsegs : segments u (queryWords u q) (plainSnippet u q text) ≠ [] := by
    intro hnil
    have := source_segments (u := u) (queryWords u q) (plainSnippet u q text)
    rw [hnil] at this
    exact hsn this.symm
  have h2 : (snippetLoop u text (queryWords u q) (queryWords u q)).2 =
      render (segments u (queryWords u q) (plainSnippet u q text)) := by
    unfold plainSnippet; rw [hloop]; rfl
  unfold resultSnippet
  simp only [h2]
  rw [if_neg (render_ne_nil hsegs)]

/-- C1, as stated, fails: for the page text `abc` and the query `ab bc` both
words are non-empty literals and occur in the text, the occurrence of `bc` at
position 1 of the snippet is not enclosed in a marker pair of its own: the scan
marks `ab` and resumes after it, giving `<mark>ab</mark>c`. -/
theorem overlapping_occurrence_not_marked :
    (∀ w ∈ queryWords latinRules (units "ab bc"), w ≠ [] ∧ literalWord w = true) ∧
    (∃ w ∈ queryWords latinRules (units "ab bc"),
      indexOf (latinRules.toLowerCase (units "abc")) w ≠ none) ∧
    units "bc" ∈ queryWords latinRules (units "ab bc") ∧
    occursAt latinRules (plainSnippet latinRules (units "ab bc") (units "abc")) 1 (units "bc") ∧
    (marks 0 (segments latinRules (queryWords latinRules (units "ab bc"))
      (plainSnippet latinRules (units "ab bc") (units "abc")))).count (1, units "bc") = 0 ∧
    resultSnippet latinRules (units "ab bc") (units "abc") = units "<mark>ab</mark>c" := by
  decide

/-- C1, amended: for every page text and every query whose words are non-empty
and free of regular-expression metacharacters, if at least one word occurs in
the lower-cased text and the snippet window is not empty, then the returned
snippet is the rendering of a left-to-right list of pieces that covers the
snippet window exactly once (so markers are never nested or repeated); every
marked piece is a case-insensitive occurrence of a query word; and every
occurrence of a query word in the window that shares no code unit with an
occurrence on another span is marked exactly once, at its own position and
with the page's own code units.  The statement holds for all case conversions
of the engine; the window is not empty whenever lower-casing keeps the length
of the text (`plainSnippet_ne_nil`). -/
theorem isolated_occurrence_marked_once (u : CaseRules) (q text : Str)
    (hwords : ∀ w ∈ queryWords u q, w ≠ [] ∧ literalWord w = true)
    (hocc : ∃ w ∈ queryWords u q, indexOf (u.toLowerCase text) w ≠ none)
    (hwindow : plainSnippet u q text ≠ []) :
    resultSnippet u q text = render (segments u (queryWords u q) (plainSnippet u q text)) ∧
    source (segments u (queryWords u q) (plainSnippet u q text)) = plainSnippet u q text ∧
    (∀ x ∈ marks 0 (segments u (queryWords u q) (plainSnippet u q text)),
      ∃ w ∈ queryWords u q, occursAt u (plainSnippet u q text) x.1 w ∧
        x.2 = ((plainSnippet u q text).drop x.1).take w.length) ∧
    (∀ (p : Nat) (w : Str), w ∈ queryWords u q → occursAt u (plainSnippet u q text) p w →
      isolated u (queryWords u q) (plainSnippet u q text) p w →
      (marks 0 (segments u (queryWords u q) (plainSnippet u q text))).count
        (p, ((plainSnippet u q text).drop p).take w.length) = 1) := by
  obtain ⟨pre, w, rest, i, hq, hpre, hi⟩ := exists_first_found text (queryWords u q) hocc
  refine ⟨resultSnippet_found hq hpre hi hwindow, source_segments _ _, ?_, ?_⟩
  · intro x hx
    obtain ⟨p, hp, w', hw', hocc', hx2⟩ :=
      marks_scan_sound (u := u) (queryWords u q) _ _ 0 x hx
    have hp' : x.1 = p := by omega
    exact ⟨w', hw', hp' ▸ hocc', hp' ▸ hx2⟩
  · intro p w' hw' hocc' hiso
    have := count_marks_scan (u := u) (queryWords u q) (fun w hw => (hwords w hw).1)
      ((plainSnippet u q text).length + 1) (plainSnippet u q text) 0 p w'
      (Nat.lt_succ_self _) hw' hocc' hiso
    simpa [segments] using this

/-- The amended C1 at the page text of the repository's workflow test and the
query `machine learning`: the occurrence of `machine` at position 0 is marked
exactly once, with the page's casing. -/
theorem isolated_occurrence_marked_once_witness :
    (∀ w ∈ queryWords latinRules (units "machine learning"), w ≠ [] ∧ literalWord w = true) ∧
    (∃ w ∈ queryWords latinRules (units "machine learning"),
      indexOf (latinRules.toLowerCase
        (units "Machine learning algorithms process data efficiently.")) w ≠ none) ∧
    plainSnippet latinRules (units "machine learning")
      (units "Machine learning algorithms process data efficiently.") ≠ [] ∧
    (marks 0 (segments latinRules (queryWords latinRules (units "machine learning"))
      (plainSnippet latinRules (units "machine learning")
        (units "Machine learning algorithms process data efficiently.")))).count
      (0, units "Machine") = 1 :=
  ⟨by decide, by decide, by decide,
    (isolated_occurrence_marked_once latinRules (units "machine learning")
      (units "Machine learning algorithms process data efficiently.")
      (by decide) (by decide) (by decide)).2.2.2 0 (units "machine") (by decide) (by decide)
      (by decide)⟩

/-- C2, as stated, fails: for the query `a b` and a page text made of `b`, 150
times `x`, then `a`, the earliest occurrence of a query word is `b` at position
0, but the loop takes the first word of the query that occurs, `a` at position
151, and cuts the window there: the snippet is not the window around position 0
and does not even start at the beginning of the text. -/
theorem window_not_at_earliest_occurrence :
    units "b" ∈ queryWords latinRules (units "a b") ∧
    indexOf (latinRules.toLowerCase (units "b" ++ List.replicate 150 120 ++ units "a"))
      (units "b") = some 0 ∧
    indexOf (latinRules.toLowerCase (units "b" ++ List.replicate 150 120 ++ units "a"))
      (units "a") = some 151 ∧
    plainSnippet latinRules (units "a b") (units "b" ++ List.replicate 150 120 ++ units "a") ≠
      substring (units "b" ++ List.replicate 150 120 ++ units "a") (windowStart 0)
        (windowEnd (units "b" ++ List.replicate 150 120 ++ units "a") (units "b") 0) ∧
    plainSnippet latinRules (units "a b") (units "b" ++ List.replicate 150 120 ++ units "a") =
      List.replicate 100 120 ++ units "a" := by
  decide

/-- C2, amended: for each search result, the un-highlighted snippet is the
substring of the page text from max(0, i-100) to min(|text|, i+|w|+100), where
w is the first word of the query, in query order, that occurs in the
lower-cased page text and i is the position of the first occurrence of w in
the lower-cased text; the window is never longer than 200 + |w| code units;
and when lower-casing keeps the length of the text, the occurrence lies within
the text and the window holds the code units of the text at its positions (at
offset i - max(0, i-100)).  The statement holds for all case conversions of the
engine. -/
theorem window_at_first_query_word (u : CaseRules) (q text : Str) (pre rest : List Str)
    (w : Str) (i : Nat)
    (hq : queryWords u q = pre ++ w :: rest)
    (hpre : ∀ w' ∈ pre, indexOf (u.toLowerCase text) w' = none)
    (hi : indexOf (u.toLowerCase text) w = some i) :
    (w <+: (u.toLowerCase text).drop i ∧ ∀ j < i, ¬ w <+: (u.toLowerCase text).drop j) ∧
    plainSnippet u q text = substring text (i - 100) (min text.length (i + w.length + 100)) ∧
    plainSnippet u q text = (text.take (min text.length (i + w.length + 100))).drop (i - 100) ∧
    (plainSnippet u q text).length ≤ 200 + w.length ∧
    ((u.toLowerCase text).length = text.length →
      i + w.length ≤ text.length ∧
      ((plainSnippet u q text).drop (i - (i - 100))).take w.length =
        (text.drop i).take w.length) := by
  have hloop := snippetLoop_found (u := u) text (queryWords u q) pre rest w i hpre hi
  rw [← hq] at hloop
  have hplain := plainSnippet_found hq hpre hi
  have hsub : plainSnippet u q text =
      substring text (i - 100) (min text.length (i + w.length + 100)) := by
    unfold plainSnippet; rw [hloop, windowStart_eq]; rfl
  refine ⟨⟨List.isPrefixOf_iff_prefix.mp (indexOf_some hi).1, ?_⟩, hsub, hplain, ?_, ?_⟩
  · intro j hj hcon
    have := (indexOf_some hi).2 j hj
    rw [List.isPrefixOf_iff_prefix.mpr hcon] at this
    exact Bool.noConfusion this
  · rw [hplain]; exact window_length_le text w i
  · intro hsame
    rw [hplain]
    exact window_contains hi hsame

/-- The amended C2 at the input of the counterexample: the window is cut around
`a`, the first query word, found at position 151. -/
theorem window_at_first_query_word_witness :
    queryWords latinRules (units "a b") = [] ++ units "a" :: [units "b"] ∧
    (∀ w' ∈ ([] : List Str),
      indexOf (latinRules.toLowerCase (units "b" ++ List.replicate 150 120 ++ units "a")) w' =
        none) ∧
    indexOf (latinRules.toLowerCase (units "b" ++ List.replicate 150 120 ++ units "a"))
      (units "a") = some 151 ∧
    plainSnippet latinRules (units "a b") (units "b" ++ List.replicate 150 120 ++ units "a") =
      substring (units "b" ++ List.replicate 150 120 ++ units "a") (151 - 100)
        (min (units "b" ++ List.replicate 150 120 ++ units "a").length
          (151 + (units "a").length + 100)) :=
  ⟨by decide, by decide, by decide,
    (window_at_first_query_word latinRules (units "a b")
      (units "b" ++ List.replicate 150 120 ++ units "a")
      [] [units "b"] (units "a") 151 (by decide) (by decide) (by decide)).2.1⟩

/-- C3: for the page text "Machine learning algorithms process data
efficiently." and the query "machine learning", the snippet returned by the
search route contains `<mark>Machine</mark> <mark>learning</mark>`: the
lower-case query matches the capitalised text and the marked text keeps the
page's casing. -/
theorem machine_learning_snippet :
    resultSnippet latinRules (units "machine learning")
        (units "Machine learning algorithms process data efficiently.") =
      units "<mark>Machine</mark> <mark>learning</mark> algorithms process data efficiently." ∧
    List.IsInfix (units "<mark>Machine</mark> <mark>learning</mark>")
      (resultSnippet latinRules (units "machine learning")
        (units "Machine learning algorithms process data efficiently.")) := by
  have h : resultSnippet latinRules (units "machine learning")
        (units "Machine learning algorithms process data efficiently.") =
      units "<mark>Machine</mark> <mark>learning</mark> algorithms process data efficiently." := by
    decide
  refine ⟨h, [], units " algorithms process data efficiently.", ?_⟩
  rw [h]
  decide

/-- C4: if none of the query words occurs in the lower-cased page text, the
highlighted snippet stays empty and the returned snippet is exactly the first
200 code units of the page text (the whole text when it is shorter): it is
rendered from copied code units only, with no marked piece, so it contains the
characters of a marker only where the page text itself does.  The statement
holds for all case conversions of the engine. -/
theorem fallback_snippet (u : CaseRules) (q text : Str)
    (hnone : ∀ w ∈ queryWords u q, indexOf (u.toLowerCase text) w = none) :
    (snippetLoop u text (queryWords u q) (queryWords u q)).2 = [] ∧
    resultSnippet u q text = text.take 200 ∧
    (text.length ≤ 200 → resultSnippet u q text = text) ∧
    resultSnippet u q text = render ((text.take 200).map Seg.plain) ∧
    (∀ m : Str, List.IsInfix m (resultSnippet u q text) → List.IsInfix m text) := by
  have hloop := snippetLoop_none (u := u) text (queryWords u q) (queryWords u q) hnone
  have hres : resultSnippet u q text = text.take 200 := by
    unfold resultSnippet
    simp [hloop, substring]
  refine ⟨by rw [hloop], hres, ?_, ?_, ?_⟩
  · intro hlen
    rw [hres, List.take_of_length_le hlen]
  · rw [hres, render_plain]
  · intro m hm
    rw [hres] at hm
    exact hm.trans (List.take_prefix 200 text).isInfix

/-- C4 at the query `xyz` and the page text `Hello world`, and at the query
`è` and the page text `CAFÉ au lait`; for the query `é` the same text is not a
case of C4, since the lower-cased text contains `é`. -/
theorem fallback_snippet_witness :
    (∀ w ∈ queryWords latinRules (units "xyz"),
      indexOf (latinRules.toLowerCase (units "Hello world")) w = none) ∧
    resultSnippet latinRules (units "xyz") (units "Hello world") = units "Hello world" ∧
    resultSnippet latinRules (units "è") (units "CAFÉ au lait") = units "CAFÉ au lait" ∧
    resultSnippet latinRules (units "é") (units "CAFÉ au lait") =
      units "CAF<mark>É</mark> au lait" :=
  ⟨by decide, (fallback_snippet latinRules (units "xyz") (units "Hello world") (by decide)).2.1,
    (fallback_snippet latinRules (units "è") (units "CAFÉ au lait") (by decide)).2.1,
    by decide⟩

end Search

/-! ## Properties of the worker job handler -/

namespace Worker

theorem find?_updateFirst {α : Type} (p : α → Bool) (f : α → α)
    (hf : ∀ a, p a = true → p (f a) = true) (l : List α) :
    (updateFirst p f l).find? p = (l.find? p).map f := by
  induction l with
  | nil => rfl
  | cons a l ih =>
    unfold updateFirst
    by_cases h : p a = true
    · simp [h, hf a h]
    · simp [h, ih]

theorem updateFirst_of_forall_not {α : Type} (p : α → Bool) (f : α → α) (l : List α)
    (h : ∀ a ∈ l, p a = false) : updateFirst p f l = l := by
  induction l with
  | nil => rfl
  | cons a l ih =>
    unfold updateFirst
    have ha : p a = false := h a (by simp)
    simp only [ha, Bool.false_eq_true, if_false]
    rw [ih (fun b hb => h b (by simp [hb]))]

theorem updateFirst_append_of_forall_not {α : Type} (p : α → Bool) (f : α → α)
    (l1 l2 : List α) (h : ∀ a ∈ l1, p a = false) :
    updateFirst p f (l1 ++ l2) = l1 ++ updateFirst p f l2 := by
  induction l1 with
  | nil => rfl
  | cons a l ih =>
    have ha : p a = false := h a (by simp)
    have := ih (fun b hb => h b (by simp [hb]))
    simp [updateFirst, ha, this]

theorem map_updateFirst {α β : Type} (p : α → Bool) (f : α → α) (g : α → β)
    (hg : ∀ a, g (f a) = g a) (l : List α) : (updateFirst p f l).map g = l.map g := by
  induction l with
  | nil => rfl
  | cons a l ih =>
    unfold updateFirst
    by_cases h : p a = true
    · simp [h, hg]
    · simp [h, ih]

theorem findJob_updateJob (jobId : String) (f : JobRec → JobRec) (w : World)
    (hf : ∀ j, (f j).jobId = j.jobId) :
    findJob (updateJob jobId f w).store jobId = (findJob w.store jobId).map f := by
  unfold findJob updateJob commit
  exact find?_updateFirst _ f (fun a ha => by simpa [hf a] using ha) _

theorem findDocument_updateDocument (id : Nat) (f : DocumentRec → DocumentRec) (w : World)
    (hf : ∀ d, d.id = id → (f d).id = id) :
    findDocument (updateDocument id f w).store id = (findDocument w.store id).map f := by
  unfold findDocument updateDocument commit
  exact find?_updateFirst _ f (fun a ha => by simpa using hf a (by simpa using ha)) _

theorem findDocument_saveDocument (d : DocumentRec) (w : World) :
    findDocument (saveDocument d w).store d.id = (findDocument w.store d.id).map (fun _ => d) := by
  unfold findDocument saveDocument updateDocument commit
  exact find?_updateFirst _ _ (fun a _ => by simp) _

theorem TraceInv.init (documentId : Nat) (jobId : String) (s : Store)
    (hd : docProcessed documentId s = 0) (hj : jobProcessed jobId s = 0) :
    TraceInv documentId jobId 0 (World.init s) := by
  refine ⟨?_, ?_, ?_, ?_, ?_, ?_, ?_, ?_⟩ <;> simp [World.init, hd, hj]

theorem TraceInv.commit {documentId : Nat} {jobId : String} {k : Nat} {w : World}
    (h : TraceInv documentId jobId k w) (s : Store) (k2 : Nat)
    (hd : docProcessed documentId w.store ≤ docProcessed documentId s)
    (hj : jobProcessed jobId w.store ≤ jobProcessed jobId s)
    (hbd : docProcessed documentId s ≤ docTotal documentId s)
    (hbj : jobProcessed jobId s ≤ jobTotal jobId s)
    (hkd : docProcessed documentId s ≤ k2) (hkj : jobProcessed jobId s ≤ k2) :
    TraceInv documentId jobId k2 (Worker.commit w s) := by
  refine ⟨?_, ?_, ?_, ?_, ?_, ?_, hkd, hkj⟩
  · simp [Worker.commit]
  · intro x hx
    simp only [Worker.commit, List.mem_append, List.mem_singleton] at hx
    rcases hx with hx | rfl
    · exact h.bounded x hx
    · exact ⟨hbd, hbj⟩
  · simp only [Worker.commit, List.map_append, List.map_cons, List.map_nil]
    refine List.pairwise_append.mpr ⟨h.sortedDoc, List.pairwise_singleton _ _, ?_⟩
    intro a ha b hb
    obtain ⟨x, hx, rfl⟩ := List.mem_map.mp ha
    rw [List.mem_singleton.mp hb]
    exact le_trans (h.lastDoc x hx) hd
  · simp only [Worker.commit, List.map_append, List.map_cons, List.map_nil]
    refine List.pairwise_append.mpr ⟨h.sortedJob, List.pairwise_singleton _ _, ?_⟩
    intro a ha b hb
    obtain ⟨x, hx, rfl⟩ := List.mem_map.mp ha
    rw [List.mem_singleton.mp hb]
    exact le_trans (h.lastJob x hx) hj
  · intro x hx
    simp only [Worker.commit, List.mem_append, List.mem_singleton] at hx
    rcases hx with hx | rfl
    · exact le_trans (h.lastDoc x hx) hd
    · exact le_rfl
  · intro x hx
    simp only [Worker.commit, List.mem_append, List.mem_singleton] at hx
    rcases hx with hx | rfl
    · exact le_trans (h.lastJob x hx) hj
    · exact le_rfl

/-- A write that leaves the Document and Job collections as they are keeps the
invariant. -/
theorem TraceInv.commit_same {documentId : Nat} {jobId : String} {k : Nat} {w : World}
    (h : TraceInv documentId jobId k w) (s : Store)
    (hdocs : s.documents = w.store.documents) (hjobs : s.jobs = w.store.jobs) :
    TraceInv documentId jobId k (Worker.commit w s) := by
  have e1 : docProcessed documentId s = docProcessed documentId w.store := by
    simp [docProcessed, findDocument, hdocs]
  have e2 : jobProcessed jobId s = jobProcessed jobId w.store := by
    simp [jobProcessed, findJob, hjobs]
  have e3 : docTotal documentId s = docTotal documentId w.store := by
    simp [docTotal, findDocument, hdocs]
  have e4 : jobTotal jobId s = jobTotal jobId w.store := by
    simp [jobTotal, findJob, hjobs]
  have hb := h.bounded w.store h.mem
  exact h.commit s k (by rw [e1]) (by rw [e2]) (by rw [e1, e3]; exact hb.1)
    (by rw [e2, e4]; exact hb.2) (by rw [e1]; exact h.curDoc) (by rw [e2]; exact h.curJob)

theorem TraceInv.mono {documentId : Nat} {jobId : String} {k k2 : Nat} {w : World}
    (h : TraceInv documentId jobId k w) (hk : k ≤ k2) : TraceInv documentId jobId k2 w :=
  ⟨h.mem, h.bounded, h.sortedDoc, h.sortedJob, h.lastDoc, h.lastJob,
    le_trans h.curDoc hk, le_trans h.curJob hk⟩

theorem TraceInv.emit {documentId : Nat} {jobId : String} {k : Nat} {w : World}
    (h : TraceInv documentId jobId k w) (env : Env) (ev : Event) :
    TraceInv documentId jobId k (Worker.emit env ev w).1 :=
  ⟨h.mem, h.bounded, h.sortedDoc, h.sortedJob, h.lastDoc, h.lastJob, h.curDoc, h.curJob⟩

@[simp] theorem findDocument_updateJob (jobId : String) (f : JobRec → JobRec) (w : World)
    (id : Nat) : findDocument (updateJob jobId f w).store id = findDocument w.store id := rfl

@[simp] theorem findDocument_insertPage (p : PageRec) (w : World) (id : Nat) :
    findDocument (insertPage p w).store id = findDocument w.store id := rfl

@[simp] theorem findDocument_savePage (p : PageRec) (w : World) (id : Nat) :
    findDocument (savePage p w).store id = findDocument w.store id := rfl

@[simp] theorem findDocument_failPage (d n : Nat) (msg : String) (w : World) (id : Nat) :
    findDocument (failPage d n msg w).store id = findDocument w.store id := rfl

@[simp] theorem findDocument_emit (env : Env) (ev : Event) (w : World) (id : Nat) :
    findDocument (emit env ev w).1.store id = findDocument w.store id := rfl

@[simp] theorem findJob_updateDocument (id : Nat) (f : DocumentRec → DocumentRec) (w : World)
    (jobId : String) : findJob (updateDocument id f w).store jobId = findJob w.store jobId := rfl

@[simp] theorem findJob_saveDocument (d : DocumentRec) (w : World) (jobId : String) :
    findJob (saveDocument d w).store jobId = findJob w.store jobId := rfl

@[simp] theorem findJob_insertPage (p : PageRec) (w : World) (jobId : String) :
    findJob (insertPage p w).store jobId = findJob w.store jobId := rfl

@[simp] theorem findJob_savePage (p : PageRec) (w : World) (jobId : String) :
    findJob (savePage p w).store jobId = findJob w.store jobId := rfl

@[simp] theorem findJob_failPage (d n : Nat) (msg : String) (w : World) (jobId : String) :
    findJob (failPage d n msg w).store jobId = findJob w.store jobId := rfl

@[simp] theorem findJob_emit (env : Env) (ev : Event) (w : World) (jobId : String) :
    findJob (emit env ev w).1.store jobId = findJob w.store jobId := rfl

theorem TraceInv.insertPage {documentId : Nat} {jobId : String} {k : Nat} {w : World}
    (h : TraceInv documentId jobId k w) (p : PageRec) :
    TraceInv documentId jobId k (Worker.insertPage p w) :=
  h.commit_same _ rfl rfl

theorem TraceInv.savePage {documentId : Nat} {jobId : String} {k : Nat} {w : World}
    (h : TraceInv documentId jobId k w) (p : PageRec) :
    TraceInv documentId jobId k (Worker.savePage p w) :=
  h.commit_same _ rfl rfl

theorem TraceInv.failPage {documentId : Nat} {jobId : String} {k : Nat} {w : World}
    (h : TraceInv documentId jobId k w) (d n : Nat) (msg : String) :
    TraceInv documentId jobId k (Worker.failPage d n msg w) :=
  h.commit_same _ rfl rfl

theorem TraceInv.updateJob {documentId : Nat} {jobId : String} {k : Nat} {w : World}
    (h : TraceInv documentId jobId k w) (f : JobRec → JobRec) (k2 : Nat) (hk : k ≤ k2)
    (hf : ∀ j, (f j).jobId = j.jobId)
    (hstep : ∀ j, findJob w.store jobId = some j →
      j.processedPages ≤ (f j).processedPages ∧ (f j).processedPages ≤ (f j).totalPages ∧
      (f j).processedPages ≤ k2) :
    TraceInv documentId jobId k2 (Worker.updateJob jobId f w) := by
  have hfind := findJob_updateJob jobId f w hf
  have hb := h.bounded w.store h.mem
  have hcur := h.curDoc
  have hd : docProcessed documentId (Worker.updateJob jobId f w).store =
      docProcessed documentId w.store := rfl
  have ht : docTotal documentId (Worker.updateJob jobId f w).store =
      docTotal documentId w.store := rfl
  show TraceInv documentId jobId k2 (Worker.commit w (Worker.updateJob jobId f w).store)
  refine h.commit _ k2 (le_of_eq hd.symm) ?_ (by rw [hd, ht]; exact hb.1) ?_
    (by rw [hd]; exact le_trans hcur hk) ?_
  all_goals
    unfold jobProcessed
    try unfold jobTotal
    rw [hfind]
    rcases hj : findJob w.store jobId with _ | j
    · simp
    · have := hstep j hj
      simp [this]

theorem TraceInv.updateDocument {documentId : Nat} {jobId : String} {k : Nat} {w : World}
    (h : TraceInv documentId jobId k w) (f : DocumentRec → DocumentRec) (k2 : Nat) (hk : k ≤ k2)
    (hf : ∀ d, d.id = documentId → (f d).id = documentId)
    (hstep : ∀ d, findDocument w.store documentId = some d →
      d.processedPages ≤ (f d).processedPages ∧ (f d).processedPages ≤ (f d).totalPages ∧
      (f d).processedPages ≤ k2) :
    TraceInv documentId jobId k2 (Worker.updateDocument documentId f w) := by
  have hfind := findDocument_updateDocument documentId f w hf
  have hb := h.bounded w.store h.mem
  have hcur := h.curJob
  have hj : jobProcessed jobId (Worker.updateDocument documentId f w).store =
      jobProcessed jobId w.store := rfl
  have ht : jobTotal jobId (Worker.updateDocument documentId f w).store =
      jobTotal jobId w.store := rfl
  show TraceInv documentId jobId k2
    (Worker.commit w (Worker.updateDocument documentId f w).store)
  refine h.commit _ k2 ?_ (le_of_eq hj.symm) ?_ (by rw [hj, ht]; exact hb.2) ?_
    (by rw [hj]; exact le_trans hcur hk)
  all_goals
    unfold docProcessed
    try unfold docTotal
    rw [hfind]
    rcases hd : findDocument w.store documentId with _ | d
    · simp
    · have := hstep d hd
      simp [this]

theorem TraceInv.saveDocument {documentId : Nat} {jobId : String} {k : Nat} {w : World}
    (h : TraceInv documentId jobId k w) (d : DocumentRec) (k2 : Nat) (hk : k ≤ k2)
    (hid : d.id = documentId)
    (hstep : ∀ d0, findDocument w.store documentId = some d0 →
      d0.processedPages ≤ d.processedPages ∧ d.processedPages ≤ d.totalPages ∧
      d.processedPages ≤ k2) :
    TraceInv documentId jobId k2 (Worker.saveDocument d w) := by
  have := h.updateDocument (fun _ => d) k2 hk (fun _ _ => hid) hstep
  unfold Worker.saveDocument
  rw [hid]
  exact this

theorem findDocument_saveDocument_of_found {d e : DocumentRec} {w : World} {id : Nat}
    (hid : d.id = id) (h : findDocument w.store id = some e) :
    findDocument (saveDocument d w).store id = some d := by
  have := findDocument_saveDocument d w
  rw [hid] at this
  rw [this, h]
  rfl

theorem docProcessed_of_found {id : Nat} {s : Store} {d : DocumentRec}
    (h : findDocument s id = some d) : docProcessed id s = d.processedPages := by
  simp [docProcessed, h]

theorem docTotal_of_found {id : Nat} {s : Store} {d : DocumentRec}
    (h : findDocument s id = some d) : docTotal id s = d.totalPages := by
  simp [docTotal, h]

theorem jobTotal_of_found {jobId : String} {s : Store} {j : JobRec}
    (h : findJob s jobId = some j) : jobTotal jobId s = j.totalPages := by
  simp [jobTotal, h]

theorem jobProcessed_of_found {jobId : String} {s : Store} {j : JobRec}
    (h : findJob s jobId = some j) : jobProcessed jobId s = j.processedPages := by
  simp [jobProcessed, h]

theorem LoopInv.processOnePage (env : Env) (data : JobData) (n i : Nat)
    (document : DocumentRec) (imagePath : String) (w : World)
    (h : LoopInv data n i document w) (hi : i < n) :
    LoopInv data n (i + 1) (Worker.processOnePage env data n document i imagePath w).2
      (Worker.processOnePage env data n document i imagePath w).1 := by
  have hcurD : document.processedPages ≤ i := by
    have := h.trace.curDoc
    rwa [docProcessed_of_found h.sync] at this
  unfold Worker.processOnePage
  simp only []
  split
  · -- recognition raised: the page is marked failed
    exact ⟨((h.trace.insertPage _).failPage _ _ _).mono (Nat.le_succ i),
      by simpa using h.sync, h.docId, h.docTotal, by simpa using h.jobTotal⟩
  · -- recognition returned
    have t2 := (h.trace.insertPage
      { id := freshPageId w.store.pages, documentId := document.id, pageNumber := i + 1,
        status := Status.processing, imagePath := some imagePath }).savePage
      { id := freshPageId w.store.pages, documentId := document.id, pageNumber := i + 1,
        status := Status.completed, imagePath := some imagePath,
        text := (‹OcrResult›).text, confidence := (‹OcrResult›).confidence,
        textBlocks := (‹OcrResult›).textBlocks, processedAt := some env.now }
    have t3 := t2.updateJob
      (fun j => { j with processedPages := i + 1, progress := progressOf (i + 1) n })
      (i + 1) (Nat.le_succ i) (fun _ => rfl) (by
        intro j hj
        have hj' : findJob w.store data.jobId = some j := by simpa using hj
        have h1 := h.trace.curJob
        rw [jobProcessed_of_found hj'] at h1
        have h2 := h.jobTotal j hj'
        simp only
        omega)
    have t4 := t3.saveDocument { document with processedPages := i + 1 } (i + 1) le_rfl
      h.docId (by
        intro d0 hd0
        have hd0' : findDocument w.store data.documentId = some d0 := by simpa using hd0
        rw [h.sync] at hd0'
        have := h.docTotal
        cases hd0'
        simp only
        omega)
    have hsync : findDocument (saveDocument { document with processedPages := i + 1 }
        (updateJob data.jobId
          (fun j => { j with processedPages := i + 1, progress := progressOf (i + 1) n })
          (savePage
            { id := freshPageId w.store.pages, documentId := document.id, pageNumber := i + 1,
              status := Status.completed, imagePath := some imagePath,
              text := (‹OcrResult›).text, confidence := (‹OcrResult›).confidence,
              textBlocks := (‹OcrResult›).textBlocks, processedAt := some env.now }
            (insertPage
              { id := freshPageId w.store.pages, documentId := document.id, pageNumber := i + 1,
                status := Status.processing, imagePath := some imagePath } w)))).store
        data.documentId = some { document with processedPages := i + 1 } :=
      findDocument_saveDocument_of_found (e := document) h.docId (by simpa using h.sync)
    have hjt : ∀ j, findJob (updateJob data.jobId
          (fun j => { j with processedPages := i + 1, progress := progressOf (i + 1) n })
          (savePage
            { id := freshPageId w.store.pages, documentId := document.id, pageNumber := i + 1,
              status := Status.completed, imagePath := some imagePath,
              text := (‹OcrResult›).text, confidence := (‹OcrResult›).confidence,
              textBlocks := (‹OcrResult›).textBlocks, processedAt := some env.now }
            (insertPage
              { id := freshPageId w.store.pages, documentId := document.id, pageNumber := i + 1,
                status := Status.processing, imagePath := some imagePath } w))).store
        data.jobId = some j → j.totalPages = n := by
      intro j hj
      rw [findJob_updateJob data.jobId
        (fun j => { j with processedPages := i + 1, progress := progressOf (i + 1) n }) _
        (fun _ => rfl)] at hj
      simp only [findJob_savePage, findJob_insertPage, Option.map_eq_some'] at hj
      obtain ⟨j0, hj0, rfl⟩ := hj
      exact h.jobTotal j0 hj0
    split
    · exact ⟨(t4.emit env _).failPage _ _ _, by simpa using hsync, h.docId, h.docTotal,
        by simpa using hjt⟩
    · exact ⟨t4.emit env _, by simpa using hsync, h.docId, h.docTotal, by simpa using hjt⟩

theorem LoopInv.pageLoop (env : Env) (data : JobData) (n : Nat) :
    ∀ (paths : List String) (i : Nat) (document : DocumentRec) (w : World),
      LoopInv data n i document w → i + paths.length ≤ n →
      LoopInv data n (i + paths.length) (Worker.pageLoop env data n paths i document w).2
        (Worker.pageLoop env data n paths i document w).1 := by
  intro paths
  induction paths with
  | nil => intro i document w h _; simpa [Worker.pageLoop] using h
  | cons path rest ih =>
    intro i document w h hlen
    simp only [List.length_cons] at hlen
    have hstep := h.processOnePage env data n i document path w (by omega)
    have := ih (i + 1) _ _ hstep (by omega)
    simp only [Worker.pageLoop, List.length_cons]
    rw [show i + (rest.length + 1) = i + 1 + rest.length by omega]
    exact this

/-- An update of the Job that keeps `processedPages` and `totalPages`. -/
theorem TraceInv.updateJob_frame {documentId : Nat} {jobId : String} {k : Nat} {w : World}
    (h : TraceInv documentId jobId k w) (f : JobRec → JobRec)
    (hf : ∀ j, (f j).jobId = j.jobId)
    (hp : ∀ j, (f j).processedPages = j.processedPages)
    (ht : ∀ j, (f j).totalPages = j.totalPages) :
    TraceInv documentId jobId k (Worker.updateJob jobId f w) := by
  refine h.updateJob f k le_rfl hf ?_
  intro j hj
  have hb := (h.bounded w.store h.mem).2
  have hc := h.curJob
  rw [jobProcessed_of_found hj] at hb hc
  have hjt : jobTotal jobId w.store = j.totalPages := by simp [jobTotal, hj]
  rw [hjt] at hb
  rw [hp j, ht j]
  exact ⟨le_rfl, hb, hc⟩

/-- An update of the Document that keeps `processedPages` and `totalPages`. -/
theorem TraceInv.updateDocument_frame {documentId : Nat} {jobId : String} {k : Nat} {w : World}
    (h : TraceInv documentId jobId k w) (f : DocumentRec → DocumentRec)
    (hf : ∀ d, d.id = documentId → (f d).id = documentId)
    (hp : ∀ d, (f d).processedPages = d.processedPages)
    (ht : ∀ d, (f d).totalPages = d.totalPages) :
    TraceInv documentId jobId k (Worker.updateDocument documentId f w) := by
  refine h.updateDocument f k le_rfl hf ?_
  intro d hd
  have hb := (h.bounded w.store h.mem).1
  have hc := h.curDoc
  rw [docProcessed_of_found hd] at hb hc
  have hdt : docTotal documentId w.store = d.totalPages := by simp [docTotal, hd]
  rw [hdt] at hb
  rw [hp d, ht d]
  exact ⟨le_rfl, hb, hc⟩

theorem TraceInv.failRun {documentId : Nat} {jobId : String} {k : Nat} {w : World}
    (h : TraceInv documentId jobId k w) (env : Env) (data : JobData) (msg : String)
    (hd : data.documentId = documentId) (hj : data.jobId = jobId) :
    TraceInv documentId jobId k (Worker.failRun env data msg w).1 := by
  subst hd hj
  have t1 := h.updateDocument_frame
    (fun d => { d with status := Status.failed, error := some msg })
    (fun _ hd => hd) (fun _ => rfl) (fun _ => rfl)
  have t2 := t1.updateJob_frame
    (fun j => { j with status := JobStatus.failed, error := some msg })
    (fun _ => rfl) (fun _ => rfl) (fun _ => rfl)
  have t3 := t2.emit env (Event.jobFailed data.jobId msg)
  unfold Worker.failRun
  simp only []
  split <;> exact t3

theorem findDocument_id {s : Store} {id : Nat} {d : DocumentRec}
    (h : findDocument s id = some d) : d.id = id := by
  have := List.find?_some h
  simpa using this

theorem traceInv_jobHandler (env : Env) (data : JobData) (s0 : Store)
    (hdoc : ∀ d, findDocument s0 data.documentId = some d → d.processedPages = 0)
    (hjob : ∀ j, findJob s0 data.jobId = some j → j.processedPages = 0) :
    ∃ k, TraceInv data.documentId data.jobId k (jobHandler env data (World.init s0)).1 := by
  have hd0 : docProcessed data.documentId s0 = 0 := by
    unfold docProcessed
    rcases hf : findDocument s0 data.documentId with _ | d
    · rfl
    · exact hdoc d hf
  have hj0 : jobProcessed data.jobId s0 = 0 := by
    unfold jobProcessed
    rcases hf : findJob s0 data.jobId with _ | j
    · rfl
    · exact hjob j hf
  have t0 := TraceInv.init data.documentId data.jobId s0 hd0 hj0
  have t1 := t0.updateJob_frame (fun j => { j with status := JobStatus.active })
    (fun _ => rfl) (fun _ => rfl) (fun _ => rfl)
  unfold jobHandler
  simp only []
  split
  · exact ⟨0, t1.failRun env data _ rfl rfl⟩
  · rename_i found hfound
    have hfound0 : findDocument s0 data.documentId = some found := by simpa using hfound
    have hid : found.id = data.documentId := findDocument_id hfound0
    have hpp : found.processedPages = 0 := hdoc found hfound0
    have t2 := t1.saveDocument { found with status := Status.processing } 0 le_rfl hid (by
      intro d0 hd0'
      have : findDocument s0 data.documentId = some d0 := by simpa using hd0'
      rw [hfound0] at this
      cases this
      simp only [hpp]
      omega)
    split
    · exact ⟨0, t2.failRun env data _ rfl rfl⟩
    · rename_i imagePaths _
      have hs2 : findDocument (saveDocument { found with status := Status.processing }
          (updateJob data.jobId (fun j => { j with status := JobStatus.active })
            (World.init s0))).store data.documentId =
          some { found with status := Status.processing } :=
        findDocument_saveDocument_of_found (e := found) hid (by simpa using hfound)
      have t3 := t2.saveDocument
        { found with status := Status.processing, totalPages := imagePaths.length } 0 le_rfl hid
        (by
          intro d0 hd0'
          rw [hs2] at hd0'
          cases hd0'
          simp only [hpp]
          omega)
      have hs3 := findDocument_saveDocument_of_found
        (d := { found with status := Status.processing, totalPages := imagePaths.length })
        (w := saveDocument { found with status := Status.processing }
          (updateJob data.jobId (fun j => { j with status := JobStatus.active })
            (World.init s0))) hid hs2
      have t4 := t3.updateJob (fun j => { j with totalPages := imagePaths.length }) 0 le_rfl
        (fun _ => rfl) (by
          intro j hj
          have hc := t3.curJob
          rw [jobProcessed_of_found hj] at hc
          simp only
          omega)
      have hloop0 : LoopInv data imagePaths.length 0
          { found with status := Status.processing, totalPages := imagePaths.length }
          (updateJob data.jobId (fun j => { j with totalPages := imagePaths.length })
            (saveDocument
              { found with status := Status.processing, totalPages := imagePaths.length }
              (saveDocument { found with status := Status.processing }
                (updateJob data.jobId (fun j => { j with status := JobStatus.active })
                  (World.init s0))))) := by
        refine ⟨t4, by simpa using hs3, hid, rfl, ?_⟩
        intro j hj
        rw [findJob_updateJob data.jobId (fun j => { j with totalPages := imagePaths.length }) _
          (fun _ => rfl)] at hj
        simp only [Option.map_eq_some'] at hj
        obtain ⟨j0, _, rfl⟩ := hj
        rfl
      have hloop := hloop0.pageLoop env data imagePaths.length imagePaths 0 _ _ (by omega)
      have t6 := hloop.trace.saveDocument
        { (pageLoop env data imagePaths.length imagePaths 0
            { found with status := Status.processing, totalPages := imagePaths.length }
            (updateJob data.jobId (fun j => { j with totalPages := imagePaths.length })
              (saveDocument
                { found with status := Status.processing, totalPages := imagePaths.length }
                (saveDocument { found with status := Status.processing }
                  (updateJob data.jobId (fun j => { j with status := JobStatus.active })
                    (World.init s0)))))).2 with
          status := Status.completed, processedAt := some env.now }
        (0 + imagePaths.length) le_rfl hloop.docId (by
          intro d0 hd0'
          rw [hloop.sync] at hd0'
          cases hd0'
          have hb := (hloop.trace.bounded _ hloop.trace.mem).1
          have hc := hloop.trace.curDoc
          rw [docProcessed_of_found hloop.sync] at hb hc
          rw [docTotal_of_found hloop.sync] at hb
          exact ⟨le_rfl, hb, hc⟩)
      have t7 := t6.updateJob_frame
        (fun j => { j with status := JobStatus.completed, completedAt := some env.now })
        (fun _ => rfl) (fun _ => rfl) (fun _ => rfl)
      have t8 := t7.emit env (Event.jobCompleted data.jobId)
      split
      · exact ⟨_, t8.failRun env data _ rfl rfl⟩
      · exact ⟨_, t8⟩

/-- C5 fails on the code: `Math.round((processedPages / totalPages) * 100)` is
computed in binary64 arithmetic, and for page 23 of 40 the quotient 0.575 and
its product with 100 round to 57.49999999999999, so the handler stores and
emits progress 57, while 100 × 23 / 40 = 57.5 rounds to 58. -/
theorem progress_not_exact_rounding :
    progressOf 23 40 = 57 ∧ exactProgress 23 40 = 58 ∧
    Event.jobProgress "job-1" 57 23 40 23 ∈
      (run (sampleEnv (List.replicate 40 "page.png") []) request pdfStore).events ∧
    (∃ s ∈ (run (sampleEnv (List.replicate 40 "page.png") []) request pdfStore).history,
      (findJob s "job-1").map (fun j => (j.processedPages, j.totalPages, j.progress)) =
        some (23, 40, 57)) := by
  decide

/-- C6 fails on the code: a page whose recognition raises is marked failed in
the `catch` block, which does not write `processedPages`.  A single-page
document whose page fails ends completed with `processedPages = 0` and
`totalPages = 1`, on the Document and on the Job; with two pages of which the
second fails it ends with 1 of 2, although a failed first page followed by a
successful second one is counted (2 of 2). -/
theorem failed_last_page_not_counted :
    (findDocument (run (sampleEnv [] [1]) request imageStore).store 1).map
      (fun d => (d.status, d.processedPages, d.totalPages)) = some (Status.completed, 0, 1) ∧
    (findJob (run (sampleEnv [] [1]) request imageStore).store "job-1").map
      (fun j => (j.status, j.processedPages, j.totalPages)) = some (JobStatus.completed, 0, 1) ∧
    (findDocument (run (sampleEnv ["p-1.png", "p-2.png"] [2]) request pdfStore).store 1).map
      (fun d => (d.status, d.processedPages, d.totalPages)) = some (Status.completed, 1, 2) ∧
    (findDocument (run (sampleEnv ["p-1.png", "p-2.png"] [1]) request pdfStore).store 1).map
      (fun d => (d.status, d.processedPages, d.totalPages)) = some (Status.completed, 2, 2) := by
  decide

/-- C7: in a run of the job handler that starts, as after an upload or a
reprocess request, with `processedPages = 0` on the Document and the Job, every
state of the store satisfies Document.processedPages ≤ Document.totalPages and
Job.processedPages ≤ Job.totalPages, and the successive values of
`processedPages`, on the Document and on the Job, never decrease. -/
theorem processedPages_bounded_and_monotone (env : Env) (data : JobData) (s0 : Store)
    (hdoc : ∀ d, findDocument s0 data.documentId = some d → d.processedPages = 0)
    (hjob : ∀ j, findJob s0 data.jobId = some j → j.processedPages = 0) :
    (∀ s ∈ (run env data s0).history,
      (∀ d, findDocument s data.documentId = some d → d.processedPages ≤ d.totalPages) ∧
      (∀ j, findJob s data.jobId = some j → j.processedPages ≤ j.totalPages)) ∧
    ((run env data s0).history.map (docProcessed data.documentId)).Pairwise (· ≤ ·) ∧
    ((run env data s0).history.map (jobProcessed data.jobId)).Pairwise (· ≤ ·) := by
  obtain ⟨k, h⟩ := traceInv_jobHandler env data s0 hdoc hjob
  refine ⟨?_, h.sortedDoc, h.sortedJob⟩
  intro s hs
  have hb := h.bounded s hs
  constructor
  · intro d hd
    have := hb.1
    rwa [docProcessed_of_found hd, docTotal_of_found hd] at this
  · intro j hj
    have := hb.2
    rwa [jobProcessed_of_found hj, jobTotal_of_found hj] at this

/-- C7 on a three-page PDF whose second page fails: the values of
`processedPages` on the Document go 0, 1, 3. -/
theorem processedPages_bounded_and_monotone_witness :
    (∀ d, findDocument pdfStore request.documentId = some d → d.processedPages = 0) ∧
    (∀ j, findJob pdfStore request.jobId = some j → j.processedPages = 0) ∧
    ((run (sampleEnv ["p-1.png", "p-2.png", "p-3.png"] [2]) request pdfStore).history.map
      (docProcessed request.documentId)).Pairwise (· ≤ ·) ∧
    ((run (sampleEnv ["p-1.png", "p-2.png", "p-3.png"] [2]) request pdfStore).history.map
      (docProcessed request.documentId)).dedup = [0, 1, 3] :=
  have hd : ∀ d, findDocument pdfStore request.documentId = some d → d.processedPages = 0 := by
    intro d h
    have h2 : findDocument pdfStore request.documentId = some pdfDocument := by decide
    rw [h2] at h
    cases h
    rfl
  have hj : ∀ j, findJob pdfStore request.jobId = some j → j.processedPages = 0 := by
    intro j h
    have h2 : findJob pdfStore request.jobId = some waitingJob := by decide
    rw [h2] at h
    cases h
    rfl
  ⟨hd, hj,
    (processedPages_bounded_and_monotone (sampleEnv ["p-1.png", "p-2.png", "p-3.png"] [2])
      request pdfStore hd hj).2.1, by decide⟩

theorem findScale_self (t : Nat) (ht : 0 < t) :
    ∀ (fuel s : Nat), s ≤ 52 → 52 - s ≤ fuel → findScale t t fuel s = 52 := by
  intro fuel
  induction fuel with
  | zero => intro s h1 h2; unfold findScale; omega
  | succ fuel ih =>
    intro s h1 h2
    unfold findScale
    by_cases hs : s = 52
    · subst hs
      rw [if_pos (by rw [Nat.mul_comm])]
    · have hlt : s < 52 := by omega
      have hpow : 2 ^ s < 2 ^ 52 := Nat.pow_lt_pow_right (by norm_num) hlt
      have hneg : ¬ 2 ^ 52 * t ≤ t * 2 ^ s := by
        rw [Nat.mul_comm t]
        intro hle
        have := Nat.le_of_mul_le_mul_right hle ht
        omega
      rw [if_neg hneg]
      exact ih (s + 1) (by omega) (by omega)

theorem fdiv_self (t : Nat) (ht : 0 < t) : fdiv t t = { mant := 2 ^ 52, scale := 52 } := by
  unfold fdiv toDouble
  simp only [findScale_self t ht 1074 0 (by omega) (by omega)]
  have hq : t * 2 ^ 52 / t = 2 ^ 52 := Nat.mul_div_cancel_left _ ht
  have hr : t * 2 ^ 52 % t = 0 := Nat.mul_mod_right _ _
  unfold roundHalfEven
  simp only [hq, hr]
  rw [if_pos (by omega)]

/-- When the last page is done the progress is exactly 100. -/
theorem progressOf_self (t : Nat) (ht : 0 < t) : progressOf t t = 100 := by
  unfold progressOf
  rw [fdiv_self t ht]
  decide

/-- One iteration whose recognition returns: `processedPages` and `progress`
are written on the Job, `processedPages` on the Document. -/
theorem processOnePage_ok (env : Env) (data : JobData) (n i : Nat) (document : DocumentRec)
    (imagePath : String) (w : World) (j : JobRec) (r : OcrResult)
    (hsync : findDocument w.store data.documentId = some document)
    (hid : document.id = data.documentId)
    (hjob : findJob w.store data.jobId = some j)
    (hok : env.processPage imagePath (i + 1) (pageOptions data) = Except.ok r) :
    (processOnePage env data n document i imagePath w).2 =
      { document with processedPages := i + 1 } ∧
    findDocument (processOnePage env data n document i imagePath w).1.store data.documentId =
      some { document with processedPages := i + 1 } ∧
    findJob (processOnePage env data n document i imagePath w).1.store data.jobId =
      some { j with processedPages := i + 1, progress := progressOf (i + 1) n } := by
  have hdoc : ∀ w2 : World, findDocument w2.store data.documentId = some document →
      findDocument (saveDocument { document with processedPages := i + 1 } w2).store
        data.documentId = some { document with processedPages := i + 1 } :=
    fun w2 h2 => findDocument_saveDocument_of_found (e := document) hid h2
  have hj : ∀ w2 : World, findJob w2.store data.jobId = some j →
      findJob (updateJob data.jobId
        (fun j => { j with processedPages := i + 1, progress := progressOf (i + 1) n })
        w2).store data.jobId =
        some { j with processedPages := i + 1, progress := progressOf (i + 1) n } := by
    intro w2 h2
    rw [findJob_updateJob data.jobId
      (fun j => { j with processedPages := i + 1, progress := progressOf (i + 1) n }) _
      (fun _ => rfl), h2]
    rfl
  unfold processOnePage
  simp only [hok]
  split
  · refine ⟨rfl, ?_, ?_⟩
    · simp only [findDocument_failPage, findDocument_emit]
      exact hdoc _ (by simpa using hsync)
    · simp only [findJob_failPage, findJob_emit, findJob_saveDocument]
      exact hj _ (by simpa using hjob)
  · refine ⟨rfl, ?_, ?_⟩
    · simp only [findDocument_emit]
      exact hdoc _ (by simpa using hsync)
    · simp only [findJob_emit, findJob_saveDocument]
      exact hj _ (by simpa using hjob)

/-- The page loop when recognition returns for every page: after the last page
the Job carries `processedPages` equal to the index reached and the progress
computed from it. -/
theorem pageLoop_all_ok (env : Env) (data : JobData) (n : Nat) :
    ∀ (rest : List String) (path : String) (i : Nat) (document : DocumentRec) (w : World)
      (j : JobRec),
      findDocument w.store data.documentId = some document →
      document.id = data.documentId →
      findJob w.store data.jobId = some j →
      (∀ k p, (path :: rest)[k]? = some p →
        ∃ r, env.processPage p (i + k + 1) (pageOptions data) = Except.ok r) →
      (pageLoop env data n (path :: rest) i document w).2 =
        { document with processedPages := i + (path :: rest).length } ∧
      findDocument (pageLoop env data n (path :: rest) i document w).1.store data.documentId =
        some { document with processedPages := i + (path :: rest).length } ∧
      findJob (pageLoop env data n (path :: rest) i document w).1.store data.jobId =
        some { j with processedPages := i + (path :: rest).length,
                      progress := progressOf (i + (path :: rest).length) n } := by
  intro rest
  induction rest with
  | nil =>
    intro path i document w j hsync hid hjob hok
    obtain ⟨r, hr⟩ := hok 0 path rfl
    have := processOnePage_ok env data n i document path w j r hsync hid hjob hr
    simpa [pageLoop] using this
  | cons next rest ih =>
    intro path i document w j hsync hid hjob hok
    obtain ⟨r, hr⟩ := hok 0 path rfl
    obtain ⟨h1, h2, h3⟩ := processOnePage_ok env data n i document path w j r hsync hid hjob hr
    have hok2 : ∀ k p, (next :: rest)[k]? = some p →
        ∃ r, env.processPage p (i + 1 + k + 1) (pageOptions data) = Except.ok r := by
      intro k p hk
      have := hok (k + 1) p (by simpa using hk)
      rwa [show i + (k + 1) + 1 = i + 1 + k + 1 by omega] at this
    have := ih next (i + 1) _ _ _ (h1 ▸ h2) (by rw [h1]; exact hid) h3 hok2
    rw [h1] at this
    have hlen : i + 1 + (next :: rest).length = i + (path :: next :: rest).length := by
      simp only [List.length_cons]; omega
    rw [hlen] at this
    unfold pageLoop
    simp only []
    rw [h1]
    exact this

/-- C8, as stated, fails: when the rasterizer returns no image the loop does not
run, and the run ends with Document and Job completed but `Job.progress` still
0; and when the broadcaster raises on `job-completed`, a run whose only page
succeeded ends with Document and Job failed. -/
theorem zero_pages_progress_not_100 :
    ((findJob (run (sampleEnv [] []) request pdfStore).store "job-1").map
      (fun j => (j.status, j.progress, j.totalPages)) = some (JobStatus.completed, 0, 0) ∧
    (findDocument (run (sampleEnv [] []) request pdfStore).store 1).map
      (fun d => (d.status, d.totalPages)) = some (Status.completed, 0)) ∧
    ((findJob (run brokenBroadcastEnv request pdfStore).store "job-1").map
      (fun j => (j.status, j.progress)) = some (JobStatus.failed, 100) ∧
    (findDocument (run brokenBroadcastEnv request pdfStore).store 1).map
      (fun d => d.status) = some Status.failed) := by
  decide

/-- C8, amended: if the rasterizer returns at least one page image, recognition
returns for every page and the broadcaster does not raise on the
`job-completed` event, then the handler returns without raising and on
termination Job.progress = 100, Document.status = completed and
Job.status = completed, with `processedPages = totalPages` equal to the number
of images on both records. -/
theorem all_pages_succeed_completed (env : Env) (data : JobData) (s0 : Store)
    (found : DocumentRec) (j0 : JobRec) (imagePaths : List String)
    (hdoc : findDocument s0 data.documentId = some found)
    (hjob : findJob s0 data.jobId = some j0)
    (hras : rasterize env data found = Except.ok imagePaths)
    (hne : imagePaths ≠ [])
    (hok : ∀ k p, imagePaths[k]? = some p →
      ∃ r, env.processPage p (k + 1) (pageOptions data) = Except.ok r)
    (hemit : env.emit (Event.jobCompleted data.jobId) = none) :
    (jobHandler env data (World.init s0)).2 = none ∧
    ∃ d j, findDocument (run env data s0).store data.documentId = some d ∧
      findJob (run env data s0).store data.jobId = some j ∧
      d.status = Status.completed ∧ j.status = JobStatus.completed ∧ j.progress = 100 ∧
      d.processedPages = imagePaths.length ∧ d.totalPages = imagePaths.length ∧
      j.processedPages = imagePaths.length ∧ j.totalPages = imagePaths.length := by
  obtain ⟨path, rest, rfl⟩ := List.exists_cons_of_ne_nil hne
  have hid : found.id = data.documentId := findDocument_id hdoc
  have hras2 : rasterize env data { found with status := Status.processing } =
      Except.ok (path :: rest) := hras
  -- the Job is set active
  have d1 : findDocument (updateJob data.jobId (fun j => { j with status := JobStatus.active })
      (World.init s0)).store data.documentId = some found := hdoc
  have j1 : findJob (updateJob data.jobId (fun j => { j with status := JobStatus.active })
      (World.init s0)).store data.jobId = some { j0 with status := JobStatus.active } := by
    rw [findJob_updateJob data.jobId (fun j => { j with status := JobStatus.active }) _
      (fun _ => rfl)]
    simp [World.init, hjob]
  unfold run jobHandler
  simp only []
  generalize updateJob data.jobId (fun j => { j with status := JobStatus.active })
    (World.init s0) = w1 at d1 j1 ⊢
  rw [d1]
  simp only [hras2]
  -- the Document is set processing, then totalPages is written on both records
  have d2 := findDocument_saveDocument_of_found
    (d := { found with status := Status.processing }) (w := w1) hid d1
  have j2 : findJob (saveDocument { found with status := Status.processing } w1).store
      data.jobId = some { j0 with status := JobStatus.active } := j1
  generalize saveDocument { found with status := Status.processing } w1 = w2 at d2 j2 ⊢
  have d3 := findDocument_saveDocument_of_found
    (d := { found with status := Status.processing, totalPages := (path :: rest).length })
    (w := w2) hid d2
  have j3 : findJob (saveDocument
      { found with status := Status.processing, totalPages := (path :: rest).length } w2).store
      data.jobId = some { j0 with status := JobStatus.active } := j2
  generalize saveDocument
    { found with status := Status.processing, totalPages := (path :: rest).length } w2 = w3
    at d3 j3 ⊢
  have d4 : findDocument (updateJob data.jobId
      (fun j => { j with totalPages := (path :: rest).length }) w3).store data.documentId =
      some { found with status := Status.processing, totalPages := (path :: rest).length } := d3
  have j4 : findJob (updateJob data.jobId
      (fun j => { j with totalPages := (path :: rest).length }) w3).store data.jobId =
      some { j0 with status := JobStatus.active, totalPages := (path :: rest).length } := by
    rw [findJob_updateJob data.jobId (fun j => { j with totalPages := (path :: rest).length }) _
      (fun _ => rfl), j3]
    rfl
  generalize updateJob data.jobId (fun j => { j with totalPages := (path :: rest).length }) w3
    = w4 at d4 j4 ⊢
  -- the page loop
  obtain ⟨l1, l2, l3⟩ := pageLoop_all_ok env data (path :: rest).length rest path 0 _ w4 _
    d4 hid j4 (by
      intro k p hk
      have := hok k p hk
      rwa [show 0 + k + 1 = k + 1 by omega])
  rw [l1]
  simp only []
  generalize (pageLoop env data (path :: rest).length (path :: rest) 0
    { found with status := Status.processing, totalPages := (path :: rest).length } w4).1 = w5
    at l2 l3 ⊢
  -- the Document and the Job are set completed
  have d6 := findDocument_saveDocument_of_found
    (d := { found with
      status := Status.completed, totalPages := (path :: rest).length,
      processedPages := 0 + (path :: rest).length, processedAt := some env.now })
    (w := w5) hid l2
  have j6 : findJob (saveDocument { found with
      status := Status.completed, totalPages := (path :: rest).length,
      processedPages := 0 + (path :: rest).length, processedAt := some env.now } w5).store
      data.jobId = some { j0 with
        status := JobStatus.active, totalPages := (path :: rest).length,
        processedPages := 0 + (path :: rest).length,
        progress := progressOf (0 + (path :: rest).length) (path :: rest).length } := l3
  generalize saveDocument { found with
      status := Status.completed, totalPages := (path :: rest).length,
      processedPages := 0 + (path :: rest).length, processedAt := some env.now } w5 = w6
    at d6 j6 ⊢
  have d7 : findDocument (updateJob data.jobId
      (fun j => { j with status := JobStatus.completed, completedAt := some env.now })
      w6).store data.documentId = some { found with
        status := Status.completed, totalPages := (path :: rest).length,
        processedPages := 0 + (path :: rest).length, processedAt := some env.now } := d6
  have j7 : findJob (updateJob data.jobId
      (fun j => { j with status := JobStatus.completed, completedAt := some env.now })
      w6).store data.jobId = some { j0 with
        status := JobStatus.completed, totalPages := (path :: rest).length,
        processedPages := 0 + (path :: rest).length,
        progress := progressOf (0 + (path :: rest).length) (path :: rest).length,
        completedAt := some env.now } := by
    rw [findJob_updateJob data.jobId
      (fun j => { j with status := JobStatus.completed, completedAt := some env.now }) _
      (fun _ => rfl), j6]
    rfl
  generalize updateJob data.jobId
      (fun j => { j with status := JobStatus.completed, completedAt := some env.now }) w6 = w7
    at d7 j7 ⊢
  have he : (emit env (Event.jobCompleted data.jobId) w7).2 = none := hemit
  simp only [he]
  refine ⟨trivial, _, _, d7, j7, rfl, rfl, ?_, ?_, rfl, ?_, rfl⟩
  · show progressOf (0 + (path :: rest).length) (path :: rest).length = 100
    rw [Nat.zero_add]
    exact progressOf_self _ (by simp)
  · show 0 + (path :: rest).length = (path :: rest).length
    omega
  · show 0 + (path :: rest).length = (path :: rest).length
    omega

/-- C8, amended, on a two-page PDF. -/
theorem all_pages_succeed_completed_witness :
    findDocument pdfStore request.documentId = some pdfDocument ∧
    findJob pdfStore request.jobId = some waitingJob ∧
    rasterize (sampleEnv ["p-1.png", "p-2.png"] []) request pdfDocument =
      Except.ok ["p-1.png", "p-2.png"] ∧
    (jobHandler (sampleEnv ["p-1.png", "p-2.png"] []) request (World.init pdfStore)).2 = none ∧
    ∃ d j, findDocument (run (sampleEnv ["p-1.png", "p-2.png"] []) request pdfStore).store
        request.documentId = some d ∧
      findJob (run (sampleEnv ["p-1.png", "p-2.png"] []) request pdfStore).store
        request.jobId = some j ∧
      d.status = Status.completed ∧ j.status = JobStatus.completed ∧ j.progress = 100 ∧
      d.processedPages = ["p-1.png", "p-2.png"].length ∧
      d.totalPages = ["p-1.png", "p-2.png"].length ∧
      j.processedPages = ["p-1.png", "p-2.png"].length ∧
      j.totalPages = ["p-1.png", "p-2.png"].length :=
  ⟨by decide, by decide, rfl,
    all_pages_succeed_completed (sampleEnv ["p-1.png", "p-2.png"] []) request pdfStore
      pdfDocument waitingJob ["p-1.png", "p-2.png"] (by decide) (by decide) rfl (by decide)
      (fun _ _ _ => ⟨_, rfl⟩) rfl⟩

theorem le_foldr_max (l : List Nat) : ∀ x ∈ l, x ≤ l.foldr max 0 := by
  induction l with
  | nil => intro x hx; simp at hx
  | cons a l ih =>
    intro x hx
    simp only [List.foldr_cons]
    rcases List.mem_cons.mp hx with rfl | hx
    · exact le_max_left _ _
    · exact le_trans (ih x hx) (le_max_right _ _)

theorem freshPageId_not_mem (pages : List PageRec) : ∀ p ∈ pages, p.id ≠ freshPageId pages := by
  intro p hp
  have := le_foldr_max (pages.map (fun p => p.id)) p.id (List.mem_map.mpr ⟨p, hp, rfl⟩)
  unfold freshPageId
  omega

theorem updateFirst_append_singleton {α : Type} (p : α → Bool) (f : α → α) (l : List α) (a : α)
    (hl : ∀ x ∈ l, p x = false) (ha : p a = true) :
    updateFirst p f (l ++ [a]) = l ++ [f a] := by
  rw [updateFirst_append_of_forall_not p f l [a] hl]
  simp [updateFirst, ha]

@[simp] theorem pages_updateJob (jobId : String) (f : JobRec → JobRec) (w : World) :
    (updateJob jobId f w).store.pages = w.store.pages := rfl

@[simp] theorem pages_updateDocument (id : Nat) (f : DocumentRec → DocumentRec) (w : World) :
    (updateDocument id f w).store.pages = w.store.pages := rfl

@[simp] theorem pages_saveDocument (d : DocumentRec) (w : World) :
    (saveDocument d w).store.pages = w.store.pages := rfl

@[simp] theorem pages_emit (env : Env) (ev : Event) (w : World) :
    (emit env ev w).1.store.pages = w.store.pages := rfl

@[simp] theorem pages_insertPage (p : PageRec) (w : World) :
    (insertPage p w).store.pages = w.store.pages ++ [p] := rfl

theorem pages_failRun (env : Env) (data : JobData) (msg : String) (w : World) :
    (failRun env data msg w).1.store.pages = w.store.pages := by
  unfold failRun
  simp only []
  split <;> rfl

theorem processOnePage_id (env : Env) (data : JobData) (n i : Nat) (document : DocumentRec)
    (imagePath : String) (w : World) :
    (processOnePage env data n document i imagePath w).2.id = document.id := by
  unfold processOnePage
  simp only []
  split
  · rfl
  · split <;> rfl

/-- One iteration adds exactly one Page, numbered `i + 1`, and leaves it
completed or failed; the other pages are as before. -/
theorem processOnePage_pages (env : Env) (data : JobData) (n i : Nat) (document : DocumentRec)
    (imagePath : String) (w : World) (pages0 created : List PageRec)
    (hpages : w.store.pages = pages0 ++ created)
    (h0 : ∀ p ∈ pages0, p.documentId ≠ document.id)
    (hnum : created.map (fun p => p.pageNumber) = List.range' 1 i) :
    ∃ page, (processOnePage env data n document i imagePath w).1.store.pages =
        pages0 ++ (created ++ [page]) ∧
      page.pageNumber = i + 1 ∧ page.documentId = document.id ∧
      (page.status = Status.completed ∨ page.status = Status.failed) := by
  have hkey : ∀ x ∈ pages0 ++ created,
      (decide (x.documentId = document.id) && decide (x.pageNumber = i + 1)) = false := by
    intro x hx
    rcases List.mem_append.mp hx with hx | hx
    · simp [h0 x hx]
    · have hm : x.pageNumber ∈ List.range' 1 i := by
        rw [← hnum]; exact List.mem_map.mpr ⟨x, hx, rfl⟩
      have := List.mem_range'_1.mp hm
      have hne : x.pageNumber ≠ i + 1 := by omega
      simp [hne]
  have hfresh : ∀ x ∈ pages0 ++ created,
      decide (x.id = freshPageId w.store.pages) = false := by
    intro x hx
    have := freshPageId_not_mem w.store.pages x (by rw [hpages]; exact hx)
    simp [this]
  have hfail : ∀ (pg : PageRec) (msg : String) (w2 : World),
      w2.store.pages = (pages0 ++ created) ++ [pg] → pg.documentId = document.id →
      pg.pageNumber = i + 1 →
      (failPage document.id (i + 1) msg w2).store.pages =
        pages0 ++ (created ++ [{ pg with status := Status.failed, error := some msg }]) := by
    intro pg msg w2 hw2 hd hn
    show updateFirst _ _ w2.store.pages = _
    rw [hw2, updateFirst_append_singleton _ _ _ _ hkey (by simp [hd, hn]), List.append_assoc]
  unfold processOnePage
  simp only []
  generalize freshPageId w.store.pages = fid at hfresh ⊢
  split
  · rename_i msg _
    exact ⟨_, hfail
      { id := fid, documentId := document.id, pageNumber := i + 1,
        status := Status.processing, imagePath := some imagePath } msg
      (insertPage
        { id := fid, documentId := document.id, pageNumber := i + 1,
          status := Status.processing, imagePath := some imagePath } w)
      (by simp [hpages]) rfl rfl, rfl, rfl, Or.inr rfl⟩
  · rename_i ocrResult _
    have hsave : (savePage
        { id := fid, documentId := document.id, pageNumber := i + 1,
          status := Status.completed, imagePath := some imagePath,
          text := ocrResult.text, confidence := ocrResult.confidence,
          textBlocks := ocrResult.textBlocks, processedAt := some env.now }
        (insertPage
          { id := fid, documentId := document.id, pageNumber := i + 1,
            status := Status.processing, imagePath := some imagePath } w)).store.pages =
        (pages0 ++ created) ++
          [{ id := fid, documentId := document.id, pageNumber := i + 1,
             status := Status.completed, imagePath := some imagePath,
             text := ocrResult.text, confidence := ocrResult.confidence,
             textBlocks := ocrResult.textBlocks, processedAt := some env.now }] := by
      show updateFirst (fun x => decide (x.id = fid)) _ (w.store.pages ++ [_]) = _
      rw [hpages]
      exact updateFirst_append_singleton _ _ _ _ hfresh (by simp)
    split
    · rename_i msg _
      exact ⟨_, hfail
        { id := fid, documentId := document.id, pageNumber := i + 1,
          status := Status.completed, imagePath := some imagePath,
          text := ocrResult.text, confidence := ocrResult.confidence,
          textBlocks := ocrResult.textBlocks, processedAt := some env.now } msg _
        (by simpa using hsave) rfl rfl, rfl, rfl, Or.inr rfl⟩
    · exact ⟨_, by simpa using hsave, rfl, rfl, Or.inl rfl⟩

theorem pageLoop_pages (env : Env) (data : JobData) (n : Nat) (pages0 : List PageRec) :
    ∀ (paths : List String) (i : Nat) (document : DocumentRec) (w : World)
      (created : List PageRec),
      w.store.pages = pages0 ++ created →
      (∀ p ∈ pages0, p.documentId ≠ document.id) →
      created.map (fun p => p.pageNumber) = List.range' 1 i →
      (∀ p ∈ created, p.documentId = document.id ∧
        (p.status = Status.completed ∨ p.status = Status.failed)) →
      ∃ created2, (pageLoop env data n paths i document w).1.store.pages = pages0 ++ created2 ∧
        created2.map (fun p => p.pageNumber) = List.range' 1 (i + paths.length) ∧
        ∀ p ∈ created2, p.documentId = document.id ∧
          (p.status = Status.completed ∨ p.status = Status.failed) := by
  intro paths
  induction paths with
  | nil =>
    intro i document w created hpages _ hnum hcr
    exact ⟨created, hpages, by simpa using hnum, hcr⟩
  | cons path rest ih =>
    intro i document w created hpages h0 hnum hcr
    obtain ⟨page, hp, hn, hd, hs⟩ :=
      processOnePage_pages env data n i document path w pages0 created hpages h0 hnum
    have hid := processOnePage_id env data n i document path w
    obtain ⟨created2, h1, h2, h3⟩ := ih (i + 1)
      (processOnePage env data n document i path w).2
      (processOnePage env data n document i path w).1 (created ++ [page]) hp
      (by rw [hid]; exact h0)
      (by rw [List.map_append, hnum, List.range'_1_concat, List.map_cons, List.map_nil, hn,
            Nat.add_comm 1 i])
      (by
        intro p hp2
        rw [hid]
        rcases List.mem_append.mp hp2 with hp2 | hp2
        · exact hcr p hp2
        · rw [List.mem_singleton.mp hp2]; exact ⟨hd, hs⟩)
    refine ⟨created2, h1, ?_, ?_⟩
    · rw [h2, List.length_cons]
      congr 1
      omega
    · intro p hp2
      have := h3 p hp2
      rwa [hid] at this

/-- The pages after a run whose rasterization returned: the pages of the store
at the start, followed by one new Page for each image. -/
theorem jobHandler_pages (env : Env) (data : JobData) (s0 : Store) (found : DocumentRec)
    (imagePaths : List String)
    (hdoc : findDocument s0 data.documentId = some found)
    (hras : rasterize env data found = Except.ok imagePaths)
    (hnone : ∀ p ∈ s0.pages, p.documentId ≠ data.documentId) :
    ∃ created, (run env data s0).store.pages = s0.pages ++ created ∧
      created.map (fun p => p.pageNumber) = List.range' 1 imagePaths.length ∧
      ∀ p ∈ created, p.documentId = data.documentId ∧
        (p.status = Status.completed ∨ p.status = Status.failed) := by
  have hid : found.id = data.documentId := findDocument_id hdoc
  have hras2 : rasterize env data { found with status := Status.processing } =
      Except.ok imagePaths := hras
  have d1 : findDocument (updateJob data.jobId (fun j => { j with status := JobStatus.active })
      (World.init s0)).store data.documentId = some found := hdoc
  have hid2 : ({ found with
      status := Status.processing, totalPages := imagePaths.length } : DocumentRec).id =
      data.documentId := hid
  obtain ⟨created, h1, h2, h3⟩ := pageLoop_pages env data imagePaths.length s0.pages imagePaths 0
    { found with status := Status.processing, totalPages := imagePaths.length }
    (updateJob data.jobId (fun j => { j with totalPages := imagePaths.length })
      (saveDocument { found with status := Status.processing, totalPages := imagePaths.length }
        (saveDocument { found with status := Status.processing }
          (updateJob data.jobId (fun j => { j with status := JobStatus.active })
            (World.init s0))))) []
    (by simp [World.init])
    (fun p hp => by rw [hid2]; exact hnone p hp)
    rfl (by intro p hp; simp at hp)
  rw [Nat.zero_add] at h2
  refine ⟨created, ?_, h2, ?_⟩
  · unfold run jobHandler
    simp only []
    rw [d1]
    simp only [hras2]
    split
    · rw [pages_failRun]
      simpa using h1
    · simpa using h1
  · intro p hp
    have := h3 p hp
    rwa [hid2] at this

/-- C9: a document rasterized into N page images ends the run with exactly N
Page records of that Document, one for each pageNumber 1..N in this order, each
with status completed or failed, whatever the outcomes of recognition and of
the broadcaster; the run starts, as after an upload or a reprocess request,
with no Page of that Document in the store. -/
theorem one_page_record_per_image (env : Env) (data : JobData) (s0 : Store)
    (found : DocumentRec) (imagePaths : List String)
    (hdoc : findDocument s0 data.documentId = some found)
    (hras : rasterize env data found = Except.ok imagePaths)
    (hnone : ∀ p ∈ s0.pages, p.documentId ≠ data.documentId) :
    (((run env data s0).store.pages.filter
        (fun p => decide (p.documentId = data.documentId))).map (fun p => p.pageNumber) =
      List.range' 1 imagePaths.length) ∧
    (((run env data s0).store.pages.filter
        (fun p => decide (p.documentId = data.documentId))).length = imagePaths.length) ∧
    (∀ p ∈ (run env data s0).store.pages, p.documentId = data.documentId →
      p.status = Status.completed ∨ p.status = Status.failed) := by
  obtain ⟨created, h1, h2, h3⟩ := jobHandler_pages env data s0 found imagePaths hdoc hras hnone
  have hf0 : s0.pages.filter (fun p => decide (p.documentId = data.documentId)) = [] := by
    rw [List.filter_eq_nil_iff]
    intro p hp
    simpa using hnone p hp
  have hf1 : created.filter (fun p => decide (p.documentId = data.documentId)) = created := by
    rw [List.filter_eq_self]
    intro p hp
    simpa using (h3 p hp).1
  have hfilter : (run env data s0).store.pages.filter
      (fun p => decide (p.documentId = data.documentId)) = created := by
    rw [h1, List.filter_append, hf0, hf1, List.nil_append]
  refine ⟨by rw [hfilter, h2], ?_, ?_⟩
  · rw [hfilter]
    have := congrArg List.length h2
    simpa using this
  · intro p hp hd
    rw [h1] at hp
    rcases List.mem_append.mp hp with hp | hp
    · exact absurd hd (hnone p hp)
    · exact (h3 p hp).2

/-- C9 on a three-page PDF whose second page fails. -/
theorem one_page_record_per_image_witness :
    findDocument pdfStore request.documentId = some pdfDocument ∧
    rasterize (sampleEnv ["p-1.png", "p-2.png", "p-3.png"] [2]) request pdfDocument =
      Except.ok ["p-1.png", "p-2.png", "p-3.png"] ∧
    (∀ p ∈ pdfStore.pages, p.documentId ≠ request.documentId) ∧
    ((run (sampleEnv ["p-1.png", "p-2.png", "p-3.png"] [2]) request pdfStore).store.pages.filter
        (fun p => decide (p.documentId = request.documentId))).map (fun p => p.pageNumber) =
      List.range' 1 ["p-1.png", "p-2.png", "p-3.png"].length ∧
    (run (sampleEnv ["p-1.png", "p-2.png", "p-3.png"] [2]) request pdfStore).store.pages.map
      (fun p => (p.pageNumber, p.status)) =
      [(1, Status.completed), (2, Status.failed), (3, Status.completed)] :=
  ⟨by decide, rfl, by decide,
    (one_page_record_per_image (sampleEnv ["p-1.png", "p-2.png", "p-3.png"] [2]) request
      pdfStore pdfDocument ["p-1.png", "p-2.png", "p-3.png"] (by decide) rfl (by decide)).1,
    by decide⟩

/-- The outer `catch`: what it writes and emits. -/
theorem failRun_spec (env : Env) (data : JobData) (msg : String) (w : World) :
    (failRun env data msg w).2 ≠ none ∧
    findDocument (failRun env data msg w).1.store data.documentId =
      (findDocument w.store data.documentId).map
        (fun d => { d with status := Status.failed, error := some msg }) ∧
    findJob (failRun env data msg w).1.store data.jobId =
      (findJob w.store data.jobId).map
        (fun j => { j with status := JobStatus.failed, error := some msg }) ∧
    Event.jobFailed data.jobId msg ∈ (failRun env data msg w).1.events ∧
    (failRun env data msg w).1.store.pages = w.store.pages := by
  have hd := findDocument_updateDocument data.documentId
    (fun d => { d with status := Status.failed, error := some msg }) w (fun _ h => h)
  have hj := findJob_updateJob data.jobId
    (fun j => { j with status := JobStatus.failed, error := some msg })
    (updateDocument data.documentId
      (fun d => { d with status := Status.failed, error := some msg }) w) (fun _ => rfl)
  have hev : Event.jobFailed data.jobId msg ∈
      (emit env (Event.jobFailed data.jobId msg)
        (updateJob data.jobId (fun j => { j with status := JobStatus.failed, error := some msg })
          (updateDocument data.documentId
            (fun d => { d with status := Status.failed, error := some msg }) w))).1.events := by
    simp [emit]
  unfold failRun
  simp only []
  split
  · exact ⟨by simp, hd, hj, hev, rfl⟩
  · exact ⟨by simp, hd, hj, hev, rfl⟩

theorem updateDocument_documents_of_not_found (id : Nat) (f : DocumentRec → DocumentRec)
    (w : World) (h : findDocument w.store id = none) :
    (updateDocument id f w).store.documents = w.store.documents := by
  show updateFirst _ f w.store.documents = w.store.documents
  apply updateFirst_of_forall_not
  intro d hd
  have := List.find?_eq_none.mp h d hd
  simpa using this

/-- C10, as stated, fails when the Document is not found: the outer `catch`
updates the Document by id, and with no such record nothing is written, so no
Document ends with status failed; only the Job does. -/
theorem document_not_found_no_failed_document :
    findDocument orphanStore request.documentId = none ∧
    findDocument (run (sampleEnv [] []) request orphanStore).store request.documentId = none ∧
    (∀ d ∈ (run (sampleEnv [] []) request orphanStore).store.documents,
      d.status ≠ Status.failed) ∧
    (findJob (run (sampleEnv [] []) request orphanStore).store request.jobId).map
      (fun j => (j.status, j.error)) = some (JobStatus.failed, some "Document not found") := by
  decide

/-- C10, amended: if rasterization raises, the run ends with
Document.status = failed and Job.status = failed, both carrying the error
message, a job-failed event carrying jobId and the error is emitted, the
handler raises, and no Page record has been created or changed; if the
Document is not found, the same holds for the Job and the event, with the
message 'Document not found', and the Document collection is left as it was,
since there is no Document to mark. -/
theorem pipeline_failure_marks_failed (env : Env) (data : JobData) (s0 : Store) (j0 : JobRec)
    (hjob : findJob s0 data.jobId = some j0) :
    (∀ found msg, findDocument s0 data.documentId = some found →
      rasterize env data found = Except.error msg →
      (jobHandler env data (World.init s0)).2 ≠ none ∧
      (∃ d, findDocument (run env data s0).store data.documentId = some d ∧
        d.status = Status.failed ∧ d.error = some msg) ∧
      (∃ j, findJob (run env data s0).store data.jobId = some j ∧
        j.status = JobStatus.failed ∧ j.error = some msg) ∧
      Event.jobFailed data.jobId msg ∈ (run env data s0).events ∧
      (run env data s0).store.pages = s0.pages) ∧
    (findDocument s0 data.documentId = none →
      (jobHandler env data (World.init s0)).2 ≠ none ∧
      (run env data s0).store.documents = s0.documents ∧
      (∃ j, findJob (run env data s0).store data.jobId = some j ∧
        j.status = JobStatus.failed ∧ j.error = some "Document not found") ∧
      Event.jobFailed data.jobId "Document not found" ∈ (run env data s0).events ∧
      (run env data s0).store.pages = s0.pages) := by
  have j1 : findJob (updateJob data.jobId (fun j => { j with status := JobStatus.active })
      (World.init s0)).store data.jobId = some { j0 with status := JobStatus.active } := by
    rw [findJob_updateJob data.jobId (fun j => { j with status := JobStatus.active }) _
      (fun _ => rfl)]
    simp [World.init, hjob]
  constructor
  · intro found msg hdoc hras
    have hid : found.id = data.documentId := findDocument_id hdoc
    have hras2 : rasterize env data { found with status := Status.processing } =
        Except.error msg := hras
    have d1 : findDocument (updateJob data.jobId
        (fun j => { j with status := JobStatus.active })
        (World.init s0)).store data.documentId = some found := hdoc
    have d2 := findDocument_saveDocument_of_found
      (d := { found with status := Status.processing })
      (w := updateJob data.jobId (fun j => { j with status := JobStatus.active })
        (World.init s0)) hid d1
    obtain ⟨f1, f2, f3, f4, f5⟩ := failRun_spec env data msg
      (saveDocument { found with status := Status.processing }
        (updateJob data.jobId (fun j => { j with status := JobStatus.active })
          (World.init s0)))
    have hrun : jobHandler env data (World.init s0) = failRun env data msg
        (saveDocument { found with status := Status.processing }
          (updateJob data.jobId (fun j => { j with status := JobStatus.active })
            (World.init s0))) := by
      unfold jobHandler
      simp only []
      rw [d1]
      simp only [hras2]
    have hdfinal : findDocument (failRun env data msg
        (saveDocument { found with status := Status.processing }
          (updateJob data.jobId (fun j => { j with status := JobStatus.active })
            (World.init s0)))).1.store data.documentId =
        some { found with status := Status.failed, error := some msg } := by
      rw [f2, d2]; rfl
    have hjfinal : findJob (failRun env data msg
        (saveDocument { found with status := Status.processing }
          (updateJob data.jobId (fun j => { j with status := JobStatus.active })
            (World.init s0)))).1.store data.jobId =
        some { j0 with status := JobStatus.failed, error := some msg } := by
      rw [f3, findJob_saveDocument, j1]; rfl
    unfold run
    rw [hrun]
    refine ⟨f1, ⟨_, hdfinal, rfl, rfl⟩, ⟨_, hjfinal, rfl, rfl⟩, f4, ?_⟩
    rw [f5]; rfl
  · intro hdoc
    have d1 : findDocument (updateJob data.jobId
        (fun j => { j with status := JobStatus.active })
        (World.init s0)).store data.documentId = none := hdoc
    obtain ⟨f1, _, f3, f4, f5⟩ := failRun_spec env data "Document not found"
      (updateJob data.jobId (fun j => { j with status := JobStatus.active }) (World.init s0))
    have hrun : jobHandler env data (World.init s0) = failRun env data "Document not found"
        (updateJob data.jobId (fun j => { j with status := JobStatus.active })
          (World.init s0)) := by
      unfold jobHandler
      simp only []
      rw [d1]
    have hdocs : (failRun env data "Document not found"
        (updateJob data.jobId (fun j => { j with status := JobStatus.active })
          (World.init s0))).1.store.documents = s0.documents := by
      have := updateDocument_documents_of_not_found data.documentId
        (fun d => { d with status := Status.failed, error := some "Document not found" })
        (updateJob data.jobId (fun j => { j with status := JobStatus.active }) (World.init s0))
        d1
      unfold failRun
      simp only []
      split <;> exact this
    have hjfinal : findJob (failRun env data "Document not found"
        (updateJob data.jobId (fun j => { j with status := JobStatus.active })
          (World.init s0))).1.store data.jobId =
        some { j0 with status := JobStatus.failed, error := some "Document not found" } := by
      rw [f3, j1]; rfl
    unfold run
    rw [hrun]
    refine ⟨f1, hdocs, ⟨_, hjfinal, rfl, rfl⟩, f4, ?_⟩
    rw [f5]; rfl

/-- C10, amended, on a PDF whose conversion raises and on a Job whose Document
is missing. -/
theorem pipeline_failure_marks_failed_witness :
    findJob pdfStore request.jobId = some waitingJob ∧
    findDocument pdfStore request.documentId = some pdfDocument ∧
    rasterize brokenPdfEnv request pdfDocument = Except.error "conversion failed" ∧
    ((jobHandler brokenPdfEnv request (World.init pdfStore)).2 ≠ none ∧
      (∃ d, findDocument (run brokenPdfEnv request pdfStore).store request.documentId = some d ∧
        d.status = Status.failed ∧ d.error = some "conversion failed") ∧
      (∃ j, findJob (run brokenPdfEnv request pdfStore).store request.jobId = some j ∧
        j.status = JobStatus.failed ∧ j.error = some "conversion failed") ∧
      Event.jobFailed request.jobId "conversion failed" ∈
        (run brokenPdfEnv request pdfStore).events ∧
      (run brokenPdfEnv request pdfStore).store.pages = pdfStore.pages) :=
  ⟨by decide, by decide, rfl,
    (pipeline_failure_marks_failed brokenPdfEnv request pdfStore waitingJob (by decide)).1
      pdfDocument "conversion failed" (by decide) rfl⟩

end Worker

/-! ## Page failures, broadcaster failures and the Job status -/

namespace Worker

theorem processOnePage_sync (env : Env) (data : JobData) (n i : Nat) (document : DocumentRec)
    (imagePath : String) (w : World)
    (hsync : findDocument w.store data.documentId = some document)
    (hid : document.id = data.documentId) :
    findDocument (processOnePage env data n document i imagePath w).1.store data.documentId =
      some (processOnePage env data n document i imagePath w).2 ∧
    (processOnePage env data n document i imagePath w).2.id = data.documentId := by
  have hdoc : ∀ w2 : World, findDocument w2.store data.documentId = some document →
      findDocument (saveDocument { document with processedPages := i + 1 } w2).store
        data.documentId = some { document with processedPages := i + 1 } :=
    fun w2 h2 => findDocument_saveDocument_of_found (e := document) hid h2
  unfold processOnePage
  simp only []
  split
  · exact ⟨by simpa using hsync, hid⟩
  · split
    · refine ⟨?_, hid⟩
      simp only [findDocument_failPage, findDocument_emit]
      exact hdoc _ (by simpa using hsync)
    · refine ⟨?_, hid⟩
      simp only [findDocument_emit]
      exact hdoc _ (by simpa using hsync)

theorem processOnePage_job (env : Env) (data : JobData) (n i : Nat) (document : DocumentRec)
    (imagePath : String) (w : World)
    (hjob : ∃ j, findJob w.store data.jobId = some j) :
    ∃ j, findJob (processOnePage env data n document i imagePath w).1.store data.jobId =
      some j := by
  obtain ⟨j, hj⟩ := hjob
  have hupd : ∀ w2 : World, findJob w2.store data.jobId = some j →
      findJob (updateJob data.jobId
        (fun j => { j with processedPages := i + 1, progress := progressOf (i + 1) n })
        w2).store data.jobId =
        some { j with processedPages := i + 1, progress := progressOf (i + 1) n } := by
    intro w2 h2
    rw [findJob_updateJob data.jobId
      (fun j => { j with processedPages := i + 1, progress := progressOf (i + 1) n }) _
      (fun _ => rfl), h2]
    rfl
  unfold processOnePage
  simp only []
  split
  · exact ⟨j, by simpa using hj⟩
  · split
    · refine ⟨{ j with processedPages := i + 1, progress := progressOf (i + 1) n }, ?_⟩
      simp only [findJob_failPage, findJob_emit, findJob_saveDocument]
      exact hupd _ (by simpa using hj)
    · refine ⟨{ j with processedPages := i + 1, progress := progressOf (i + 1) n }, ?_⟩
      simp only [findJob_emit, findJob_saveDocument]
      exact hupd _ (by simpa using hj)

theorem pageLoop_sync (env : Env) (data : JobData) (n : Nat) :
    ∀ (paths : List String) (i : Nat) (document : DocumentRec) (w : World),
      findDocument w.store data.documentId = some document →
      document.id = data.documentId →
      (∃ j, findJob w.store data.jobId = some j) →
      findDocument (pageLoop env data n paths i document w).1.store data.documentId =
        some (pageLoop env data n paths i document w).2 ∧
      (pageLoop env data n paths i document w).2.id = data.documentId ∧
      ∃ j, findJob (pageLoop env data n paths i document w).1.store data.jobId = some j := by
  intro paths
  induction paths with
  | nil => intro i document w hs hid hj; exact ⟨hs, hid, hj⟩
  | cons path rest ih =>
    intro i document w hs hid hj
    obtain ⟨h1, h2⟩ := processOnePage_sync env data n i document path w hs hid
    have h3 := processOnePage_job env data n i document path w hj
    unfold pageLoop
    exact ih (i + 1) _ _ h1 h2 h3

/-- One iteration with a broadcaster that does not raise: the new Page ends as
recognition left it. -/
theorem processOnePage_outcome (env : Env) (data : JobData) (n i : Nat)
    (document : DocumentRec) (imagePath : String) (w : World) (pages0 created : List PageRec)
    (hpages : w.store.pages = pages0 ++ created)
    (h0 : ∀ p ∈ pages0, p.documentId ≠ document.id)
    (hnum : created.map (fun p => p.pageNumber) = List.range' 1 i)
    (hid : document.id = data.documentId)
    (hemit : ∀ ev, env.emit ev = none) :
    ∃ page, (processOnePage env data n document i imagePath w).1.store.pages =
        pages0 ++ (created ++ [page]) ∧
      pageOutcome env data i imagePath page := by
  have hkey : ∀ x ∈ pages0 ++ created,
      (decide (x.documentId = document.id) && decide (x.pageNumber = i + 1)) = false := by
    intro x hx
    rcases List.mem_append.mp hx with hx | hx
    · simp [h0 x hx]
    · have hm : x.pageNumber ∈ List.range' 1 i := by
        rw [← hnum]; exact List.mem_map.mpr ⟨x, hx, rfl⟩
      have := List.mem_range'_1.mp hm
      have hne : x.pageNumber ≠ i + 1 := by omega
      simp [hne]
  have hfresh : ∀ x ∈ pages0 ++ created,
      decide (x.id = freshPageId w.store.pages) = false := by
    intro x hx
    have := freshPageId_not_mem w.store.pages x (by rw [hpages]; exact hx)
    simp [this]
  unfold processOnePage
  simp only [Worker.emit, hemit]
  generalize freshPageId w.store.pages = fid at hfresh ⊢
  split
  · rename_i msg heq
    refine ⟨{ id := fid, documentId := document.id, pageNumber := i + 1,
              status := Status.failed, imagePath := some imagePath, error := some msg }, ?_, ?_⟩
    · show updateFirst _ _ (w.store.pages ++ [_]) = _
      rw [hpages, updateFirst_append_singleton _ _ _ _ hkey (by simp), List.append_assoc]
    · unfold pageOutcome
      rw [heq]
      exact ⟨hid, rfl, rfl, rfl, rfl⟩
  · rename_i ocrResult heq
    refine ⟨{ id := fid, documentId := document.id, pageNumber := i + 1,
              status := Status.completed, imagePath := some imagePath,
              text := ocrResult.text, confidence := ocrResult.confidence,
              textBlocks := ocrResult.textBlocks, processedAt := some env.now }, ?_, ?_⟩
    · show updateFirst (fun x => decide (x.id = fid)) _ (w.store.pages ++ [_]) = _
      rw [hpages, updateFirst_append_singleton _ _ _ _ hfresh (by simp), List.append_assoc]
    · unfold pageOutcome
      rw [heq]
      exact ⟨hid, rfl, rfl, rfl, rfl, rfl, rfl, rfl⟩

theorem pagesMatch_pageNumbers (env : Env) (data : JobData) :
    ∀ (paths : List String) (i : Nat) (pages : List PageRec),
      pagesMatch env data i paths pages →
      pages.map (fun p => p.pageNumber) = List.range' (i + 1) paths.length := by
  intro paths
  induction paths with
  | nil =>
    intro i pages h
    cases pages with
    | nil => rfl
    | cons p ps => exact absurd h (by simp [pagesMatch])
  | cons path rest ih =>
    intro i pages h
    cases pages with
    | nil => exact absurd h (by simp [pagesMatch])
    | cons p ps =>
      obtain ⟨h1, h2⟩ := h
      simp only [List.map_cons, List.length_cons, List.range'_succ, ih (i + 1) ps h2, h1.2.1]

theorem pageLoop_outcome (env : Env) (data : JobData) (n : Nat) (pages0 : List PageRec)
    (hemit : ∀ ev, env.emit ev = none) :
    ∀ (paths : List String) (i : Nat) (document : DocumentRec) (w : World)
      (created : List PageRec),
      w.store.pages = pages0 ++ created →
      (∀ p ∈ pages0, p.documentId ≠ document.id) →
      created.map (fun p => p.pageNumber) = List.range' 1 i →
      document.id = data.documentId →
      ∃ added, (pageLoop env data n paths i document w).1.store.pages =
          pages0 ++ (created ++ added) ∧
        pagesMatch env data i paths added := by
  intro paths
  induction paths with
  | nil =>
    intro i document w created hpages _ _ _
    exact ⟨[], by simpa [pageLoop] using hpages, trivial⟩
  | cons path rest ih =>
    intro i document w created hpages h0 hnum hid
    obtain ⟨page, hp, hout⟩ :=
      processOnePage_outcome env data n i document path w pages0 created hpages h0 hnum hid hemit
    have hid2 := processOnePage_id env data n i document path w
    obtain ⟨added, h1, h2⟩ := ih (i + 1)
      (processOnePage env data n document i path w).2
      (processOnePage env data n document i path w).1 (created ++ [page]) hp
      (by rw [hid2]; exact h0)
      (by rw [List.map_append, hnum, List.range'_1_concat, List.map_cons, List.map_nil,
            hout.2.1, Nat.add_comm 1 i])
      (by rw [hid2]; exact hid)
    refine ⟨page :: added, ?_, hout, h2⟩
    unfold pageLoop
    rw [h1, List.append_assoc]
    rfl

/-- C11: in a run whose only failures are recognition (or preprocessing)
failures of pages (the Document exists, rasterization returned the page
images, the broadcaster does not raise, and the run starts with no Page of the
Document in the store), whatever subset of pages fails, the handler returns
without raising, the Document and the Job end completed with processedAt and
completedAt set, and the run leaves one Page record per image, in order: failed
with the error message for a page whose recognition raised, completed with its
own text, confidence and text blocks for every other page. -/
theorem page_failures_do_not_fail_run (env : Env) (data : JobData) (s0 : Store)
    (found : DocumentRec) (j0 : JobRec) (imagePaths : List String)
    (hdoc : findDocument s0 data.documentId = some found)
    (hjob : findJob s0 data.jobId = some j0)
    (hras : rasterize env data found = Except.ok imagePaths)
    (hnone : ∀ p ∈ s0.pages, p.documentId ≠ data.documentId)
    (hemit : ∀ ev, env.emit ev = none) :
    (jobHandler env data (World.init s0)).2 = none ∧
    (∃ d, findDocument (run env data s0).store data.documentId = some d ∧
      d.status = Status.completed ∧ d.processedAt = some env.now) ∧
    (∃ j, findJob (run env data s0).store data.jobId = some j ∧
      j.status = JobStatus.completed ∧ j.completedAt = some env.now) ∧
    ∃ created, (run env data s0).store.pages = s0.pages ++ created ∧
      pagesMatch env data 0 imagePaths created := by
  have hid : found.id = data.documentId := findDocument_id hdoc
  have hras2 : rasterize env data { found with status := Status.processing } =
      Except.ok imagePaths := hras
  have d1 : findDocument (updateJob data.jobId (fun j => { j with status := JobStatus.active })
      (World.init s0)).store data.documentId = some found := hdoc
  have j1 : ∃ j, findJob (updateJob data.jobId (fun j => { j with status := JobStatus.active })
      (World.init s0)).store data.jobId = some j := by
    rw [findJob_updateJob data.jobId (fun j => { j with status := JobStatus.active }) _
      (fun _ => rfl)]
    exact ⟨_, by simp [World.init, hjob]; rfl⟩
  have p1 : (updateJob data.jobId (fun j => { j with status := JobStatus.active })
      (World.init s0)).store.pages = s0.pages := rfl
  unfold run jobHandler
  simp only []
  generalize updateJob data.jobId (fun j => { j with status := JobStatus.active })
    (World.init s0) = w1 at d1 j1 p1 ⊢
  rw [d1]
  simp only [hras2]
  have d2 := findDocument_saveDocument_of_found
    (d := { found with status := Status.processing }) (w := w1) hid d1
  have j2 : ∃ j, findJob (saveDocument { found with status := Status.processing } w1).store
      data.jobId = some j := j1
  have p2 : (saveDocument { found with status := Status.processing } w1).store.pages =
      s0.pages := p1
  generalize saveDocument { found with status := Status.processing } w1 = w2 at d2 j2 p2 ⊢
  have d3 := findDocument_saveDocument_of_found
    (d := { found with status := Status.processing, totalPages := imagePaths.length })
    (w := w2) hid d2
  have j3 : ∃ j, findJob (saveDocument
      { found with status := Status.processing, totalPages := imagePaths.length } w2).store
      data.jobId = some j := j2
  have p3 : (saveDocument
      { found with status := Status.processing, totalPages := imagePaths.length } w2).store.pages
      = s0.pages := p2
  generalize saveDocument
    { found with status := Status.processing, totalPages := imagePaths.length } w2 = w3
    at d3 j3 p3 ⊢
  have d4 : findDocument (updateJob data.jobId
      (fun j => { j with totalPages := imagePaths.length }) w3).store data.documentId =
      some { found with status := Status.processing, totalPages := imagePaths.length } := d3
  have j4 : ∃ j, findJob (updateJob data.jobId
      (fun j => { j with totalPages := imagePaths.length }) w3).store data.jobId = some j := by
    obtain ⟨j, hj⟩ := j3
    rw [findJob_updateJob data.jobId (fun j => { j with totalPages := imagePaths.length }) _
      (fun _ => rfl), hj]
    exact ⟨_, rfl⟩
  have p4 : (updateJob data.jobId
      (fun j => { j with totalPages := imagePaths.length }) w3).store.pages = s0.pages := p3
  generalize updateJob data.jobId (fun j => { j with totalPages := imagePaths.length }) w3
    = w4 at d4 j4 p4 ⊢
  -- the page loop
  obtain ⟨l1, l2, j5, hj5⟩ := pageLoop_sync env data imagePaths.length imagePaths 0 _ w4
    d4 hid j4
  obtain ⟨created, l4, l5⟩ := pageLoop_outcome env data imagePaths.length s0.pages hemit
    imagePaths 0 { found with status := Status.processing, totalPages := imagePaths.length }
    w4 [] (by simpa using p4) (fun p hp => by rw [hid]; exact hnone p hp) rfl hid
  generalize pageLoop env data imagePaths.length imagePaths 0
    { found with status := Status.processing, totalPages := imagePaths.length } w4 = r
    at l1 l2 hj5 l4 ⊢
  -- the Document and the Job are set completed
  have d6 := findDocument_saveDocument_of_found
    (d := { r.2 with status := Status.completed, processedAt := some env.now })
    (w := r.1) l2 l1
  have j7 : findJob (updateJob data.jobId
      (fun j => { j with status := JobStatus.completed, completedAt := some env.now })
      (saveDocument { r.2 with status := Status.completed, processedAt := some env.now }
        r.1)).store data.jobId =
      some { j5 with status := JobStatus.completed, completedAt := some env.now } := by
    rw [findJob_updateJob data.jobId
      (fun j => { j with status := JobStatus.completed, completedAt := some env.now }) _
      (fun _ => rfl), findJob_saveDocument, hj5]
    rfl
  simp only [Worker.emit, hemit]
  refine ⟨trivial, ⟨_, d6, rfl, rfl⟩, ⟨_, j7, rfl, rfl⟩, created, ?_, l5⟩
  simpa using l4

/-- C11 on a three-page PDF whose second page fails. -/
theorem page_failures_do_not_fail_run_witness :
    findDocument pdfStore request.documentId = some pdfDocument ∧
    findJob pdfStore request.jobId = some waitingJob ∧
    rasterize (sampleEnv ["p-1.png", "p-2.png", "p-3.png"] [2]) request pdfDocument =
      Except.ok ["p-1.png", "p-2.png", "p-3.png"] ∧
    (∀ p ∈ pdfStore.pages, p.documentId ≠ request.documentId) ∧
    (∀ ev, (sampleEnv ["p-1.png", "p-2.png", "p-3.png"] [2]).emit ev = none) ∧
    ((jobHandler (sampleEnv ["p-1.png", "p-2.png", "p-3.png"] [2]) request
        (World.init pdfStore)).2 = none ∧
      (∃ d, findDocument (run (sampleEnv ["p-1.png", "p-2.png", "p-3.png"] [2]) request
          pdfStore).store request.documentId = some d ∧
        d.status = Status.completed ∧
        d.processedAt = some (sampleEnv ["p-1.png", "p-2.png", "p-3.png"] [2]).now)) ∧
    (run (sampleEnv ["p-1.png", "p-2.png", "p-3.png"] [2]) request pdfStore).store.pages.map
      (fun p => (p.pageNumber, p.status, p.text, p.error)) =
      [(1, Status.completed, "text", none), (2, Status.failed, "", some "recognition failed"),
       (3, Status.completed, "text", none)] :=
  ⟨by decide, by decide, rfl, by decide, fun _ => rfl,
    ⟨(page_failures_do_not_fail_run (sampleEnv ["p-1.png", "p-2.png", "p-3.png"] [2]) request
        pdfStore pdfDocument waitingJob ["p-1.png", "p-2.png", "p-3.png"] (by decide)
        (by decide) rfl (by decide) (fun _ => rfl)).1,
     (page_failures_do_not_fail_run (sampleEnv ["p-1.png", "p-2.png", "p-3.png"] [2]) request
        pdfStore pdfDocument waitingJob ["p-1.png", "p-2.png", "p-3.png"] (by decide)
        (by decide) rfl (by decide) (fun _ => rfl)).2.1⟩,
    by decide⟩

/-- C12 fails on the code: the `job-progress` emit sits inside the `try` of the
page, so when it raises the `catch` rewrites the Page, already saved as
completed, to failed with the broadcaster's message; the `job-completed` emit
sits inside the outer `try`, so when it raises the outer `catch` rewrites the
Document and the Job, already saved as completed, to failed. -/
theorem broadcaster_failure_rewrites_state :
    ((∃ s ∈ (run brokenProgressEnv request imageStore).history,
        s.pages.map (fun p => (p.pageNumber, p.status)) = [(1, Status.completed)]) ∧
      (run brokenProgressEnv request imageStore).store.pages.map
        (fun p => (p.pageNumber, p.status, p.error)) =
        [(1, Status.failed, some "socket closed")]) ∧
    ((∃ s ∈ (run brokenBroadcastEnv request imageStore).history,
        (findDocument s 1).map (fun d => d.status) = some Status.completed ∧
        (findJob s "job-1").map (fun j => j.status) = some JobStatus.completed) ∧
      (findDocument (run brokenBroadcastEnv request imageStore).store 1).map
        (fun d => (d.status, d.error)) = some (Status.failed, some "socket closed") ∧
      (findJob (run brokenBroadcastEnv request imageStore).store "job-1").map
        (fun j => (j.status, j.error)) = some (JobStatus.failed, some "socket closed")) := by
  decide

end Worker

namespace Backend

open Worker

/-- C13 fails on the code when the broadcaster raises on `job-completed`: in the
worker the persisted Job goes waiting, active, completed and then failed; in
`SimpleQueue.processJob` the in-memory entry goes waiting, active, completed
and then failed (there the persisted Job stays completed). -/
theorem terminal_status_overwritten :
    ((run brokenBroadcastEnv request imageStore).history.map
        (fun s => (findJob s "job-1").map (fun j => j.status))).destutter (· ≠ ·) =
      [some JobStatus.waiting, some JobStatus.active, some JobStatus.completed,
       some JobStatus.failed] ∧
    (mapGet (some "job-1") uploadedState.queue.jobs).map (fun e => e.status) =
      some EntryStatus.waiting ∧
    (processJob brokenQueueEnv (some "job-1") uploadedState).statuses =
      [EntryStatus.active, EntryStatus.completed, EntryStatus.failed] ∧
    (mapGet (some "job-1")
        (processJob brokenQueueEnv (some "job-1") uploadedState).state.queue.jobs).map
      (fun e => e.status) = some EntryStatus.failed ∧
    (findJob (processJob brokenQueueEnv (some "job-1") uploadedState).state.store "job-1").map
      (fun j => j.status) = some JobStatus.completed := by
  decide

/-! ## Properties of the routes and of the queue -/

theorem updateFirst_split {α : Type} (p : α → Bool) (f : α → α) :
    ∀ (l : List α) (a : α), l.find? p = some a →
      ∃ pre post, l = pre ++ a :: post ∧ (∀ x ∈ pre, p x = false) ∧
        updateFirst p f l = pre ++ f a :: post := by
  intro l
  induction l with
  | nil => intro a h; simp at h
  | cons b l ih =>
    intro a h
    by_cases hb : p b = true
    · have hab : b = a := by simpa [List.find?, hb] using h
      subst hab
      exact ⟨[], l, rfl, by simp, by simp [updateFirst, hb]⟩
    · have hb2 : p b = false := by simpa using hb
      have h2 : l.find? p = some a := by simpa [List.find?, hb2] using h
      obtain ⟨pre, post, h3, h4, h5⟩ := ih a h2
      refine ⟨b :: pre, post, by rw [h3]; rfl, ?_, ?_⟩
      · intro x hx
        rcases List.mem_cons.mp hx with rfl | hx
        · exact hb2
        · exact h4 x hx
      · simp [updateFirst, hb2, h5]

theorem findPage_id {s : Store} {id : Nat} {page : PageRec}
    (h : findPage s id = some page) : page.id = id := by
  have := List.find?_some h
  simpa using this

theorem correctPage_found (pageId : Nat) (text : String) (st : State) (page : PageRec)
    (htext : text ≠ "") (hpage : findPage st.store pageId = some page) :
    correctPage pageId text st =
      ({ store := { st.store with
            pages := updateFirst (fun x => decide (x.id = pageId))
              (fun _ => { page with text := text, confidence := 100 }) st.store.pages },
         queue := st.queue },
       { message := some "Page text corrected successfully" }) := by
  have hid : page.id = pageId := findPage_id hpage
  subst hid
  unfold correctPage
  simp only [htext, if_false, hpage]

/-- C18: for the manual correction handler with a non-empty text on an existing
Page, the response is the success message, the Page afterwards has the
supplied text and confidence 100 and keeps its id, status, pageNumber,
documentId, textBlocks and every other field, every other Page record is
unchanged and in place, and the Document and Job collections and the queue are
as before: no recognition and no queue operation takes place. -/
theorem correction_sets_text_and_confidence (pageId : Nat) (text : String) (st : State)
    (page : PageRec) (htext : text ≠ "") (hpage : findPage st.store pageId = some page) :
    (correctPage pageId text st).2 = { message := some "Page text corrected successfully" } ∧
    findPage (correctPage pageId text st).1.store pageId =
      some { page with text := text, confidence := 100 } ∧
    (∃ pre post, st.store.pages = pre ++ page :: post ∧
      (∀ x ∈ pre, x.id ≠ pageId) ∧
      (correctPage pageId text st).1.store.pages =
        pre ++ { page with text := text, confidence := 100 } :: post) ∧
    (correctPage pageId text st).1.store.documents = st.store.documents ∧
    (correctPage pageId text st).1.store.jobs = st.store.jobs ∧
    (correctPage pageId text st).1.queue = st.queue := by
  have hid : page.id = pageId := findPage_id hpage
  have hfind0 : st.store.pages.find? (fun x => decide (x.id = pageId)) = some page := hpage
  obtain ⟨pre, post, h1, h2, h3⟩ := updateFirst_split (fun x => decide (x.id = pageId))
    (fun _ => ({ page with text := text, confidence := 100 } : PageRec)) st.store.pages page
    hfind0
  rw [correctPage_found pageId text st page htext hpage]
  refine ⟨rfl, ?_, ⟨pre, post, h1, ?_, h3⟩, rfl, rfl, rfl⟩
  · show (updateFirst (fun x => decide (x.id = pageId))
        (fun _ => ({ page with text := text, confidence := 100 } : PageRec))
        st.store.pages).find? (fun x => decide (x.id = pageId)) = _
    rw [find?_updateFirst _ _ (fun a _ => by simp [hid]), hfind0]
    rfl
  · intro x hx
    simpa using h2 x hx

/-- C18 on the page of the uploaded text file. -/
theorem correction_sets_text_and_confidence_witness :
    "Corrected text" ≠ "" ∧
    (findPage processedState.store 1).map (fun p => (p.text, p.confidence)) =
      some ("Machine learning algorithms process data efficiently.", 95) ∧
    (findPage (correctPage 1 "Corrected text" processedState).1.store 1).map
      (fun p => (p.text, p.confidence, p.status, p.pageNumber, p.documentId)) =
      some ("Corrected text", 100, Status.completed, 1, 1) :=
  ⟨by decide, by decide, by
    have h : findPage processedState.store 1 = some
        { id := 1, documentId := 1, pageNumber := 1,
          text := "Machine learning algorithms process data efficiently.", confidence := 95,
          status := Status.completed, processedAt := some 9 } := by decide
    rw [(correction_sets_text_and_confidence 1 "Corrected text" processedState _
      (by decide) h).2.1]
    rfl⟩

/-- C19: manual correction is idempotent: applying the correction handler a
second time with the same page id and text gives the same response and leaves
the state exactly as the first application left it. -/
theorem correction_idempotent (pageId : Nat) (text : String) (st : State) :
    correctPage pageId text (correctPage pageId text st).1 = correctPage pageId text st := by
  by_cases htext : text = ""
  · simp [correctPage, htext]
  · rcases hpage : findPage st.store pageId with _ | page
    · simp [correctPage, htext, hpage]
    · obtain ⟨_, h2, _, _, _, _⟩ :=
        correction_sets_text_and_confidence pageId text st page htext hpage
      have hfirst := correctPage_found pageId text st page htext hpage
      have hsecond := correctPage_found pageId text (correctPage pageId text st).1
        { page with text := text, confidence := 100 } htext h2
      have hagain : updateFirst (fun x => decide (x.id = pageId))
          (fun _ => ({ page with text := text, confidence := 100 } : PageRec))
          (correctPage pageId text st).1.store.pages =
          (correctPage pageId text st).1.store.pages := by
        have h3 : (correctPage pageId text st).1.store.pages.find?
            (fun x : PageRec => decide (x.id = pageId)) =
            some { page with text := text, confidence := 100 } := h2
        obtain ⟨pre, post, e1, _, e3⟩ := updateFirst_split
          (fun x : PageRec => decide (x.id = pageId))
          (fun _ => ({ page with text := text, confidence := 100 } : PageRec))
          (correctPage pageId text st).1.store.pages _ h3
        rw [e3, ← e1]
      rw [hsecond]
      have heq : ({ ({ page with text := text, confidence := 100 } : PageRec) with
          text := text, confidence := 100 } : PageRec) =
          { page with text := text, confidence := 100 } := rfl
      rw [heq, hagain]
      rw [hfirst]

theorem pages_setJob (k : Option String) (f : JobRec → JobRec) (s : Store) :
    (setJob k f s).pages = s.pages := by
  cases k <;> rfl

theorem documents_setJob (k : Option String) (f : JobRec → JobRec) (s : Store) :
    (setJob k f s).documents = s.documents := by
  cases k <;> rfl

theorem findDocument_setJob (k : Option String) (f : JobRec → JobRec) (s : Store) (id : Nat) :
    findDocument (setJob k f s) id = findDocument s id := by
  cases k <;> rfl

theorem findJob_setJob (id : String) (f : JobRec → JobRec) (s : Store)
    (hf : ∀ j, (f j).jobId = j.jobId) :
    findJob (setJob (some id) f s) id = (findJob s id).map f := by
  unfold findJob setJob
  exact find?_updateFirst _ f (fun a ha => by simpa [hf a] using ha) _

theorem findDocument_setDocument (id : Nat) (f : DocumentRec → DocumentRec) (s : Store)
    (hf : ∀ d, d.id = id → (f d).id = id) :
    findDocument (setDocument id f s) id = (findDocument s id).map f := by
  unfold findDocument setDocument
  exact find?_updateFirst _ f (fun a ha => by simpa using hf a (by simpa using ha)) _

/-- The store after a call of `processJob` that finds its entry: the Job is
set active, one Page is added, the Document and the Job are set completed. -/
theorem processJob_store (env : QueueEnv) (jobId : Option String) (st : State)
    (job : QueueEntry) (h : mapGet jobId st.queue.jobs = some job) :
    (processJob env jobId st).state.store =
      setJob jobId
        (fun j => { j with
          status := JobStatus.completed, progress := 100, totalPages := 1, processedPages := 1,
          completedAt := some env.now })
        (setDocument job.data.documentId
          (fun d => { d with
            status := Status.completed, totalPages := 1, processedPages := 1,
            processedAt := some env.now })
          { setJob jobId (fun j => { j with status := JobStatus.active }) st.store with
            pages := st.store.pages ++
              [{ id := freshPageId st.store.pages, documentId := job.data.documentId,
                 pageNumber := 1, text := readFileContent env job.data.filePath,
                 confidence := 95, status := Status.completed,
                 processedAt := some env.now }] }) := by
  unfold processJob
  simp only [h, pages_setJob]
  split
  · split <;> rfl
  · rfl

theorem processJob_pages (env : QueueEnv) (jobId : Option String) (st : State)
    (job : QueueEntry) (h : mapGet jobId st.queue.jobs = some job) :
    (processJob env jobId st).state.store.pages = st.store.pages ++
      [{ id := freshPageId st.store.pages, documentId := job.data.documentId,
         pageNumber := 1, text := readFileContent env job.data.filePath,
         confidence := 95, status := Status.completed, processedAt := some env.now }] := by
  rw [processJob_store env jobId st job h, pages_setJob]
  rfl

theorem readFileContent_text (env : QueueEnv) (path content : String)
    (hread : env.readFileSync path = Except.ok content)
    (hext : String.mk ((env.extname path).data.map Char.toLower) ≠ ".pdf")
    (hblank : isBlank content = false) :
    readFileContent env (some path) = content := by
  unfold readFileContent
  simp only [hread, hext, if_false, hblank]
  rfl

/-- C20: for `SimpleQueue.processJob` on a readable plain-text file (not a
`.pdf`) with non-blank content, the run adds exactly one Page, with pageNumber
1, status completed, confidence 95, empty textBlocks and text equal to the
decoded file content (it is the only Page of the Document when the Document
had none before), sets the Document to completed with
totalPages = processedPages = 1 and the Job to completed with progress 100. -/
theorem text_file_yields_one_page (env : QueueEnv) (id : String) (st : State)
    (job : QueueEntry) (path content : String) (d0 : DocumentRec) (j0 : JobRec)
    (hentry : mapGet (some id) st.queue.jobs = some job)
    (hpath : job.data.filePath = some path)
    (hread : env.readFileSync path = Except.ok content)
    (hext : String.mk ((env.extname path).data.map Char.toLower) ≠ ".pdf")
    (hblank : isBlank content = false)
    (hdoc : findDocument st.store job.data.documentId = some d0)
    (hjob : findJob st.store id = some j0) :
    (processJob env (some id) st).state.store.pages = st.store.pages ++
      [{ id := freshPageId st.store.pages, documentId := job.data.documentId,
         pageNumber := 1, text := content, textBlocks := [], confidence := 95,
         status := Status.completed, processedAt := some env.now }] ∧
    ((∀ p ∈ st.store.pages, p.documentId ≠ job.data.documentId) →
      (processJob env (some id) st).state.store.pages.filter
        (fun p => decide (p.documentId = job.data.documentId)) =
        [{ id := freshPageId st.store.pages, documentId := job.data.documentId,
           pageNumber := 1, text := content, textBlocks := [], confidence := 95,
           status := Status.completed, processedAt := some env.now }]) ∧
    findDocument (processJob env (some id) st).state.store job.data.documentId =
      some { d0 with
        status := Status.completed, totalPages := 1, processedPages := 1,
        processedAt := some env.now } ∧
    findJob (processJob env (some id) st).state.store id =
      some { j0 with
        status := JobStatus.completed, progress := 100, totalPages := 1, processedPages := 1,
        completedAt := some env.now } := by
  have hpages := processJob_pages env (some id) st job hentry
  rw [hpath, readFileContent_text env path content hread hext hblank] at hpages
  refine ⟨hpages, ?_, ?_, ?_⟩
  · intro hnone
    rw [hpages, List.filter_append]
    have h0 : st.store.pages.filter (fun p => decide (p.documentId = job.data.documentId)) =
        [] := by
      rw [List.filter_eq_nil_iff]
      intro p hp
      simpa using hnone p hp
    rw [h0]
    simp
  · rw [processJob_store env (some id) st job hentry, findDocument_setJob]
    refine (findDocument_setDocument _ _ _ ?_).trans ?_
    · exact fun _ h => h
    have : findDocument
        { setJob (some id) (fun j => { j with status := JobStatus.active }) st.store with
          pages := st.store.pages ++
            [{ id := freshPageId st.store.pages, documentId := job.data.documentId,
               pageNumber := 1, text := readFileContent env job.data.filePath,
               confidence := 95, status := Status.completed,
               processedAt := some env.now }] } job.data.documentId =
        findDocument st.store job.data.documentId := rfl
    rw [this, hdoc]
    rfl
  · rw [processJob_store env (some id) st job hentry]
    refine (findJob_setJob id _ _ ?_).trans ?_
    · exact fun _ => rfl
    have : findJob (setDocument job.data.documentId
        (fun d => { d with
          status := Status.completed, totalPages := 1, processedPages := 1,
          processedAt := some env.now })
        { setJob (some id) (fun j => { j with status := JobStatus.active }) st.store with
          pages := st.store.pages ++
            [{ id := freshPageId st.store.pages, documentId := job.data.documentId,
               pageNumber := 1, text := readFileContent env job.data.filePath,
               confidence := 95, status := Status.completed,
               processedAt := some env.now }] }) id =
        findJob (setJob (some id) (fun j => { j with status := JobStatus.active }) st.store)
          id := rfl
    rw [this]
    have h2 := findJob_setJob id (fun j => { j with status := JobStatus.active }) st.store
      (fun _ => rfl)
    rw [h2, hjob]
    rfl

/-- C20 on the uploaded text file of the workflow test. -/
theorem text_file_yields_one_page_witness :
    (processJob textQueueEnv (some "job-1") uploadedState).state.store.pages =
      [{ id := 1, documentId := 1, pageNumber := 1,
         text := "Machine learning algorithms process data efficiently.", textBlocks := [],
         confidence := 95, status := Status.completed, processedAt := some 9 }] ∧
    (findDocument (processJob textQueueEnv (some "job-1") uploadedState).state.store 1).map
      (fun d => (d.status, d.totalPages, d.processedPages)) =
      some (Status.completed, 1, 1) ∧
    (findJob (processJob textQueueEnv (some "job-1") uploadedState).state.store "job-1").map
      (fun j => (j.status, j.progress)) = some (JobStatus.completed, 100) := by
  have h := text_file_yields_one_page textQueueEnv "job-1" uploadedState
    { name := "process-document", data := textFileData, status := EntryStatus.waiting }
    "uploads/notes.txt" "Machine learning algorithms process data efficiently."
    { id := 1, filename := "notes.txt", originalName := "notes.txt",
      fileHash := "sha256-of-uploads/notes.txt", mimeType := "text/plain", size := 53,
      jobId := "job-1", uploadedAt := 5 }
    { jobId := "job-1", documentId := 1, createdAt := 5 }
    (by decide) rfl rfl (by decide) (by decide) (by decide) (by decide)
  refine ⟨h.1, ?_, ?_⟩
  · rw [show textFileData.documentId = 1 from rfl] at h
    rw [h.2.2.1]
    rfl
  · rw [h.2.2.2]
    rfl

/-! ## Enqueueing the same request twice -/

theorem mapGet_mapSet (k : Option String) (v : QueueEntry)
    (m : List (Option String × QueueEntry)) : mapGet k (mapSet k v m) = some v := by
  induction m with
  | nil => simp [mapGet, mapSet]
  | cons e rest ih =>
    unfold mapSet
    by_cases h : e.1 = k
    · simp [h, mapGet]
    · have ih2 := ih
      unfold mapGet at ih2 ⊢
      simp only [h, if_false, List.find?, decide_False]
      exact ih2

theorem mapSet_mapSet (k : Option String) (v : QueueEntry)
    (m : List (Option String × QueueEntry)) : mapSet k v (mapSet k v m) = mapSet k v m := by
  induction m with
  | nil => simp [mapSet]
  | cons e rest ih =>
    by_cases h : e.1 = k
    · simp [mapSet, h]
    · simp [mapSet, h, ih]

theorem mapGet_setEntryStatus (k : Option String) (status : EntryStatus) (q : SimpleQueue) :
    mapGet k (setEntryStatus k status q).jobs =
      (mapGet k q.jobs).map (fun e => { e with status := status }) := by
  unfold mapGet setEntryStatus
  have h := find?_updateFirst (fun e : Option String × QueueEntry => decide (e.1 = k))
    (fun e => (e.1, { e.2 with status := status })) (fun a ha => ha) q.jobs
  show Option.map (fun e => e.2)
    (List.find? (fun e => decide (e.1 = k))
      (updateFirst (fun e : Option String × QueueEntry => decide (e.1 = k))
        (fun e => (e.1, { e.2 with status := status })) q.jobs)) = _
  rw [h]
  cases List.find? (fun e => decide (e.1 = k)) q.jobs <;> rfl

/-- After a call of `processJob` that finds its entry, the entry is still in
the map, with the same `data`. -/
theorem processJob_entry (env : QueueEnv) (jobId : Option String) (st : State)
    (job : QueueEntry) (h : mapGet jobId st.queue.jobs = some job) :
    ∃ status, mapGet jobId (processJob env jobId st).state.queue.jobs =
      some { job with status := status } := by
  unfold processJob
  simp only [h]
  split
  · split
    · exact ⟨EntryStatus.completed, by
        simp only [mapGet_setEntryStatus, h, Option.map_some']⟩
    · exact ⟨EntryStatus.failed, by
        simp only [mapGet_setEntryStatus, h, Option.map_some']⟩
  · exact ⟨EntryStatus.completed, by
      simp only [mapGet_setEntryStatus, h, Option.map_some']⟩

/-- C15 (as the code has it): enqueueing the same `data` twice keeps a single
entry in the `jobs` map but schedules two runs of `processJob`; each run adds a
Page with pageNumber 1 for the Document, so after the runs the store holds one
more Page than after a single enqueue, and two Pages share
(documentId, pageNumber). -/
theorem enqueue_twice_adds_two_pages (env : QueueEnv) (st : State) (name : String)
    (data : QueueData) (htimers : st.queue.timers = []) :
    ((st.queue.add name data).add name data).jobs = (st.queue.add name data).jobs ∧
    (runTimers env { st with queue := st.queue.add name data }).store.pages =
      st.store.pages ++
        [{ id := freshPageId st.store.pages, documentId := data.documentId, pageNumber := 1,
           text := readFileContent env data.filePath, confidence := 95,
           status := Status.completed, processedAt := some env.now }] ∧
    (runTimers env { st with queue := (st.queue.add name data).add name data }).store.pages =
      st.store.pages ++
        [{ id := freshPageId st.store.pages, documentId := data.documentId, pageNumber := 1,
           text := readFileContent env data.filePath, confidence := 95,
           status := Status.completed, processedAt := some env.now },
         { id := freshPageId (st.store.pages ++
             [{ id := freshPageId st.store.pages, documentId := data.documentId,
                pageNumber := 1, text := readFileContent env data.filePath, confidence := 95,
                status := Status.completed, processedAt := some env.now }]),
           documentId := data.documentId, pageNumber := 1,
           text := readFileContent env data.filePath, confidence := 95,
           status := Status.completed, processedAt := some env.now }] ∧
    ¬ uniquePageNumbers
      (runTimers env { st with queue := (st.queue.add name data).add name data }).store := by
  have hjobs : ((st.queue.add name data).add name data).jobs =
      (st.queue.add name data).jobs := by
    simp only [SimpleQueue.add, mapSet_mapSet]
  have hget : mapGet data.jobId
      ({ store := st.store,
         queue := { jobs := (st.queue.add name data).jobs, timers := [], io := st.queue.io } } :
        State).queue.jobs =
      some { name := name, data := data, status := EntryStatus.waiting } :=
    mapGet_mapSet _ _ _
  have hone : runTimers env { st with queue := st.queue.add name data } =
      (processJob env data.jobId
        { store := st.store,
          queue := { jobs := (st.queue.add name data).jobs, timers := [],
                     io := st.queue.io } }).state := by
    simp [runTimers, SimpleQueue.add, htimers]
  have htwo : runTimers env { st with queue := (st.queue.add name data).add name data } =
      (processJob env data.jobId
        (processJob env data.jobId
          { store := st.store,
            queue := { jobs := (st.queue.add name data).jobs, timers := [],
                       io := st.queue.io } }).state).state := by
    simp [runTimers, SimpleQueue.add, htimers, mapSet_mapSet]
  have hp1 := processJob_pages env data.jobId _ _ hget
  obtain ⟨status, hget2⟩ := processJob_entry env data.jobId _ _ hget
  have hp2 := processJob_pages env data.jobId _ _ hget2
  rw [hp1] at hp2
  have hp3 : (runTimers env
      { st with queue := (st.queue.add name data).add name data }).store.pages = _ :=
    (congrArg (fun s => s.store.pages) htwo).trans hp2
  refine ⟨hjobs, ?_, ?_, ?_⟩
  · rw [hone]
    exact hp1
  · rw [hp3]
    simp
  · unfold uniquePageNumbers
    rw [hp3]
    simp [List.nodup_append]

/-- C15 on the request of the uploaded text file, enqueued twice on an empty queue. -/
theorem enqueue_twice_adds_two_pages_witness :
    (runTimers textQueueEnv
      { recordsOnly with
        queue := (recordsOnly.queue.add "process-document" textFileData).add
          "process-document" textFileData }).store.pages.map
      (fun p => (p.id, p.documentId, p.pageNumber)) = [(1, 1, 1), (2, 1, 1)] := by
  have h := enqueue_twice_adds_two_pages textQueueEnv recordsOnly "process-document"
    textFileData rfl
  rw [h.2.2.1]
  decide

/-- C15 (the claim as stated fails): with the `data` of the uploaded text file
enqueued once, the runs leave one Page; enqueued twice, they leave two Pages
with the same (documentId, pageNumber). -/
theorem enqueue_twice_duplicates_page :
    (runTimers textQueueEnv uploadedState).store.pages.map
      (fun p => (p.documentId, p.pageNumber)) = [(1, 1)] ∧
    (runTimers textQueueEnv enqueuedTwice).store.pages.map
      (fun p => (p.documentId, p.pageNumber)) = [(1, 1), (1, 1)] ∧
    enqueuedTwice.queue.jobs = uploadedState.queue.jobs ∧
    ¬ uniquePageNumbers (runTimers textQueueEnv enqueuedTwice).store := by
  decide

/-! ## Page numbers under the single-page reprocess -/

/-- C16: the single-page reprocess does not preserve the uniqueness of page
numbers.  After the upload of the text file and its run the store holds one
Page (Document 1, pageNumber 1) and the predicate holds; after
`POST /pages/1/reprocess` and the run it schedules, the original Page is left
in status pending and a second Page with the sample text is stored for
(Document 1, pageNumber 1).  On the same state a correction, and a document
reprocess followed by its run, keep the predicate. -/
theorem page_reprocess_duplicates_page_number :
    uniquePageNumbers processedState.store ∧
    uniquePageNumbers (correctPage 1 "Corrected text" processedState).1.store ∧
    uniquePageNumbers
      (runTimers textQueueEnv
        (reprocessDocument routeEnv "job-2" 1 none none processedState).1).store ∧
    uniquePageNumbers (reprocessPage 1 processedState).1.store ∧
    (runTimers textQueueEnv (reprocessPage 1 processedState).1).store.pages.map
      (fun p => (p.documentId, p.pageNumber, p.status, p.text)) =
      [(1, 1, Status.pending, "Machine learning algorithms process data efficiently."),
       (1, 1, Status.completed, sampleText)] ∧
    ¬ uniquePageNumbers (runTimers textQueueEnv (reprocessPage 1 processedState).1).store := by
  decide

/-! ## The document reprocess route -/

theorem findJob_append_new (s : Store) (j : JobRec) (h : ∀ x ∈ s.jobs, x.jobId ≠ j.jobId) :
    findJob { s with jobs := s.jobs ++ [j] } j.jobId = some j := by
  unfold findJob
  rw [List.find?_append]
  have h1 : List.find? (fun x => decide (x.jobId = j.jobId)) s.jobs = none := by
    rw [List.find?_eq_none]
    intro x hx
    simpa using h x hx
  simp [h1]

theorem reprocessDocument_found (env : RouteEnv) (uuid : String) (documentId : Nat)
    (language : Option String) (preprocess : Option Preprocess) (st : State) (d : DocumentRec)
    (hdoc : findDocument st.store documentId = some d) :
    reprocessDocument env uuid documentId language preprocess st =
      ({ store :=
           { documents := updateFirst (fun x => decide (x.id = documentId))
               (fun _ => { d with status := Status.pending, processedPages := 0, jobId := uuid })
               st.store.documents
             jobs := st.store.jobs ++
               [{ jobId := uuid, documentId := documentId, status := JobStatus.waiting,
                  createdAt := env.now }]
             pages := st.store.pages.filter (fun p => !decide (p.documentId = documentId)) }
         queue := st.queue.add "reprocess-document"
           { documentId := documentId, filePath := some ("uploads/" ++ d.filename),
             jobId := some uuid, language := some (language.getD "eng"),
             preprocess := some (preprocess.getD {}) } },
       { jobId := some uuid, message := some "Document reprocessing started",
         parameters := some (language.getD "eng", preprocess.getD {}) }) := by
  have hid : d.id = documentId := findDocument_id hdoc
  subst hid
  unfold reprocessDocument
  simp only [hdoc]
  rfl

/-! ## Uploading the same content again -/

/-- A duplicate upload answers with the `_id` and the current `jobId` of the
stored Document and leaves the state as it was. -/
theorem upload_existing (env : RouteEnv) (uuid : String) (f : UploadedFile) (st : State)
    (h : String) (d : DocumentRec) (hh : env.generateFileHash f.path = Except.ok h)
    (hd : st.store.documents.find? (fun x => decide (x.fileHash = h)) = some d) :
    upload env uuid (some f) st =
      (st, { jobId := some d.jobId, documentId := some d.id,
             message := some "Document already exists" }) := by
  unfold upload
  simp only [hh, hd]

theorem find?_updateFirst_other {α : Type} (p q : α → Bool) (f : α → α)
    (hf : ∀ a, p (f a) = p a) :
    ∀ l : List α, (∀ a, l.find? p = some a → q a = false) →
      (updateFirst q f l).find? p = l.find? p := by
  intro l
  induction l with
  | nil => intro _; rfl
  | cons a t ih =>
    intro hq
    unfold updateFirst
    by_cases hpa : p a = true
    · have hqa : q a = false := hq a (by simp [List.find?, hpa])
      simp [hqa, List.find?, hpa]
    · have hpa2 : p a = false := by simpa using hpa
      have ih2 := ih (fun x hx => hq x (by simpa [List.find?, hpa2] using hx))
      by_cases hqa : q a = true
      · simp [hqa, List.find?, hf, hpa2]
      · have hqa2 : q a = false := by simpa using hqa
        simp [hqa2, List.find?, hpa2, ih2]

theorem find?_updateFirst_map {α β : Type} (p q : α → Bool) (f : α → α) (g : α → β)
    (hf : ∀ a, p (f a) = p a) (hg : ∀ a, g (f a) = g a) (l : List α) :
    ((updateFirst q f l).find? p).map g = (l.find? p).map g := by
  induction l with
  | nil => rfl
  | cons a t ih =>
    unfold updateFirst
    by_cases hqa : q a = true
    · by_cases hpa : p a = true
      · simp [hqa, List.find?, hf, hpa, hg]
      · have hpa2 : p a = false := by simpa using hpa
        simp [hqa, List.find?, hf, hpa2]
    · have hqa2 : q a = false := by simpa using hqa
      by_cases hpa : p a = true
      · simp [hqa2, List.find?, hpa]
      · have hpa2 : p a = false := by simpa using hpa
        simpa [hqa2, List.find?, hpa2] using ih

theorem updateFirst_congr_found {α : Type} (q : α → Bool) (f g : α → α) (a : α)
    (hfg : f a = g a) :
    ∀ l : List α, l.find? q = some a → updateFirst q f l = updateFirst q g l := by
  intro l
  induction l with
  | nil => intro _; rfl
  | cons b t ih =>
    intro h
    unfold updateFirst
    by_cases hb : q b = true
    · have hab : b = a := by simpa [List.find?, hb] using h
      subst hab
      simp [hb, hfg]
    · have hb2 : q b = false := by simpa using hb
      have h2 : t.find? q = some a := by simpa [List.find?, hb2] using h
      simp only [hb2, Bool.false_eq_true, if_false]
      rw [ih h2]

theorem storedFor_of_documents (h : String) (s t : State)
    (hdocs : t.store.documents = s.store.documents) : storedFor h t = storedFor h s := by
  unfold storedFor
  rw [hdocs]

theorem storedFor_some {h : String} {st : State} {id : Nat} {jobId : String}
    (hst : storedFor h st = some (id, jobId)) :
    ∃ d, st.store.documents.find? (fun x => decide (x.fileHash = h)) = some d ∧
      d.id = id ∧ d.jobId = jobId := by
  unfold storedFor at hst
  cases hf : st.store.documents.find? (fun x => decide (x.fileHash = h)) with
  | none => rw [hf] at hst; simp at hst
  | some d =>
    rw [hf] at hst
    simp only [Option.map_some', Option.some.injEq, Prod.mk.injEq] at hst
    exact ⟨d, rfl, hst.1, hst.2⟩

theorem storedFor_upload (h : String) (env : RouteEnv) (uuid : String)
    (file : Option UploadedFile) (st : State) (v : Nat × String)
    (hst : storedFor h st = some v) : storedFor h (upload env uuid file st).1 = some v := by
  unfold upload
  cases file with
  | none => exact hst
  | some f =>
    simp only
    cases env.generateFileHash f.path with
    | error _ => exact hst
    | ok fileHash =>
      simp only
      cases st.store.documents.find? (fun d => decide (d.fileHash = fileHash)) with
      | some _ => exact hst
      | none =>
        obtain ⟨id, jobId⟩ := v
        obtain ⟨d, hd, h1, h2⟩ := storedFor_some hst
        simp [storedFor, List.find?_append, hd, h1, h2]

theorem storedFor_reprocessDocument (h : String) (env : RouteEnv) (uuid : String)
    (documentId : Nat) (language : Option String) (preprocess : Option Preprocess)
    (st : State) (id : Nat) (jobId : String) (hne : documentId ≠ id)
    (hst : storedFor h st = some (id, jobId)) :
    storedFor h (reprocessDocument env uuid documentId language preprocess st).1 =
      some (id, jobId) := by
  cases hdoc : findDocument st.store documentId with
  | none =>
    have : (reprocessDocument env uuid documentId language preprocess st).1 = st := by
      unfold reprocessDocument
      simp only [hdoc]
    rw [this]
    exact hst
  | some d =>
    rw [reprocessDocument_found env uuid documentId language preprocess st d hdoc]
    obtain ⟨e, he, h1, h2⟩ := storedFor_some hst
    have hcongr := updateFirst_congr_found (fun x : DocumentRec => decide (x.id = documentId))
      (fun _ => { d with status := Status.pending, processedPages := 0, jobId := uuid })
      (fun x => { x with status := Status.pending, processedPages := 0, jobId := uuid })
      d rfl st.store.documents hdoc
    have hfind := find?_updateFirst_other (fun x : DocumentRec => decide (x.fileHash = h))
      (fun x : DocumentRec => decide (x.id = documentId))
      (fun x => { x with status := Status.pending, processedPages := 0, jobId := uuid })
      (fun _ => rfl) st.store.documents
      (fun a ha => by
        rw [he] at ha
        have hae : e = a := by simpa using ha
        subst hae
        simp only [decide_eq_false_iff_not, h1]
        exact fun hc => hne hc.symm)
    show Option.map (fun x : DocumentRec => (x.id, x.jobId))
      (List.find? (fun x : DocumentRec => decide (x.fileHash = h))
        (updateFirst (fun x : DocumentRec => decide (x.id = documentId))
          (fun _ => { d with status := Status.pending, processedPages := 0, jobId := uuid })
          st.store.documents)) = some (id, jobId)
    rw [hcongr, hfind]
    exact hst

theorem documents_reprocessPage (pageId : Nat) (st : State) :
    (reprocessPage pageId st).1.store.documents = st.store.documents := by
  unfold reprocessPage
  cases findPage st.store pageId with
  | none => rfl
  | some page =>
    simp only
    cases findDocument st.store page.documentId <;> rfl

theorem documents_correctPage (pageId : Nat) (text : String) (st : State) :
    (correctPage pageId text st).1.store.documents = st.store.documents := by
  unfold correctPage
  split
  · rfl
  · cases findPage st.store pageId <;> rfl

theorem storedFor_processJob (h : String) (env : QueueEnv) (k : Option String) (st : State) :
    storedFor h (processJob env k st).state = storedFor h st := by
  cases hget : mapGet k st.queue.jobs with
  | none =>
    have : (processJob env k st).state = st := by
      unfold processJob
      simp only [hget]
    rw [this]
  | some job =>
    unfold storedFor
    rw [processJob_store env k st job hget, documents_setJob]
    have h1 := find?_updateFirst_map (fun x : DocumentRec => decide (x.fileHash = h))
      (fun x : DocumentRec => decide (x.id = job.data.documentId))
      (fun d => { d with
        status := Status.completed, totalPages := 1, processedPages := 1,
        processedAt := some env.now })
      (fun x : DocumentRec => (x.id, x.jobId)) (fun _ => rfl) (fun _ => rfl)
      (setJob k (fun j => { j with status := JobStatus.active }) st.store).documents
    refine h1.trans ?_
    rw [documents_setJob]

theorem storedFor_runTimers (h : String) (env : QueueEnv) (st : State) :
    storedFor h (runTimers env st) = storedFor h st := by
  unfold runTimers
  have key : ∀ (l : List (Option String)) (s : State),
      storedFor h (l.foldl (fun s k => (processJob env k s).state) s) = storedFor h s := by
    intro l
    induction l with
    | nil => intro s; rfl
    | cons k t ih =>
      intro s
      rw [List.foldl_cons, ih, storedFor_processJob]
  rw [key]
  rfl

theorem storedFor_step (h : String) (id : Nat) (jobId : String) (op : Op) (st : State)
    (hop : op.reprocesses id = false) (hst : storedFor h st = some (id, jobId)) :
    storedFor h (step op st) = some (id, jobId) := by
  cases op with
  | upload env uuid file => exact storedFor_upload h env uuid file st _ hst
  | reprocessDocument env uuid documentId language preprocess =>
    have hne : documentId ≠ id := by simpa [Op.reprocesses] using hop
    exact storedFor_reprocessDocument h env uuid documentId language preprocess st id jobId
      hne hst
  | reprocessPage pageId =>
    exact (storedFor_of_documents h st _ (documents_reprocessPage pageId st)).trans hst
  | correctPage pageId text =>
    exact (storedFor_of_documents h st _ (documents_correctPage pageId text st)).trans hst
  | runTimers env => exact (storedFor_runTimers h env st).trans hst

theorem storedFor_steps (h : String) (id : Nat) (jobId : String) :
    ∀ (ops : List Op) (st : State), (∀ op ∈ ops, op.reprocesses id = false) →
      storedFor h st = some (id, jobId) → storedFor h (steps ops st) = some (id, jobId) := by
  intro ops
  induction ops with
  | nil => intro st _ hst; exact hst
  | cons op t ih =>
    intro st hops hst
    unfold steps
    rw [List.foldl_cons]
    exact ih (step op st) (fun o ho => hops o (by simp [ho]))
      (storedFor_step h id jobId op st (hops op (by simp)) hst)

/-- C14 (as the code has it): after the first upload of a content, and any
sequence of uploads, page reprocess requests, corrections, queue runs and
reprocess requests for other Documents, a further upload of content with the
same fingerprint answers with the Document's id and the jobId of the first
upload, and leaves the state as it was (no new Document, Job, Page or queue
entry).  A reprocess of that Document is excluded: it replaces the Document's
jobId. -/
theorem duplicate_upload_returns_first_jobId (env env2 : RouteEnv) (uuid uuid2 : String)
    (f f2 : UploadedFile) (h : String) (st : State) (ops : List Op)
    (hh : env.generateFileHash f.path = Except.ok h)
    (hh2 : env2.generateFileHash f2.path = Except.ok h)
    (hnew : st.store.documents.find? (fun d => decide (d.fileHash = h)) = none)
    (hops : ∀ op ∈ ops, op.reprocesses (freshDocumentId st.store.documents) = false) :
    (upload env uuid (some f) st).2.jobId = some uuid ∧
    (upload env uuid (some f) st).2.documentId = some (freshDocumentId st.store.documents) ∧
    upload env2 uuid2 (some f2) (steps ops (upload env uuid (some f) st).1) =
      (steps ops (upload env uuid (some f) st).1,
        { jobId := some uuid, documentId := some (freshDocumentId st.store.documents),
          message := some "Document already exists" }) := by
  have hfirst : upload env uuid (some f) st =
      ({ store :=
           { st.store with
             documents := st.store.documents ++
               [{ id := freshDocumentId st.store.documents, filename := f.filename,
                  originalName := f.originalname, fileHash := h, mimeType := f.mimetype,
                  size := f.size, jobId := uuid, uploadedAt := env.now }]
             jobs := st.store.jobs ++
               [{ jobId := uuid, documentId := freshDocumentId st.store.documents,
                  createdAt := env.now }] }
         queue := st.queue.add "process-document"
           { documentId := freshDocumentId st.store.documents, filePath := some f.path,
             jobId := some uuid } },
       { jobId := some uuid, documentId := some (freshDocumentId st.store.documents),
         message := some "Document uploaded successfully" }) := by
    unfold upload
    simp only [hh, hnew]
  have hstored : storedFor h (upload env uuid (some f) st).1 =
      some (freshDocumentId st.store.documents, uuid) := by
    rw [hfirst]
    simp [storedFor, List.find?_append, hnew]
  have hlater := storedFor_steps h _ _ ops _ hops hstored
  obtain ⟨d, hd, h1, h2⟩ := storedFor_some hlater
  refine ⟨by rw [hfirst], by rw [hfirst], ?_⟩
  rw [upload_existing env2 uuid2 f2 _ h d hh2 hd, h1, h2]

/-- C14 on the text file, uploaded again after its run, a correction, a page
reprocess and the run that request schedules. -/
theorem duplicate_upload_returns_first_jobId_witness :
    upload routeEnv "job-3" (some textFile)
        (steps [Op.runTimers textQueueEnv, Op.correctPage 1 "Corrected text",
                Op.reprocessPage 1, Op.runTimers textQueueEnv]
          (upload routeEnv "job-1" (some textFile) emptyState).1) =
      (steps [Op.runTimers textQueueEnv, Op.correctPage 1 "Corrected text",
              Op.reprocessPage 1, Op.runTimers textQueueEnv]
          (upload routeEnv "job-1" (some textFile) emptyState).1,
        { jobId := some "job-1", documentId := some 1,
          message := some "Document already exists" }) :=
  (duplicate_upload_returns_first_jobId routeEnv routeEnv "job-1" "job-3" textFile textFile
    "sha256-of-uploads/notes.txt" emptyState
    [Op.runTimers textQueueEnv, Op.correctPage 1 "Corrected text", Op.reprocessPage 1,
     Op.runTimers textQueueEnv]
    rfl rfl rfl (by simp [Op.reprocesses])).2.2

/-- C14 (the claim as stated fails): the text file is uploaded under jobId
"job-1" and processed, the Document is reprocessed under jobId "job-2", and
the same file is uploaded again: the answer carries "job-2", not the jobId of
the first upload. -/
theorem duplicate_upload_after_reprocess :
    (upload routeEnv "job-1" (some textFile) emptyState).2.jobId = some "job-1" ∧
    (upload routeEnv "job-3" (some textFile)
      (steps [Op.runTimers textQueueEnv, Op.reprocessDocument routeEnv "job-2" 1 none none]
        uploadedState)).2 =
      { jobId := some "job-2", documentId := some 1,
        message := some "Document already exists" } := by
  decide

/-! ## The jobId of a reprocess request -/

theorem mem_updateFirst {α : Type} (p : α → Bool) (f : α → α) :
    ∀ (l : List α) (x : α), x ∈ updateFirst p f l → x ∈ l ∨ ∃ a ∈ l, x = f a := by
  intro l
  induction l with
  | nil => intro x hx; simp [updateFirst] at hx
  | cons a t ih =>
    intro x hx
    unfold updateFirst at hx
    by_cases hpa : p a = true
    · simp only [hpa, if_true] at hx
      rcases List.mem_cons.mp hx with rfl | hx2
      · exact Or.inr ⟨a, by simp, rfl⟩
      · exact Or.inl (by simp [hx2])
    · have hpa2 : p a = false := by simpa using hpa
      simp only [hpa2, Bool.false_eq_true, if_false] at hx
      rcases List.mem_cons.mp hx with rfl | hx2
      · exact Or.inl (by simp)
      · rcases ih x hx2 with h | ⟨b, hb, rfl⟩
        · exact Or.inl (by simp [h])
        · exact Or.inr ⟨b, by simp [hb], rfl⟩

theorem jobIdsWithin_mono {l l2 : List String} {s : Store} (h : jobIdsWithin l s)
    (hsub : ∀ x ∈ l, x ∈ l2) : jobIdsWithin l2 s :=
  ⟨fun d hd => hsub _ (h.1 d hd), fun j hj => hsub _ (h.2 j hj)⟩

theorem jobIdsWithin_setJob (l : List String) (k : Option String) (f : JobRec → JobRec)
    (hf : ∀ j, (f j).jobId = j.jobId) (s : Store) (h : jobIdsWithin l s) :
    jobIdsWithin l (setJob k f s) := by
  cases k with
  | none => exact h
  | some id =>
    refine ⟨h.1, ?_⟩
    intro j hj
    rcases mem_updateFirst _ f s.jobs j hj with h1 | ⟨a, ha, rfl⟩
    · exact h.2 j h1
    · rw [hf]; exact h.2 a ha

theorem jobIdsWithin_setDocument (l : List String) (id : Nat) (f : DocumentRec → DocumentRec)
    (hf : ∀ d, (f d).jobId = d.jobId) (s : Store) (h : jobIdsWithin l s) :
    jobIdsWithin l (setDocument id f s) := by
  refine ⟨?_, h.2⟩
  intro d hd
  rcases mem_updateFirst _ f s.documents d hd with h1 | ⟨a, ha, rfl⟩
  · exact h.1 d h1
  · rw [hf]; exact h.1 a ha

/-- A run of the queue changes no jobId of the store. -/
theorem jobIdsWithin_processJob (l : List String) (env : QueueEnv) (k : Option String)
    (st : State) (h : jobIdsWithin l st.store) :
    jobIdsWithin l (processJob env k st).state.store := by
  cases hget : mapGet k st.queue.jobs with
  | none =>
    have : (processJob env k st).state = st := by
      unfold processJob
      simp only [hget]
    rw [this]
    exact h
  | some job =>
    rw [processJob_store env k st job hget]
    have h1 := jobIdsWithin_setJob l k (fun j => { j with status := JobStatus.active })
      (fun _ => rfl) st.store h
    apply jobIdsWithin_setJob
    · intro _; rfl
    apply jobIdsWithin_setDocument
    · intro _; rfl
    exact ⟨h1.1, h1.2⟩

theorem jobIdsWithin_runTimers (l : List String) (env : QueueEnv) (st : State)
    (h : jobIdsWithin l st.store) : jobIdsWithin l (runTimers env st).store := by
  unfold runTimers
  have key : ∀ (ks : List (Option String)) (s : State), jobIdsWithin l s.store →
      jobIdsWithin l (ks.foldl (fun s k => (processJob env k s).state) s).store := by
    intro ks
    induction ks with
    | nil => intro s hs; exact hs
    | cons k t ih =>
      intro s hs
      rw [List.foldl_cons]
      exact ih _ (jobIdsWithin_processJob l env k s hs)
  exact key _ _ h

theorem jobs_reprocessPage (pageId : Nat) (st : State) :
    (reprocessPage pageId st).1.store.jobs = st.store.jobs := by
  unfold reprocessPage
  cases findPage st.store pageId with
  | none => rfl
  | some page =>
    simp only
    cases findDocument st.store page.documentId <;> rfl

theorem jobs_correctPage (pageId : Nat) (text : String) (st : State) :
    (correctPage pageId text st).1.store.jobs = st.store.jobs := by
  unfold correctPage
  split
  · rfl
  · cases findPage st.store pageId <;> rfl

/-- Every jobId in the store after an operation was in the store before it or
is the value `crypto.randomUUID()` returned during the operation. -/
theorem jobIdsWithin_step (l : List String) (op : Op) (st : State)
    (h : jobIdsWithin l st.store) :
    jobIdsWithin (l ++ (op.draws st).toList) (step op st).store := by
  have hleft : ∀ (r : List String) (x : String), x ∈ l → x ∈ l ++ r :=
    fun r x hx => List.mem_append_left r hx
  cases op with
  | upload env uuid file =>
    cases file with
    | none => exact jobIdsWithin_mono h (hleft _)
    | some f =>
      cases hh : env.generateFileHash f.path with
      | error e =>
        have hstep : step (Op.upload env uuid (some f)) st = st := by
          simp only [step, upload, hh]
        rw [hstep]
        exact jobIdsWithin_mono h (hleft _)
      | ok fileHash =>
        cases hfind : st.store.documents.find? (fun d => decide (d.fileHash = fileHash)) with
        | some e =>
          have hstep : step (Op.upload env uuid (some f)) st = st := by
            simp only [step, upload, hh, hfind]
          rw [hstep]
          exact jobIdsWithin_mono h (hleft _)
        | none =>
          have hdraw : (Op.upload env uuid (some f)).draws st = some uuid := by
            simp only [Op.draws, hh, hfind]
          have hdocs : (step (Op.upload env uuid (some f)) st).store.documents =
              st.store.documents ++
                [{ id := freshDocumentId st.store.documents, filename := f.filename,
                   originalName := f.originalname, fileHash := fileHash, mimeType := f.mimetype,
                   size := f.size, jobId := uuid, uploadedAt := env.now }] := by
            simp only [step, upload, hh, hfind]
          have hjobs : (step (Op.upload env uuid (some f)) st).store.jobs =
              st.store.jobs ++
                [{ jobId := uuid, documentId := freshDocumentId st.store.documents,
                   createdAt := env.now }] := by
            simp only [step, upload, hh, hfind]
          rw [hdraw]
          constructor
          · intro d hd
            rw [hdocs] at hd
            rcases List.mem_append.mp hd with h1 | h1
            · exact hleft _ _ (h.1 d h1)
            · have : d.jobId = uuid := by
                rw [List.mem_singleton.mp h1]
              rw [this]
              simp
          · intro j hj
            rw [hjobs] at hj
            rcases List.mem_append.mp hj with h1 | h1
            · exact hleft _ _ (h.2 j h1)
            · have : j.jobId = uuid := by
                rw [List.mem_singleton.mp h1]
              rw [this]
              simp
  | reprocessDocument env uuid documentId language preprocess =>
    cases hdoc : findDocument st.store documentId with
    | none =>
      have hstep : step (Op.reprocessDocument env uuid documentId language preprocess) st = st := by
        simp only [step, reprocessDocument, hdoc]
      rw [hstep]
      exact jobIdsWithin_mono h (hleft _)
    | some d =>
      have hdraw : (Op.reprocessDocument env uuid documentId language preprocess).draws st =
          some uuid := by
        simp only [Op.draws, hdoc]
      have hstep : step (Op.reprocessDocument env uuid documentId language preprocess) st =
          (reprocessDocument env uuid documentId language preprocess st).1 := rfl
      rw [hdraw, hstep, reprocessDocument_found env uuid documentId language preprocess st d hdoc]
      constructor
      · intro x hx
        rcases mem_updateFirst _ _ st.store.documents x hx with h1 | ⟨a, _, rfl⟩
        · exact hleft _ _ (h.1 x h1)
        · simp
      · intro j hj
        rcases List.mem_append.mp hj with h1 | h1
        · exact hleft _ _ (h.2 j h1)
        · have : j.jobId = uuid := by
            rw [List.mem_singleton.mp h1]
          rw [this]
          simp
  | reprocessPage pageId =>
    refine jobIdsWithin_mono ?_ (hleft _)
    exact ⟨by
      show ∀ d ∈ (reprocessPage pageId st).1.store.documents, d.jobId ∈ l
      rw [documents_reprocessPage]; exact h.1, by
      show ∀ j ∈ (reprocessPage pageId st).1.store.jobs, j.jobId ∈ l
      rw [jobs_reprocessPage]; exact h.2⟩
  | correctPage pageId text =>
    refine jobIdsWithin_mono ?_ (hleft _)
    exact ⟨by
      show ∀ d ∈ (correctPage pageId text st).1.store.documents, d.jobId ∈ l
      rw [documents_correctPage]; exact h.1, by
      show ∀ j ∈ (correctPage pageId text st).1.store.jobs, j.jobId ∈ l
      rw [jobs_correctPage]; exact h.2⟩
  | runTimers env =>
    exact jobIdsWithin_mono (jobIdsWithin_runTimers l env st h) (hleft _)

/-- Every jobId in the store after a sequence of operations was in the store
before it or is a value `crypto.randomUUID()` returned during the sequence. -/
theorem jobIdsWithin_steps : ∀ (ops : List Op) (l : List String) (st : State),
    jobIdsWithin l st.store → jobIdsWithin (l ++ drawn ops st) (steps ops st).store := by
  intro ops
  induction ops with
  | nil =>
    intro l st h
    exact jobIdsWithin_mono h (fun x hx => List.mem_append_left _ hx)
  | cons op t ih =>
    intro l st h
    have h2 := ih (l ++ (op.draws st).toList) (step op st) (jobIdsWithin_step l op st h)
    have e : l ++ drawn (op :: t) st = l ++ (op.draws st).toList ++ drawn t (step op st) := by
      show l ++ ((op.draws st).toList ++ drawn t (step op st)) = _
      rw [List.append_assoc]
    rw [e]
    exact h2

/-- C17: the document reprocess route on an existing Document, in every state,
answers 200 with the new jobId, leaves no Page of that Document in the store
(the Pages of other Documents are kept), appends a Job in status waiting that
references the Document, resets the Document to pending with processedPages 0
and the new jobId, and enqueues one request under the new jobId.  The new
jobId is the value `crypto.randomUUID()` returns in this call.  Whenever the
state was reached by uploads, reprocess requests, corrections and runs of the
queue from a store in which every jobId is one of the values `earlier`, and
`crypto.randomUUID()` now returns a value that is neither in `earlier` nor one
it returned during those operations, the returned jobId differs from the
Document's previous jobId and the new Job is the one found under it: every
jobId in the store is a value that `crypto.randomUUID()` returned. -/
theorem reprocess_resets_document (env : RouteEnv) (uuid : String) (documentId : Nat)
    (language : Option String) (preprocess : Option Preprocess) (st : State) (d : DocumentRec)
    (hdoc : findDocument st.store documentId = some d) :
    (reprocessDocument env uuid documentId language preprocess st).2.status = 200 ∧
    (reprocessDocument env uuid documentId language preprocess st).2.jobId = some uuid ∧
    (∀ p ∈ (reprocessDocument env uuid documentId language preprocess st).1.store.pages,
      p.documentId ≠ documentId) ∧
    (reprocessDocument env uuid documentId language preprocess st).1.store.pages =
      st.store.pages.filter (fun p => !decide (p.documentId = documentId)) ∧
    (reprocessDocument env uuid documentId language preprocess st).1.store.jobs =
      st.store.jobs ++
        [{ jobId := uuid, documentId := documentId, status := JobStatus.waiting,
           createdAt := env.now }] ∧
    findDocument (reprocessDocument env uuid documentId language preprocess st).1.store
        documentId =
      some { d with status := Status.pending, processedPages := 0, jobId := uuid } ∧
    (reprocessDocument env uuid documentId language preprocess st).1.queue =
      st.queue.add "reprocess-document"
        { documentId := documentId, filePath := some ("uploads/" ++ d.filename),
          jobId := some uuid, language := some (language.getD "eng"),
          preprocess := some (preprocess.getD {}) } ∧
    (∀ (earlier : List String) (st0 : State) (ops : List Op),
      jobIdsWithin earlier st0.store → st = steps ops st0 →
      uuid ∉ earlier ++ drawn ops st0 →
      uuid ≠ d.jobId ∧
      findJob (reprocessDocument env uuid documentId language preprocess st).1.store uuid =
        some { jobId := uuid, documentId := documentId, status := JobStatus.waiting,
               createdAt := env.now }) := by
  have hid : d.id = documentId := findDocument_id hdoc
  have hmem : d ∈ st.store.documents := List.mem_of_find?_eq_some hdoc
  rw [reprocessDocument_found env uuid documentId language preprocess st d hdoc]
  refine ⟨rfl, rfl, ?_, rfl, rfl, ?_, rfl, ?_⟩
  · intro p hp
    have := (List.mem_filter.mp hp).2
    simpa using this
  · have h := findDocument_setDocument documentId
      (fun _ => { d with status := Status.pending, processedPages := 0, jobId := uuid })
      st.store (fun _ _ => hid)
    rw [hdoc] at h
    exact h
  · intro earlier st0 ops hinit hst hfresh
    have hinv := jobIdsWithin_steps ops earlier st0 hinit
    rw [← hst] at hinv
    refine ⟨fun e => hfresh (e ▸ hinv.1 d hmem), ?_⟩
    exact findJob_append_new st.store
      { jobId := uuid, documentId := documentId, status := JobStatus.waiting,
        createdAt := env.now }
      (fun j hj e => by
        have e2 : j.jobId = uuid := e
        exact hfresh (e2 ▸ hinv.2 j hj))

/-- C17 on the text file, uploaded under jobId "job-1" to an empty store,
processed, and reprocessed under jobId "job-2": the values returned earlier
are "job-1" only. -/
theorem reprocess_resets_document_witness :
    drawn [Op.upload routeEnv "job-1" (some textFile), Op.runTimers textQueueEnv] emptyState =
      ["job-1"] ∧
    (reprocessDocument routeEnv "job-2" 1 none none processedState).2.jobId = some "job-2" ∧
    (reprocessDocument routeEnv "job-2" 1 none none processedState).1.store.pages = [] ∧
    (findJob (reprocessDocument routeEnv "job-2" 1 none none processedState).1.store
      "job-2").map (fun j => (j.documentId, j.status)) = some (1, JobStatus.waiting) ∧
    (findDocument (reprocessDocument routeEnv "job-2" 1 none none processedState).1.store
      1).map (fun x => (x.status, x.processedPages, x.jobId)) =
      some (Status.pending, 0, "job-2") ∧
    (findDocument processedState.store 1).map (fun x => x.jobId) = some "job-1" := by
  have h := reprocess_resets_document routeEnv "job-2" 1 none none processedState
    { id := 1, filename := "notes.txt", originalName := "notes.txt",
      fileHash := "sha256-of-uploads/notes.txt", mimeType := "text/plain", size := 53,
      totalPages := 1, processedPages := 1, status := Status.completed,
      jobId := "job-1", uploadedAt := 5, processedAt := some 9 }
    (by decide)
  have hlast := h.2.2.2.2.2.2.2 [] emptyState
    [Op.upload routeEnv "job-1" (some textFile), Op.runTimers textQueueEnv]
    (by decide) rfl (by decide)
  refine ⟨by decide, h.2.1, ?_, ?_, ?_, by decide⟩
  · rw [h.2.2.2.1]
    decide
  · rw [hlast.2]
    rfl
  · rw [h.2.2.2.2.2.1]
    rfl

/-! ## The placeholder text -/

theorem isBlank_empty : isBlank "" = true := rfl

theorem readFileContent_ne_empty (env : QueueEnv) (filePath : Option String) :
    readFileContent env filePath ≠ "" := by
  have hs : sampleText ≠ "" := by decide
  have hb : ∀ t : String, isBlank t = false → t ≠ "" := by
    intro t ht he
    rw [he, isBlank_empty] at ht
    exact Bool.noConfusion ht
  unfold readFileContent
  split
  · exact hs
  · split
    · exact hs
    · split
      · split
        · exact hs
        · split
          · exact hs
          · next h => exact hb _ (by simpa using h)
      · split
        · exact hs
        · next h => exact hb _ (by simpa using h)

/-- In the copy of the queue under `backend/src`, every call of `processJob`
that finds its entry stores one Page, completed and with non-empty text. -/
theorem first_copy_text_nonempty (env : QueueEnv) (jobId : Option String) (st : State)
    (job : QueueEntry) (h : mapGet jobId st.queue.jobs = some job) :
    ∃ page, (processJob env jobId st).state.store.pages = st.store.pages ++ [page] ∧
      page.status = Status.completed ∧ page.text ≠ "" :=
  ⟨_, processJob_pages env jobId st job h, rfl, readFileContent_ne_empty env _⟩

/-- C21: the copy of the queue under `backend/src` stores the placeholder for a
file of zero bytes, and both copies store it when the file cannot be read; but
the copy under `node_modules/backend/src` stores the content of a file that
was read as it is: for a file of zero bytes the Page is persisted as completed
with the empty text. -/
theorem second_copy_stores_empty_text :
    (processJob emptyFileEnv (some "job-1") uploadedState).state.store.pages.map
      (fun p => (p.status, p.text)) = [(Status.completed, sampleText)] ∧
    (processJob unreadableFileEnv (some "job-1") uploadedState).state.store.pages.map
      (fun p => (p.status, p.text)) = [(Status.completed, sampleText)] ∧
    (NodeModules.processJob unreadableFileEnv (some "job-1")
      uploadedState).state.store.pages.map
      (fun p => (p.status, p.text)) = [(Status.completed, sampleText)] ∧
    (NodeModules.processJob emptyFileEnv (some "job-1") uploadedState).state.store.pages.map
      (fun p => (p.status, p.text)) = [(Status.completed, "")] := by
  decide

end Backend

/-! ## Properties of the image stages, of recognition and of rasterization -/

namespace ImageProcessor

open Worker

theorem compose_cons (env : ImageEnv) (stage : Stage) (rest : List Stage)
    (imagePath : String) :
    compose env (stage :: rest) imagePath = stage.run env imagePath >>= compose env rest := by
  show (match stage.run env imagePath with
    | Except.error msg => Except.error msg
    | Except.ok next => compose env rest next) = _
  cases stage.run env imagePath <;> rfl

theorem compose_nil (env : ImageEnv) : compose env [] = pure := rfl

theorem compose_cons_fun (env : ImageEnv) (stage : Stage) (rest : List Stage) :
    compose env (stage :: rest) = fun imagePath => stage.run env imagePath >>= compose env rest :=
  funext (compose_cons env stage rest)

/-- C22: for every path, every combination of options and every behaviour of
the image library, `ImageProcessor.preprocess` is the composition of exactly
the stages whose test is truthy, taken in the fixed order rotate, binarize,
denoise, deskew, each stage receiving the output path of the stage before it;
the enabled stages are a sublist of that fixed sequence, and with no option
set the input path is returned unchanged.  Two evaluations follow: a
rotation, a binarization and a deskew on a PNG path, and the same request when
the library raises in the binarization. -/
theorem preprocess_fixed_order (env : ImageEnv) (imagePath : String) (options : Preprocess) :
    preprocess env imagePath options = compose env (enabledStages options) imagePath ∧
    List.Sublist (enabledStages options)
      [Stage.rotate (options.rotate.getD 0), Stage.binarize options.threshold,
       Stage.denoise, Stage.deskew] ∧
    (enabledStages options).length =
      (truthyNumber options.rotate).toNat + (truthyFlag options.binarize).toNat +
        (truthyFlag options.denoise).toNat + (truthyFlag options.deskew).toNat ∧
    preprocess env imagePath {} = Except.ok imagePath ∧
    preprocess quietEnv "pages/scan-1.PNG"
        { rotate := some 90, binarize := some true, deskew := some true } =
      Except.ok "pages/scan-1_rotated_90_binarized_deskewed.PNG" ∧
    preprocess noThresholdEnv "pages/scan-1.png"
        { rotate := some (-90), binarize := some true, deskew := some true } =
      Except.error "Input file is missing" := by
  refine ⟨?_, ?_, ?_, rfl, rfl, rfl⟩
  · unfold preprocess enabledStages stageTable
    cases truthyNumber options.rotate <;> cases truthyFlag options.binarize <;>
      cases truthyFlag options.denoise <;> cases truthyFlag options.deskew <;>
      simp [compose_cons_fun, compose_nil, Stage.run]
  · unfold enabledStages stageTable
    cases truthyNumber options.rotate <;> cases truthyFlag options.binarize <;>
      cases truthyFlag options.denoise <;> cases truthyFlag options.deskew <;>
      simp
  · unfold enabledStages stageTable
    cases truthyNumber options.rotate <;> cases truthyFlag options.binarize <;>
      cases truthyFlag options.denoise <;> cases truthyFlag options.deskew <;>
      simp

end ImageProcessor

namespace Worker

/-- C23: for every processing request, the options the handler passes to the
page processor are the object literal of the handler (the two defaults, then
the keys of the request): binarize is true unless the request sets it to
false, threshold is 128 unless the request supplies one, and denoise, deskew
and rotate are those of the request. -/
theorem preprocess_option_defaults (data : JobData) :
    (pageOptions data).binarize = decide ((data.preprocess.getD {}).binarize ≠ some false) ∧
    (pageOptions data).threshold = (data.preprocess.getD {}).threshold.getD 128 ∧
    (pageOptions data).denoise = (data.preprocess.getD {}).denoise ∧
    (pageOptions data).deskew = (data.preprocess.getD {}).deskew ∧
    (pageOptions data).rotate = (data.preprocess.getD {}).rotate ∧
    spread (literalDefaults (data.preprocess.getD {})) (data.preprocess.getD {}) =
      { binarize := some (pageOptions data).binarize
        threshold := some (pageOptions data).threshold
        denoise := (pageOptions data).denoise
        deskew := (pageOptions data).deskew
        rotate := (pageOptions data).rotate } := by
  unfold pageOptions spread literalDefaults
  cases data.preprocess with
  | none => simp
  | some pre =>
    obtain ⟨b, t, dn, ds, r⟩ := pre
    cases b with
    | none => cases t <;> cases dn <;> cases ds <;> cases r <;> simp
    | some b => cases b <;> cases t <;> cases dn <;> cases ds <;> cases r <;> simp

end Worker

namespace Backend

open Worker

/-- C26: the document reprocess route called with an id for which no Document
exists answers 404 with the error `Document not found` and returns the state it
was given: no Job is created, no Page is deleted, no Document is modified and
nothing is enqueued. -/
theorem reprocess_missing_document (env : RouteEnv) (uuid : String) (documentId : Nat)
    (language : Option String) (preprocess : Option Preprocess) (st : State)
    (h : findDocument st.store documentId = none) :
    reprocessDocument env uuid documentId language preprocess st =
      (st, { status := 404, error := some "Document not found" }) := by
  unfold reprocessDocument
  simp only [h]

/-- C26 on the processed text file, for an id no Document has. -/
theorem reprocess_missing_document_witness :
    findDocument processedState.store 7 = none ∧
    reprocessDocument routeEnv "job-2" 7 (some "eng") none processedState =
      (processedState, { status := 404, error := some "Document not found" }) :=
  ⟨by decide, reprocess_missing_document routeEnv "job-2" 7 (some "eng") none processedState
    (by decide)⟩

end Backend

namespace OCRProcessor

open Worker

theorem length_pos_iff_ne_empty (t : String) : decide (t.length > 0) = decide (t ≠ "") := by
  have h : t.length = 0 ↔ t = "" := by
    constructor
    · intro h0
      have hd : t.data = [] := List.length_eq_zero.mp h0
      exact String.ext hd
    · intro he
      rw [he]
      rfl
  by_cases ht : t = ""
  · simp [ht]
  · have : t.length ≠ 0 := fun h0 => ht (h.mp h0)
    simp [ht, Nat.pos_of_ne_zero this]

theorem filter_map_toTextBlock (blocks : List EngineBlock) :
    (blocks.map toTextBlock).filter (fun block => decide (block.text.length > 0)) =
      (blocks.filter (fun b => decide (trim b.text ≠ ""))).map toTextBlock := by
  induction blocks with
  | nil => rfl
  | cons b rest ih =>
    have hb : decide ((toTextBlock b).text.length > 0) = decide (trim b.text ≠ "") :=
      length_pos_iff_ne_empty (trim b.text)
    simp only [List.map_cons, List.filter_cons, hb]
    by_cases h : trim b.text ≠ ""
    · simp [h, ih]
    · simp [h, ih]

/-- C27: when the preprocessing (if requested) and the engine succeed,
`OCRProcessor.processImage` returns the engine's text trimmed, the engine's
overall confidence, and the text blocks obtained from the engine's blocks, in
the same order, by dropping the blocks whose trimmed text is empty and, for
each remaining block, keeping the trimmed text, the confidence and the
coordinates x0, y0, x1, y1 of its bounding box. -/
theorem processImage_result (env : OcrEnv) (imagePath : String) (options : Options)
    (processedPath : String) (data : EngineData)
    (hpre : ∀ pre, options.preprocess = some pre →
      ImageProcessor.preprocess env.image imagePath pre = Except.ok processedPath)
    (hnone : options.preprocess = none → processedPath = imagePath)
    (hrec : env.recognize processedPath (languageOf options) = Except.ok data) :
    processImage env imagePath options =
      Except.ok
        { text := trim data.text
          confidence := data.confidence
          textBlocks := (data.blocks.filter (fun b => decide (trim b.text ≠ ""))).map
            (fun b =>
              { text := trim b.text
                confidence := b.confidence
                bbox := { x0 := b.bbox.x0, y0 := b.bbox.y0, x1 := b.bbox.x1, y1 := b.bbox.y1,
                          confidence := b.confidence } }) } ∧
    List.Sublist (data.blocks.filter (fun b => decide (trim b.text ≠ ""))) data.blocks := by
  refine ⟨?_, List.filter_sublist _⟩
  unfold processImage
  cases hp : options.preprocess with
  | none =>
    have h1 := hnone hp
    subst h1
    simp [hrec, bind, Except.bind, pure, Except.pure, filter_map_toTextBlock]
    intro a _ _
    rfl
  | some pre =>
    have h1 := hpre pre hp
    simp [h1, hrec, bind, Except.bind, pure, Except.pure, filter_map_toTextBlock]
    intro a _ _
    rfl

/-- C27 on an engine result of three blocks, the second of which is blank. -/
theorem processImage_result_witness :
    processImage sampleOcrEnv "pages/scan-1.png" { language := some "eng" } =
      Except.ok
        { text := "Invoice 42\nTotal due"
          confidence := 91
          textBlocks :=
            [{ text := "Invoice 42", confidence := 93,
               bbox := { x0 := 10, y0 := 12, x1 := 200, y1 := 40, confidence := 93 } },
             { text := "Total due", confidence := 89,
               bbox := { x0 := 10, y0 := 60, x1 := 180, y1 := 90, confidence := 89 } }] } :=
  (processImage_result sampleOcrEnv "pages/scan-1.png" { language := some "eng" }
    "pages/scan-1.png" sampleData (fun _ h => by simp at h) (fun _ => rfl) rfl).1

end OCRProcessor

namespace PDFProcessor

theorem collect_eq (existsSync : String → Bool) (pathOf : Nat → String) :
    ∀ (remaining i : Nat) (imagePaths : List String),
      collect existsSync pathOf remaining i imagePaths =
        imagePaths ++ ((List.range' i remaining).filter
          (fun j => existsSync (pathOf j))).map pathOf := by
  intro remaining
  induction remaining with
  | zero => intro i acc; simp [collect]
  | succ r ih =>
    intro i acc
    rw [collect, ih, List.range'_succ, List.filter_cons]
    by_cases h : existsSync (pathOf i) = true
    · simp [h]
    · simp [h]

theorem convertToImages_eq (env : PdfEnv) (pdfPath outputDir : String) (n : Nat)
    (existsAfter : String → Bool)
    (hdir : env.existsSync outputDir = true ∨ env.mkdirSync outputDir = none)
    (hconv : env.convert pdfPath outputDir (env.basename pdfPath ".pdf") =
      Except.ok (n, existsAfter)) :
    convertToImages env pdfPath outputDir =
      Except.ok (((List.range' 1 n).filter
        (fun i => existsAfter (imagePath env outputDir (env.basename pdfPath ".pdf") i))).map
        (imagePath env outputDir (env.basename pdfPath ".pdf"))) := by
  unfold convertToImages
  have hmade : (if env.existsSync outputDir then none else env.mkdirSync outputDir) = none := by
    rcases hdir with h | h
    · simp [h]
    · simp [h]
  simp only [hmade, hconv, collect_eq, List.nil_append]

/-- C30: when the output directory exists or can be made and the conversion
reports `n` pages, `PDFProcessor.convertToImages` returns the paths
`<prefix>-i.png` for exactly those `i` in `1..n` whose file exists after the
conversion, in strictly increasing `i`; their number is at most `n`, and it is
`n` exactly when every page image exists, in which case the `k`-th path (the
`pageNumber` `k` of the worker) is the image of source page `k`. -/
theorem convertToImages_paths (env : PdfEnv) (pdfPath outputDir : String) (n : Nat)
    (existsAfter : String → Bool)
    (hdir : env.existsSync outputDir = true ∨ env.mkdirSync outputDir = none)
    (hconv : env.convert pdfPath outputDir (env.basename pdfPath ".pdf") =
      Except.ok (n, existsAfter)) :
    ∃ indices : List Nat,
      convertToImages env pdfPath outputDir =
        Except.ok (indices.map (imagePath env outputDir (env.basename pdfPath ".pdf"))) ∧
      (∀ i, i ∈ indices ↔ (1 ≤ i ∧ i ≤ n ∧
        existsAfter (imagePath env outputDir (env.basename pdfPath ".pdf") i) = true)) ∧
      indices.Pairwise (· < ·) ∧
      indices.length ≤ n ∧
      (indices.length = n ↔ ∀ i, 1 ≤ i → i ≤ n →
        existsAfter (imagePath env outputDir (env.basename pdfPath ".pdf") i) = true) ∧
      ((∀ i, 1 ≤ i → i ≤ n →
          existsAfter (imagePath env outputDir (env.basename pdfPath ".pdf") i) = true) →
        ∀ k, 1 ≤ k → k ≤ n →
          (indices.map (imagePath env outputDir (env.basename pdfPath ".pdf")))[k - 1]? =
            some (imagePath env outputDir (env.basename pdfPath ".pdf") k)) := by
  refine ⟨(List.range' 1 n).filter
    (fun i => existsAfter (imagePath env outputDir (env.basename pdfPath ".pdf") i)),
    convertToImages_eq env pdfPath outputDir n existsAfter hdir hconv, ?_, ?_, ?_, ?_, ?_⟩
  · intro i
    simp only [List.mem_filter, List.mem_range'_1]
    constructor
    · rintro ⟨⟨h1, h2⟩, h3⟩
      exact ⟨h1, by omega, h3⟩
    · rintro ⟨h1, h2, h3⟩
      exact ⟨⟨h1, by omega⟩, h3⟩
  · exact List.Pairwise.sublist (List.filter_sublist _) (List.pairwise_lt_range' 1 n)
  · have := List.length_filter_le
      (fun i => existsAfter (imagePath env outputDir (env.basename pdfPath ".pdf") i))
      (List.range' 1 n)
    simpa using this
  · have hlen : (List.range' 1 n).length = n := by simp
    constructor
    · intro h i h1 h2
      have hsub := List.filter_sublist (l := List.range' 1 n)
        (p := fun i => existsAfter (imagePath env outputDir (env.basename pdfPath ".pdf") i))
      have heq := hsub.eq_of_length (by rw [h, hlen])
      have hmem : i ∈ List.range' 1 n := by
        rw [List.mem_range'_1]
        omega
      rw [← heq] at hmem
      exact (List.mem_filter.mp hmem).2
    · intro h
      have heq : (List.range' 1 n).filter
          (fun i => existsAfter (imagePath env outputDir (env.basename pdfPath ".pdf") i)) =
          List.range' 1 n := by
        rw [List.filter_eq_self]
        intro i hi
        rw [List.mem_range'_1] at hi
        exact h i hi.1 (by omega)
      rw [heq, hlen]
  · intro h k h1 h2
    have heq : (List.range' 1 n).filter
        (fun i => existsAfter (imagePath env outputDir (env.basename pdfPath ".pdf") i)) =
        List.range' 1 n := by
      rw [List.filter_eq_self]
      intro i hi
      rw [List.mem_range'_1] at hi
      exact h i hi.1 (by omega)
    have hk : k - 1 < n := by omega
    rw [heq, List.getElem?_map, List.getElem?_range' 1 1 hk]
    simp only [Option.map_some']
    congr 2
    omega

/-- C30 on a conversion that reports 4 pages and leaves no image of page 3. -/
theorem convertToImages_paths_witness :
    convertToImages gapEnv "uploads/report.pdf" "pages" =
      Except.ok ["pages/report-1.png", "pages/report-2.png", "pages/report-4.png"] ∧
    ∃ indices : List Nat,
      convertToImages gapEnv "uploads/report.pdf" "pages" =
        Except.ok (indices.map (imagePath gapEnv "pages" "report")) ∧
      indices.Pairwise (· < ·) ∧ indices.length ≤ 4 ∧ 3 ∉ indices := by
  refine ⟨rfl, ?_⟩
  obtain ⟨indices, h, hmem, hsorted, hlen, _⟩ :=
    convertToImages_paths gapEnv "uploads/report.pdf" "pages" 4
      (fun f => decide (f ≠ "pages/report-3.png")) (Or.inl rfl) rfl
  refine ⟨indices, h, hsorted, hlen, ?_⟩
  intro h3
  have := ((hmem 3).mp h3).2.2
  revert this
  decide

end PDFProcessor

/-! ## Properties of the search route -/

namespace Search

theorem rendered_copy_append (m : Str) {r s : Str} (h : Rendered r s) :
    Rendered (m ++ r) (m ++ s) := by
  induction m with
  | nil => exact h
  | cons c m ih => exact Rendered.copy c ih

theorem rendered_self (s : Str) : Rendered s s := by
  have := rendered_copy_append s Rendered.done
  simpa using this

theorem rendered_render : ∀ segs : List Seg, Rendered (render segs) (source segs) := by
  intro segs
  induction segs with
  | nil => exact Rendered.done
  | cons seg rest ih =>
    cases seg with
    | plain c => exact Rendered.copy c ih
    | mark m =>
      have h := Rendered.opened (rendered_copy_append m (Rendered.closed ih))
      have e : render (Seg.mark m :: rest) = openMark ++ (m ++ (closeMark ++ render rest)) := by
        show openMark ++ m ++ closeMark ++ render rest = _
        rw [List.append_assoc, List.append_assoc]
      rw [e]
      exact h

/-- A string without `<` (code unit 60) that starts the highlighted remainder
starts the source remainder as well. -/
theorem prefix_of_rendered : ∀ (p : Str), 60 ∉ p → ∀ {r s : Str}, Rendered r s →
    p <+: r → p <+: s := by
  intro p
  induction p with
  | nil => intro _ r s _ _; exact List.nil_prefix
  | cons a p ih =>
    intro hp r s h hpre
    have ha : a ≠ 60 := fun e => hp (by simp [e])
    have hp2 : 60 ∉ p := fun e => hp (by simp [e])
    cases h with
    | done => simp at hpre
    | copy c h2 =>
      rw [List.cons_prefix_cons] at hpre ⊢
      exact ⟨hpre.1, ih hp2 h2 hpre.2⟩
    | opened h2 =>
      have : a = 60 := by
        have h3 : a :: p <+: 60 :: ([109, 97, 114, 107, 62] ++ _) := hpre
        rw [List.cons_prefix_cons] at h3
        exact h3.1
      exact absurd this ha
    | closed h2 =>
      have : a = 60 := by
        have h3 : a :: p <+: 60 :: ([47, 109, 97, 114, 107, 62] ++ _) := hpre
        rw [List.cons_prefix_cons] at h3
        exact h3.1
      exact absurd this ha

theorem deleteMarks_openMark (r : Str) : deleteMarks 0 (openMark ++ r) = deleteMarks 0 r := by
  show deleteMarks 0 (60 :: 109 :: 97 :: 114 :: 107 :: 62 :: r) = _
  have h : openMark.isPrefixOf (60 :: 109 :: 97 :: 114 :: 107 :: 62 :: r) = true := by
    simp [openMark, List.isPrefixOf]
  rw [deleteMarks, if_pos h]
  simp [deleteMarks]

theorem deleteMarks_closeMark (r : Str) : deleteMarks 0 (closeMark ++ r) = deleteMarks 0 r := by
  show deleteMarks 0 (60 :: 47 :: 109 :: 97 :: 114 :: 107 :: 62 :: r) = _
  have h1 : openMark.isPrefixOf (60 :: 47 :: 109 :: 97 :: 114 :: 107 :: 62 :: r) = false := by
    simp [openMark, List.isPrefixOf]
  have h2 : closeMark.isPrefixOf (60 :: 47 :: 109 :: 97 :: 114 :: 107 :: 62 :: r) = true := by
    simp [closeMark, List.isPrefixOf]
  rw [deleteMarks, h1, h2]
  simp [deleteMarks]

/-- Deleting the markers from a highlighted string gives its source, when no
marker starts anywhere in the source. -/
theorem deleteMarks_rendered {r s : Str} (h : Rendered r s) :
    (∀ t, t <:+ s → ¬ openMark <+: t ∧ ¬ closeMark <+: t) → deleteMarks 0 r = s := by
  induction h with
  | done => intro _; rfl
  | @copy c r s h2 ih =>
    intro hfree
    have hrest : ∀ t, t <:+ s → ¬ openMark <+: t ∧ ¬ closeMark <+: t :=
      fun t ht => hfree t (ht.trans (List.suffix_cons c s))
    have hhere := hfree (c :: s) (List.suffix_refl _)
    have h1 : openMark.isPrefixOf (c :: r) = false := by
      rw [Bool.eq_false_iff]
      intro hc
      have hc2 : 60 :: [109, 97, 114, 107, 62] <+: c :: r := List.isPrefixOf_iff_prefix.mp hc
      rw [List.cons_prefix_cons] at hc2
      have := prefix_of_rendered [109, 97, 114, 107, 62] (by decide) h2 hc2.2
      exact hhere.1 (by
        show 60 :: [109, 97, 114, 107, 62] <+: c :: s
        rw [List.cons_prefix_cons]
        exact ⟨hc2.1, this⟩)
    have h3 : closeMark.isPrefixOf (c :: r) = false := by
      rw [Bool.eq_false_iff]
      intro hc
      have hc2 : 60 :: [47, 109, 97, 114, 107, 62] <+: c :: r :=
        List.isPrefixOf_iff_prefix.mp hc
      rw [List.cons_prefix_cons] at hc2
      have := prefix_of_rendered [47, 109, 97, 114, 107, 62] (by decide) h2 hc2.2
      exact hhere.2 (by
        show 60 :: [47, 109, 97, 114, 107, 62] <+: c :: s
        rw [List.cons_prefix_cons]
        exact ⟨hc2.1, this⟩)
    rw [deleteMarks, h1, h3]
    simp only [Bool.false_eq_true, if_false]
    rw [ih hrest]
  | opened h2 ih =>
    intro hfree
    rw [deleteMarks_openMark]
    exact ih hfree
  | closed h2 ih =>
    intro hfree
    rw [deleteMarks_closeMark]
    exact ih hfree

theorem stripMarks_render (segs : List Seg)
    (hopen : ¬ openMark <:+: source segs) (hclose : ¬ closeMark <:+: source segs) :
    stripMarks (render segs) = source segs := by
  unfold stripMarks
  refine deleteMarks_rendered (rendered_render segs) ?_
  intro t ht
  exact ⟨fun h => hopen (h.isInfix.trans ht.isInfix), fun h => hclose (h.isInfix.trans ht.isInfix)⟩

/-- A string without markers is left as it is. -/
theorem stripMarks_plain (s : Str) (hopen : ¬ openMark <:+: s) (hclose : ¬ closeMark <:+: s) :
    stripMarks s = s := by
  unfold stripMarks
  refine deleteMarks_rendered (rendered_self s) ?_
  intro t ht
  exact ⟨fun h => hopen (h.isInfix.trans ht.isInfix), fun h => hclose (h.isInfix.trans ht.isInfix)⟩

/-- C28, as stated, fails: the page text is 150 times U+0130 (`İ`) followed by
`needle`, and the query is `needle`.  The text holds no marker, the query word
is non-empty and literal, and it occurs in the text at position 150 and in the
lower-cased text at position 300, because every `İ` has a lower case of two
code units.  Applied to the text
itself, of 156 code units, the window bounds 200 and 156 give the empty window;
the highlighted snippet is empty and the route returns the first 200 code
units of the text: deleting the markers from the snippet gives the whole text,
not the window. -/
theorem empty_window_returns_fallback :
    ¬ openMark <:+: (List.replicate 150 304 ++ units "needle") ∧
    ¬ closeMark <:+: (List.replicate 150 304 ++ units "needle") ∧
    (∀ w ∈ queryWords latinRules (units "needle"), w ≠ [] ∧ literalWord w = true) ∧
    indexOf (List.replicate 150 304 ++ units "needle") (units "needle") = some 150 ∧
    indexOf (latinRules.toLowerCase (List.replicate 150 304 ++ units "needle"))
      (units "needle") = some 300 ∧
    plainSnippet latinRules (units "needle") (List.replicate 150 304 ++ units "needle") = [] ∧
    resultSnippet latinRules (units "needle") (List.replicate 150 304 ++ units "needle") =
      List.replicate 150 304 ++ units "needle" ∧
    stripMarks (resultSnippet latinRules (units "needle")
        (List.replicate 150 304 ++ units "needle")) ≠
      plainSnippet latinRules (units "needle") (List.replicate 150 304 ++ units "needle") := by
  decide

/-- C28, amended: for every page text that contains neither `<mark>` nor
`</mark>` and every query of non-empty literal words of which at least one
occurs in the lower-cased text, deleting the markers from the snippet of the
result gives exactly the un-highlighted window when the window is not empty,
and the first 200 code units of the text when it is empty; in both cases the
result is a contiguous part of the page text, so the highlighting only inserts
markers.  The window is not empty whenever lower-casing keeps the length of
the text.  The statement holds for all case conversions of the engine. -/
theorem stripping_marks_gives_window (u : CaseRules) (q text : Str)
    (hwords : ∀ w ∈ queryWords u q, w ≠ [] ∧ literalWord w = true)
    (hocc : ∃ w ∈ queryWords u q, indexOf (u.toLowerCase text) w ≠ none)
    (hopen : ¬ openMark <:+: text) (hclose : ¬ closeMark <:+: text) :
    stripMarks (resultSnippet u q text) =
      (if plainSnippet u q text = [] then text.take 200 else plainSnippet u q text) ∧
    plainSnippet u q text <:+: text ∧
    stripMarks (resultSnippet u q text) <:+: text ∧
    ((u.toLowerCase text).length = text.length →
      plainSnippet u q text ≠ [] ∧
      stripMarks (resultSnippet u q text) = plainSnippet u q text) := by
  obtain ⟨pre, w, rest, i, hq, hpre, hi⟩ := exists_first_found text (queryWords u q) hocc
  have hplain := plainSnippet_found hq hpre hi
  have hinfix : plainSnippet u q text <:+: text := by
    rw [hplain]
    exact (List.drop_suffix _ _).isInfix.trans (List.take_prefix _ _).isInfix
  have hsrc := source_segments (u := u) (queryWords u q) (plainSnippet u q text)
  have hfull : plainSnippet u q text ≠ [] →
      stripMarks (resultSnippet u q text) = plainSnippet u q text := by
    intro hne
    rw [resultSnippet_found hq hpre hi hne,
      stripMarks_render _ (by rw [hsrc]; exact fun h => hopen (h.trans hinfix))
        (by rw [hsrc]; exact fun h => hclose (h.trans hinfix)), hsrc]
  have htake : text.take 200 <:+: text := (List.take_prefix 200 text).isInfix
  have hempty : plainSnippet u q text = [] →
      stripMarks (resultSnippet u q text) = text.take 200 := by
    intro hnil
    have hloop := snippetLoop_found (u := u) text (queryWords u q) pre rest w i hpre hi
    rw [← hq] at hloop
    have hwin : substring text (windowStart i) (windowEnd text w i) = [] := by
      have : plainSnippet u q text =
          substring text (windowStart i) (windowEnd text w i) := by
        unfold plainSnippet; rw [hloop]
      rw [← this]; exact hnil
    have hhi : (snippetLoop u text (queryWords u q) (queryWords u q)).2 = [] := by
      rw [hloop, hwin]
      show render (scan u (queryWords u q) 1 []) = []
      unfold scan
      cases hm : matchAlt u (queryWords u q) [] with
      | none => rfl
      | some l =>
        obtain ⟨w1, hw1, hmatch, _⟩ := matchAlt_some hm
        have hl := matchesAt_length hmatch
        have : w1 = [] := List.length_eq_zero.mp (Nat.le_zero.mp hl)
        exact absurd this (hwords w1 hw1).1
    have hres : resultSnippet u q text = text.take 200 := by
      unfold resultSnippet
      simp [hhi, substring]
    rw [hres]
    exact stripMarks_plain _ (fun h => hopen (h.trans htake)) (fun h => hclose (h.trans htake))
  refine ⟨?_, hinfix, ?_, ?_⟩
  · by_cases hnil : plainSnippet u q text = []
    · rw [if_pos hnil]; exact hempty hnil
    · rw [if_neg hnil]; exact hfull hnil
  · by_cases hnil : plainSnippet u q text = []
    · rw [hempty hnil]; exact htake
    · rw [hfull hnil]; exact hinfix
  · intro hsame
    have hne := plainSnippet_ne_nil q text (fun w hw => (hwords w hw).1) hocc hsame
    exact ⟨hne, hfull hne⟩

/-- The amended C28 on the page text of the workflow test and the query
`machine learning`. -/
theorem stripping_marks_gives_window_witness :
    resultSnippet latinRules (units "machine learning")
        (units "Machine learning algorithms process data efficiently.") =
      units "<mark>Machine</mark> <mark>learning</mark> algorithms process data efficiently." ∧
    stripMarks (resultSnippet latinRules (units "machine learning")
        (units "Machine learning algorithms process data efficiently.")) =
      plainSnippet latinRules (units "machine learning")
        (units "Machine learning algorithms process data efficiently.") :=
  ⟨by decide,
    ((stripping_marks_gives_window latinRules (units "machine learning")
      (units "Machine learning algorithms process data efficiently.")
      (by decide) (by decide) (by decide) (by decide)).2.2.2 (by decide)).2⟩

end Search

namespace Worker

/-! The binary64 quotient of two integers, rounded up. -/

theorem findScale_spec (n d : Nat) : ∀ (fuel s0 : Nat),
    (∃ t, s0 ≤ t ∧ t ≤ s0 + fuel ∧ 2 ^ 52 * d ≤ n * 2 ^ t) →
    2 ^ 52 * d ≤ n * 2 ^ findScale n d fuel s0 := by
  intro fuel
  induction fuel with
  | zero =>
    rintro s0 ⟨t, h1, h2, h3⟩
    have : t = s0 := by omega
    subst this
    exact h3
  | succ fuel ih =>
    rintro s0 ⟨t, h1, h2, h3⟩
    unfold findScale
    by_cases hc : 2 ^ 52 * d ≤ n * 2 ^ s0
    · rw [if_pos hc]; exact hc
    · rw [if_neg hc]
      have hne : t ≠ s0 := fun e => hc (e ▸ h3)
      exact ih (s0 + 1) ⟨t, by omega, by omega, h3⟩

theorem roundHalfEven_ge (n d : Nat) : n / d ≤ roundHalfEven n d := by
  unfold roundHalfEven
  simp only []
  split_ifs <;> omega

theorem roundHalfEven_le (n d : Nat) : roundHalfEven n d ≤ n / d + 1 := by
  unfold roundHalfEven
  simp only []
  split_ifs <;> omega

theorem roundHalfEven_up (n d : Nat) (h : d < 2 * (n % d)) : roundHalfEven n d = n / d + 1 := by
  unfold roundHalfEven
  simp only []
  split_ifs <;> omega

theorem roundHalfEven_exact (a d : Nat) (hd : 0 < d) : roundHalfEven (d * a) d = a := by
  unfold roundHalfEven
  simp only []
  rw [Nat.mul_div_cancel_left a hd, Nat.mul_mod_right]
  simp [hd]

theorem mathCeil_fdiv (total limit : Nat) (hl : 0 < limit) (hl2 : limit < 2 ^ 53)
    (ht : total < 2 ^ 53) : mathCeil (fdiv total limit) = (total + limit - 1) / limit := by
  have hdm := Nat.div_add_mod total limit
  have hr := Nat.mod_lt total hl
  generalize hq : total / limit = q at hdm
  generalize hrr : total % limit = r at hdm hr
  unfold mathCeil fdiv toDouble
  simp only []
  generalize hs : findScale total limit 1074 0 = s
  have hP : 0 < 2 ^ s := Nat.pow_pos (by norm_num)
  generalize hPP : 2 ^ s = P at hP
  by_cases hr0 : r = 0
  · subst hr0
    have htot : total = limit * q := by omega
    have h1 : total * P = limit * (q * P) := by rw [htot, Nat.mul_assoc]
    rw [h1, roundHalfEven_exact _ _ hl]
    have h2 : (total + limit - 1) / limit = q := by
      apply Nat.div_eq_of_lt_le
      · rw [htot, Nat.mul_comm]; omega
      · rw [htot, Nat.succ_mul, Nat.mul_comm]; omega
    rw [h2]
    apply Nat.div_eq_of_lt_le
    · omega
    · rw [Nat.succ_mul]; omega
  · have hr1 : 1 ≤ r := Nat.one_le_iff_ne_zero.mpr hr0
    have htot : total = limit * q + r := by omega
    have hcond : 2 ^ 52 * limit ≤ total * P := by
      rw [← hPP, ← hs]
      apply findScale_spec
      refine ⟨105, by omega, by omega, ?_⟩
      have h1 : 2 ^ 52 * limit ≤ 2 ^ 52 * 2 ^ 53 := Nat.mul_le_mul_left _ hl2.le
      have h2 : (2 : Nat) ^ 52 * 2 ^ 53 = 2 ^ 105 := by norm_num
      have h3 : 1 * 2 ^ 105 ≤ total * 2 ^ 105 := Nat.mul_le_mul_right _ (by omega)
      omega
    have hlim : limit < 2 * P := by
      have h1 : total * P < 2 ^ 53 * P := Nat.mul_lt_mul_of_pos_right ht hP
      have h2 : (2 : Nat) ^ 53 * P = 2 ^ 52 * (2 * P) := by ring
      have h3 : 2 ^ 52 * limit < 2 ^ 52 * (2 * P) := by omega
      exact Nat.lt_of_mul_lt_mul_left h3
    have hN : total * P = limit * (q * P) + r * P := by rw [htot]; ring
    have hQlo : q * P ≤ total * P / limit := by
      rw [Nat.le_div_iff_mul_le hl, hN, Nat.mul_comm]
      exact Nat.le_add_right _ _
    have hrP : r * P < limit * P := Nat.mul_lt_mul_of_pos_right hr hP
    have hQhi : total * P / limit < q * P + P := by
      rw [Nat.div_lt_iff_lt_mul hl, hN, Nat.add_mul, Nat.mul_comm (q * P) limit,
        Nat.mul_comm P limit]
      omega
    have hmlo : q * P < roundHalfEven (total * P) limit := by
      by_cases hQ : q * P < total * P / limit
      · exact lt_of_lt_of_le hQ (roundHalfEven_ge _ _)
      · have hQe : total * P / limit = q * P := by omega
        have hR : total * P % limit = r * P := by
          have := Nat.div_add_mod (total * P) limit
          rw [hQe] at this
          omega
        rw [roundHalfEven_up _ _ (by
          rw [hR]
          have : 2 * P * 1 ≤ 2 * P * r := Nat.mul_le_mul_left _ hr1
          have e : 2 * (r * P) = 2 * P * r := by ring
          omega), hQe]
        omega
    have hmhi : roundHalfEven (total * P) limit ≤ q * P + P := by
      have := roundHalfEven_le (total * P) limit
      omega
    have h2 : (total + limit - 1) / limit = q + 1 := by
      apply Nat.div_eq_of_lt_le
      · rw [htot, Nat.add_mul, Nat.mul_comm q limit]; omega
      · rw [htot, Nat.succ_mul, Nat.add_mul, Nat.mul_comm q limit]; omega
    rw [h2]
    apply Nat.div_eq_of_lt_le
    · rw [Nat.add_mul]; omega
    · rw [Nat.succ_mul, Nat.add_mul]; omega
end Worker

namespace Search

theorem replaceMatches_literal (u : CaseRules) (regExp : Str → Except String (Str → Str))
    (words : List Str) (snippet : Str) (hwords : words.all literalWord = true) :
    replaceMatches u regExp words snippet = Except.ok (highlight u words snippet) := by
  unfold replaceMatches
  rw [if_pos hwords]

theorem snippetLoopRaising_literal (u : CaseRules) (regExp : Str → Except String (Str → Str))
    (text : Str) (words : List Str) (hwords : words.all literalWord = true) :
    ∀ ws : List Str, snippetLoopRaising u regExp text words ws =
      Except.ok (snippetLoop u text words ws) := by
  intro ws
  induction ws with
  | nil => rfl
  | cons w rest ih =>
    unfold snippetLoopRaising snippetLoop
    cases indexOf (u.toLowerCase text) w with
    | none => exact ih
    | some i => simp only [replaceMatches_literal u regExp words _ hwords]

/-- For a query of literal words (empty words included) the computation of the
snippet does not raise and gives `resultSnippet`. -/
theorem snippetField_literal (u : CaseRules) (regExp : Str → Except String (Str → Str))
    (q text : Str) (hwords : (queryWords u q).all literalWord = true) :
    snippetField u regExp q text = Except.ok (resultSnippet u q text) := by
  unfold snippetField resultSnippet
  rw [snippetLoopRaising_literal u regExp text _ hwords]

theorem snippetLoopRaising_error (u : CaseRules) (regExp : Str → Except String (Str → Str))
    (text : Str) (words : List Str) (msg : String) (hmeta : words.all literalWord = false)
    (hraise : regExp (patternSource words) = Except.error msg) :
    ∀ ws : List Str, (∃ w ∈ ws, indexOf (u.toLowerCase text) w ≠ none) →
      snippetLoopRaising u regExp text words ws = Except.error msg := by
  intro ws
  induction ws with
  | nil => rintro ⟨w, hw, _⟩; simp at hw
  | cons a rest ih =>
    rintro ⟨w, hw, hocc⟩
    unfold snippetLoopRaising
    cases ha : indexOf (u.toLowerCase text) a with
    | some i =>
      simp only [replaceMatches, hmeta, Bool.false_eq_true, if_false, hraise]
    | none =>
      simp only []
      rcases List.mem_cons.mp hw with rfl | hw2
      · exact absurd ha hocc
      · exact ih ⟨w, hw2, hocc⟩

/-- For a query with a word that is not literal, if the engine rejects the
pattern and a query word occurs in the page text, the computation of the
snippet raises. -/
theorem snippetField_error (u : CaseRules) (regExp : Str → Except String (Str → Str))
    (q text : Str) (msg : String) (hmeta : (queryWords u q).all literalWord = false)
    (hraise : regExp (patternSource (queryWords u q)) = Except.error msg)
    (hocc : ∃ w ∈ queryWords u q, indexOf (u.toLowerCase text) w ≠ none) :
    snippetField u regExp q text = Except.error msg := by
  unfold snippetField
  rw [snippetLoopRaising_error u regExp text _ msg hmeta hraise _ hocc]

end Search

namespace SearchRoute

open Worker Search

theorem roundNat_exact (n : Nat) (h : n < 2 ^ 53) : roundNat n = n := by
  unfold roundNat
  rw [if_pos h]

theorem ofInt_natCast (n : Nat) (h : n < 2 ^ 53) : ofInt (n : Int) = Number64.finite (n : Int) := by
  have h1 : (2 : Nat) ^ 53 < 2 ^ 1024 := Nat.pow_lt_pow_right (by norm_num) (by norm_num)
  unfold ofInt
  simp only [Int.natAbs_ofNat, roundNat_exact n h]
  rw [if_pos ⟨by omega, by omega⟩, if_neg (by omega)]

/-- What a result keeps of the page it was made from. -/
theorem toResults_literal (env : SearchEnv) (q : String)
    (hwords : (queryWords env.rules (units q)).all literalWord = true) :
    ∀ found : List Found, (∀ f ∈ found, f.document ≠ none) →
      ∃ results, toResults env q found = Except.ok results ∧
        List.Forall₂
          (fun f r =>
            f.document.map (fun d => (d.id, d.originalName)) =
              some (r.documentId, r.documentName) ∧
            r.pageNumber = f.page.pageNumber ∧
            r.snippet = resultSnippet env.rules (units q) (units f.page.text) ∧
            r.confidence = f.page.confidence ∧ r.score = f.score)
          found results := by
  intro found
  induction found with
  | nil => intro _; exact ⟨[], rfl, List.Forall₂.nil⟩
  | cons f rest ih =>
    intro hdocs
    obtain ⟨results, hres, hall⟩ := ih (fun g hg => hdocs g (by simp [hg]))
    have hf := hdocs f (by simp)
    cases hd : f.document with
    | none => exact absurd hd hf
    | some d =>
      refine ⟨{ documentId := d.id, documentName := d.originalName,
                pageNumber := f.page.pageNumber,
                snippet := resultSnippet env.rules (units q) (units f.page.text),
                confidence := f.page.confidence, score := f.score } :: results, ?_, ?_⟩
      · unfold toResults toResult
        simp only [snippetField_literal env.rules env.regExp _ _ hwords, hd, hres]
      · exact List.Forall₂.cons ⟨by simp [hd], rfl, rfl, rfl, rfl⟩ hall

/-- C24, as stated, fails for a page number that is not a binary64 number: the
request `page=9007199254740993&limit=1` (the page `2 ^ 53 + 1`) is answered
with page 9007199254740992, since `parseInt` gives the nearest binary64
number, and the skip handed to the store is `2 ^ 53 - 1`, not `2 ^ 53`. -/
theorem large_page_number_is_rounded :
    pageOf { q := some "data", page := some "9007199254740993", limit := some "1" } =
      Number64.finite 9007199254740992 ∧
    (search (sampleSearchEnv ["data 1"])
        { q := some "data", page := some "9007199254740993", limit := some "1" }
      ).response.pagination =
      some { page := some 9007199254740992, limit := some 1, total := 1, pages := some 1 } ∧
    (search (sampleSearchEnv ["data 1"])
        { q := some "data", page := some "9007199254740993", limit := some "1" }
      ).lookups.head? =
      some (Lookup.find "data" (Number64.finite 9007199254740991) (Number64.finite 1)) := by
  decide

/-- C24, amended: for a non-empty query of literal words, a page `p ≥ 1` and a
limit `L ≥ 1` read by `parseInt` (1 and 10 when omitted) and a count `total`,
with `L`, `total` and `(p - 1) · L` below `2 ^ 53`, when the store answers the
query with the ranked matches after skipping `(p - 1) · L` and taking `L`, and
every matched Page has its Document, the route asks the store for exactly that
skip and limit, then for the count, and answers 200 with pagination
`{ page: p, limit: L, total, pages: ⌈total / L⌉ }` (the binary64 quotient
rounded up is the exact ceiling), and with one result per returned match, in
order, at most `L` of them. -/
theorem search_pagination (env : SearchEnv) (req : Query) (q : String) (p L total : Nat)
    (ranked : List Found)
    (hq : req.q = some q) (hne : q ≠ "")
    (hpage : pageOf req = Number64.finite (p : Int))
    (hlimit : limitOf req = Number64.finite (L : Int))
    (hp : 1 ≤ p) (hL : 1 ≤ L) (hL2 : L < 2 ^ 53) (htotal : total < 2 ^ 53)
    (hskip : (p - 1) * L < 2 ^ 53)
    (hfind : env.find q (Number64.finite (((p - 1) * L : Nat) : Int))
        (Number64.finite (L : Int)) =
      Except.ok ((ranked.drop ((p - 1) * L)).take L))
    (hcount : env.countDocuments q = Except.ok total)
    (hdocs : ∀ f ∈ ranked, f.document ≠ none)
    (hwords : (queryWords env.rules (units q)).all literalWord = true) :
    ∃ results,
      search env req =
        { response :=
            { status := 200
              results := results
              pagination := some
                { page := some (p : Int), limit := some (L : Int), total := total,
                  pages := some (((total + L - 1) / L : Nat) : Int) }
              query := some q }
          lookups :=
            [Lookup.find q (Number64.finite (((p - 1) * L : Nat) : Int))
               (Number64.finite (L : Int)),
             Lookup.countDocuments q] } ∧
      results.length ≤ L ∧
      List.Forall₂
        (fun f r =>
          f.document.map (fun d => (d.id, d.originalName)) =
            some (r.documentId, r.documentName) ∧
          r.pageNumber = f.page.pageNumber ∧
          r.snippet = resultSnippet env.rules (units q) (units f.page.text) ∧
          r.confidence = f.page.confidence ∧ r.score = f.score)
        ((ranked.drop ((p - 1) * L)).take L) results ∧
      (req.page = none → p = 1) ∧ (req.limit = none → L = 10) := by
  have hsub : ∀ f ∈ (ranked.drop ((p - 1) * L)).take L, f.document ≠ none :=
    fun f hf => hdocs f (List.mem_of_mem_drop (List.mem_of_mem_take hf))
  obtain ⟨results, hres, hall⟩ := toResults_literal env q hwords _ hsub
  have hp1 : p - 1 < 2 ^ 53 := by
    have : (p - 1) * 1 ≤ (p - 1) * L := Nat.mul_le_mul_left _ hL
    omega
  have hskipOf : skipOf req = Number64.finite (((p - 1) * L : Nat) : Int) := by
    unfold skipOf
    rw [hpage, hlimit]
    have h1 : minusOne (Number64.finite (p : Int)) = Number64.finite ((p - 1 : Nat) : Int) := by
      show ofInt ((p : Int) - 1) = _
      rw [show ((p : Int) - 1) = ((p - 1 : Nat) : Int) by omega]
      exact ofInt_natCast _ hp1
    rw [h1]
    show ofInt (((p - 1 : Nat) : Int) * (L : Int)) = _
    rw [← Nat.cast_mul]
    exact ofInt_natCast _ hskip
  have hpages : pagesOf total (Number64.finite (L : Int)) =
      some (((total + L - 1) / L : Nat) : Int) := by
    unfold pagesOf
    have h0 : (L : Int) ≠ 0 := by omega
    have h1 : (0 : Int) < (L : Int) := by omega
    simp only [h0, if_false, h1, if_true, Int.toNat_ofNat]
    rw [mathCeil_fdiv total L hL hL2 htotal]
  refine ⟨results, ?_, ?_, hall, ?_, ?_⟩
  · unfold search
    simp only [hq, hne, if_false, hskipOf, hlimit, hfind, hcount, hres, hpage, hpages, toJson]
  · have := hall.length_eq
    rw [← this, List.length_take]
    exact Nat.min_le_left _ _
  · intro hnone
    unfold pageOf at hpage
    rw [hnone] at hpage
    have : (1 : Int) = (p : Int) := Number64.finite.inj hpage
    omega
  · intro hnone
    unfold limitOf at hlimit
    rw [hnone] at hlimit
    have : (10 : Int) = (L : Int) := Number64.finite.inj hlimit
    omega

/-- The amended C24 on seven matching pages, page 2 with limit 3: the results
are the fourth to sixth match and there are 3 pages. -/
theorem search_pagination_witness :
    (search
        (sampleSearchEnv ["data 1", "data 2", "data 3", "data 4", "data 5", "data 6", "data 7"])
        { q := some "data", page := some "2", limit := some "3" }).response.pagination =
      some { page := some 2, limit := some 3, total := 7, pages := some 3 } ∧
    (search
        (sampleSearchEnv ["data 1", "data 2", "data 3", "data 4", "data 5", "data 6", "data 7"])
        { q := some "data", page := some "2", limit := some "3" }).response.results.map
      (fun r => (r.pageNumber, r.snippet)) =
      [(4, units "<mark>data</mark> 4"), (5, units "<mark>data</mark> 5"),
       (6, units "<mark>data</mark> 6")] ∧
    (search
        (sampleSearchEnv ["data 1", "data 2", "data 3", "data 4", "data 5", "data 6", "data 7"])
        { q := some "data" }).response.pagination =
      some { page := some 1, limit := some 10, total := 7, pages := some 1 } := by
  obtain ⟨results, hrun, _, _, _, _⟩ := search_pagination
    (sampleSearchEnv ["data 1", "data 2", "data 3", "data 4", "data 5", "data 6", "data 7"])
    { q := some "data", page := some "2", limit := some "3" } "data" 2 3 7
    (rankedPages ["data 1", "data 2", "data 3", "data 4", "data 5", "data 6", "data 7"])
    rfl (by decide) (by decide) (by decide) (by decide) (by decide) (by norm_num)
    (by norm_num) (by norm_num) rfl rfl (by decide) (by decide)
  refine ⟨?_, by decide, by decide⟩
  rw [hrun]
  rfl

/-- C25: the route answers a missing or empty query with status 400 and the
error `Query parameter is required`, without any lookup in the store; for every
non-empty query it goes on to the store, its first lookup being the text
search for that query, and the answer is not a 400. -/
theorem query_validation (env : SearchEnv) (req : Query) :
    ((req.q = none ∨ req.q = some "") →
      search env req =
        { response := { status := 400, error := some "Query parameter is required" },
          lookups := [] }) ∧
    (∀ q, req.q = some q → q ≠ "" →
      (search env req).response.status ≠ 400 ∧
      (search env req).lookups.head? = some (Lookup.find q (skipOf req) (limitOf req))) := by
  constructor
  · rintro (h | h)
    · unfold search
      simp only [h]
    · unfold search
      simp only [h, if_true]
  · intro q hq hne
    unfold search
    simp only [hq, hne, if_false]
    cases env.find q (skipOf req) (limitOf req) with
    | error _ => exact ⟨by show (500 : Nat) ≠ 400; omega, rfl⟩
    | ok found =>
      simp only []
      cases env.countDocuments q with
      | error _ => exact ⟨by show (500 : Nat) ≠ 400; omega, rfl⟩
      | ok total =>
        simp only []
        cases toResults env q found with
        | error _ => exact ⟨by show (500 : Nat) ≠ 400; omega, rfl⟩
        | ok results => exact ⟨by show (200 : Nat) ≠ 400; omega, rfl⟩

/-- C25 on a request without `q`, on a request with `q=` and on the query
`data`. -/
theorem query_validation_witness :
    search (sampleSearchEnv ["data 1"]) {} =
      { response := { status := 400, error := some "Query parameter is required" },
        lookups := [] } ∧
    search (sampleSearchEnv ["data 1"]) { q := some "" } =
      { response := { status := 400, error := some "Query parameter is required" },
        lookups := [] } ∧
    (search (sampleSearchEnv ["data 1"]) { q := some "data" }).response.status = 200 ∧
    (search (sampleSearchEnv ["data 1"]) { q := some "data" }).lookups.head? =
      some (Lookup.find "data" (Number64.finite 0) (Number64.finite 10)) :=
  ⟨(query_validation (sampleSearchEnv ["data 1"]) {}).1 (Or.inl rfl),
    (query_validation (sampleSearchEnv ["data 1"]) { q := some "" }).1 (Or.inr rfl),
    by decide,
    ((query_validation (sampleSearchEnv ["data 1"]) { q := some "data" }).2 "data" rfl
      (by decide)).2⟩

/-- C29: the computation of the snippet is not total.  The query `(` gives the
pattern `(()` and the query `c++` the pattern `(c++)`; the engine rejects both,
the error is raised inside `results.map` whenever the word occurs in a matched
page, and the route answers 500 `Search failed`.  Queries with leading,
trailing or consecutive spaces only add empty alternatives to the pattern and
do not raise. -/
theorem metacharacter_query_fails :
    patternSource (queryWords latinRules (units "(")) = units "(()" ∧
    patternSource (queryWords latinRules (units "c++")) = units "(c++)" ∧
    (match snippetField latinRules (sampleSearchEnv []).regExp (units "(") (units "f(x) = 2") with
      | Except.error msg => some msg
      | Except.ok _ => none) = some "Invalid regular expression" ∧
    (search (sampleSearchEnv ["f(x) = 2"]) { q := some "(" }).response = searchFailed ∧
    (search (sampleSearchEnv ["Templates in C++ and Rust"]) { q := some "c++" }).response =
      searchFailed ∧
    (search (sampleSearchEnv ["Templates in C++ and Rust"]) { q := some "rust" }).response.status
      = 200 ∧
    patternSource (queryWords latinRules (units " ab  c ")) = units "(|ab||c|)" ∧
    (search (sampleSearchEnv ["ab"]) { q := some " ab  c " }).response.results.map
      (fun r => r.snippet) = [units "<mark></mark>a<mark></mark>b<mark></mark>"] := by
  decide

end SearchRoute
